import Mathlib

/-!
# MeshRemap: OBJ loader and vertex remapper

A shallow embedding of `src/TestMeshRemap.cpp` (`remapMesh`) and of
`src/OBJ_Loader.h` (`objl::algorithm`, `objl::Loader`), followed by the
theorems that settle the specification's claims against that code.

Conventions of the embedding:
* `std::string` is `List Char`; `std::vector<T>` and the rows of an Eigen
  matrix are `List`s; a loop `for (i = 0; i < n; i++)` is `forRange n`.
* Abnormal termination (a C++ exception, or an access that is undefined
  behaviour such as an index outside a buffer) is a `Fault`; every function
  that can terminate abnormally returns `Except Fault`.
* Memory that has been allocated and not written (`Eigen` `resize`, a local
  `Eigen::Vector3i`, a local `int`) holds `none`; a written value is `some`.
* `int` values are `Int`. The sizes that occur (rows of a matrix, elements of
  a vector) are taken to fit an `int`, as the source itself does when it
  compares `int i` with `rows()` and `size()`.
-/

namespace MeshRemap

/-! ## Faults, cells and checked buffer access -/

/-- Abnormal terminations of the C++ code. -/
inductive Fault where
  /-- An index outside the bounds of a vector, string or matrix. -/
  | outOfBounds
  /-- An indeterminate value is read and used. -/
  | uninitRead
  /-- Thrown as `std::invalid_argument` by `stoi`, `stod`, `stof`. -/
  | invalidArgument
  /-- Thrown as `std::out_of_range` by `stoi`, `stod`, `stof`, `substr`. -/
  | outOfRange
  /-- Signed integer overflow. -/
  | overflow
deriving DecidableEq, Repr

deriving instance DecidableEq for Except

/-- A value that may be indeterminate: `none` is allocated memory nothing has
written, `some a` a written value. -/
abbrev Cell (α : Type) := Option α

/-- Read `l[i]` for a C++ `int` index; outside the buffer it is a fault. -/
def getAt {α : Type} (l : List α) (i : Int) : Except Fault α :=
  if 0 ≤ i then
    match l.get? i.toNat with
    | some a => .ok a
    | none => .error .outOfBounds
  else .error .outOfBounds

/-- Write `l[i] = a` for a C++ `int` index; outside the buffer it is a fault. -/
def setAt {α : Type} (l : List α) (i : Int) (a : α) : Except Fault (List α) :=
  if 0 ≤ i ∧ i.toNat < l.length then .ok (l.set i.toNat a)
  else .error .outOfBounds

/-- The loop `for (int i = 0; i < n; i++) body`, threading the state `s`. -/
def forRange {σ : Type} (n : Nat) (body : Nat → σ → Except Fault σ) (s : σ) :
    Except Fault σ :=
  (List.range n).foldlM (fun s i => body i s) s

/-- An `Eigen::Vector3i`, one row of an `n × 3` `Eigen::MatrixXi`. -/
structure Vector3i where
  c0 : Cell Int
  c1 : Cell Int
  c2 : Cell Int
deriving DecidableEq, Repr

/-- The fresh, unwritten `Eigen::Vector3i`. -/
def Vector3i.fresh : Vector3i := ⟨none, none, none⟩

/-- Component `j` (0, 1 or 2) of a row. -/
def Vector3i.get (r : Vector3i) (j : Nat) : Cell Int :=
  match j with
  | 0 => r.c0
  | 1 => r.c1
  | _ => r.c2

/-- Assign component `j` (0, 1 or 2) of a row. -/
def Vector3i.set (r : Vector3i) (j : Nat) (x : Int) : Vector3i :=
  match j with
  | 0 => { r with c0 := some x }
  | 1 => { r with c1 := some x }
  | _ => { r with c2 := some x }

/-- The read `M(i, j)` of an `n × 3` integer matrix. -/
def coeff (M : List Vector3i) (i j : Nat) : Except Fault Int :=
  match M.get? i with
  | none => .error .outOfBounds
  | some r =>
    match r.get j with
    | none => .error .uninitRead
    | some x => .ok x

/-- The write `M(i, j) = x` of an `n × 3` integer matrix. -/
def setCoeff (M : List Vector3i) (i j : Nat) (x : Int) : Except Fault (List Vector3i) :=
  match M.get? i with
  | none => .error .outOfBounds
  | some r => .ok (M.set i (r.set j x))

/-! ## `remapMesh` (src/TestMeshRemap.cpp) -/

/-- The struct `MatrixMesh`. A row of an `Eigen::MatrixXd` is a `Cell R`, for
`R` the type of a row of doubles. -/
structure MatrixMesh (R : Type) where
  V : List (Cell R)
  N : List (Cell R)
  TC : List (Cell R)
  F : List Vector3i
  FN : List Vector3i
  FTC : List Vector3i
deriving DecidableEq, Repr

/-- Lines 26-31: one corner of the first pass. The texcoord index is appended
to the list of its position index unless `find` locates it there. -/
def collectCorner (v_tc_index : List (List Int)) (f_Index ftc_Index : Int) :
    Except Fault (List (List Int)) := do
  let row ← getAt v_tc_index f_Index
  if ftc_Index ∈ row then pure v_tc_index
  else setAt v_tc_index f_Index (row ++ [ftc_Index])

/-- Lines 22-33: the texcoord indices each position index is paired with. The
vector `v_index` of lines 20-21 is written and never read. -/
def buildVtcIndex {R : Type} (m : MatrixMesh R) : Except Fault (List (List Int)) :=
  forRange m.F.length (fun i s =>
    forRange 3 (fun j s => do
      let f_Index ← coeff m.F i j
      let ftc_Index ← coeff m.FTC i j
      collectCorner s f_Index ftc_Index) s)
    (List.replicate m.V.length [])

/-- The locals `v_tc_count`, `v_tc_start` and `count` of lines 35-42. -/
structure Counts where
  v_tc_count : List Int
  v_tc_start : List Int
  count : Int
deriving DecidableEq, Repr

/-- Lines 35-42: sizes and start offsets of the per-position lists. -/
def countStart (nV : Nat) (v_tc_index : List (List Int)) : Except Fault Counts :=
  forRange v_tc_index.length (fun i s => do
    let row ← getAt v_tc_index i
    let c ← setAt s.v_tc_count i (row.length : Int)
    let st ← setAt s.v_tc_start i s.count
    pure ⟨c, st, s.count + row.length⟩)
    ⟨List.replicate nV 0, List.replicate nV 0, 0⟩

/-- The buffers written by lines 49-61. -/
structure Emit (R : Type) where
  tc_new : List (Cell R)
  vNew2vOld : List Int
  vNew2TcOld : List Int
  count : Int
deriving DecidableEq, Repr

/-- Lines 44-61: the texcoord rows and the provenance of each new vertex. The
buffers have `TC.rows()` entries. -/
def emitTexcoords {R : Type} (TC : List (Cell R)) (v_tc_index : List (List Int)) :
    Except Fault (Emit R) :=
  forRange v_tc_index.length (fun i s => do
    let row ← getAt v_tc_index i
    forRange row.length (fun j s => do
      let tc_index ← getAt row j
      let r ← getAt TC tc_index
      let tc_new ← setAt s.tc_new s.count r
      let a ← setAt s.vNew2vOld s.count (i : Int)
      let b ← setAt s.vNew2TcOld s.count tc_index
      pure ⟨tc_new, a, b, s.count + 1⟩) s)
    ⟨List.replicate TC.length none, List.replicate TC.length 0,
     List.replicate TC.length 0, 0⟩

/-- Lines 63-69: the position rows of the new vertices. -/
def emitPositions {R : Type} (V : List (Cell R)) (nTC : Nat) (c : Counts) :
    Except Fault (List (Cell R)) :=
  forRange V.length (fun i v_new => do
    let n ← getAt c.v_tc_count i
    forRange n.toNat (fun count1 v_new => do
      let st ← getAt c.v_tc_start i
      let r ← getAt V i
      setAt v_new (st + count1) r) v_new)
    (List.replicate nTC none)

/-- The rewritten face matrix and the corners reported by `printf`. -/
structure Rewrite where
  f_new : List Vector3i
  wrong : List (Nat × Nat)
deriving DecidableEq, Repr

/-- Lines 78-84: the search of one corner, `k` running over the group of the
position index. The pair is (`f_new`, `exist`). -/
def lookupCorner (e_vOld e_tcOld : List Int) (i j : Nat) (v_index tc_index start_idx count : Int)
    (f_new : List Vector3i) : Except Fault (List Vector3i × Bool) :=
  forRange count.toNat (fun k s => do
    let idx := start_idx + k
    let a ← getAt e_vOld idx
    if a = v_index then
      let b ← getAt e_tcOld idx
      if b = tc_index then
        let f ← setCoeff s.1 i j idx
        pure (f, true)
      else pure s
    else pure s) (f_new, false)

/-- Lines 73-87: one corner of the face rewrite. -/
def rewriteCorner {R : Type} (m : MatrixMesh R) (c : Counts) (e_vOld e_tcOld : List Int)
    (i j : Nat) (s : Rewrite) : Except Fault Rewrite := do
  let v_index ← coeff m.F i j
  let tc_index ← coeff m.FTC i j
  let start_idx ← getAt c.v_tc_start v_index
  let count ← getAt c.v_tc_count v_index
  let r ← lookupCorner e_vOld e_tcOld i j v_index tc_index start_idx count s.f_new
  if r.2 then pure ⟨r.1, s.wrong⟩
  else pure ⟨r.1, s.wrong ++ [(i, j)]⟩

/-- Lines 71-89: every face corner is rewritten to its new vertex index. -/
def rewriteFaces {R : Type} (m : MatrixMesh R) (c : Counts) (e_vOld e_tcOld : List Int) :
    Except Fault Rewrite :=
  forRange m.F.length (fun i s =>
    forRange 3 (fun j s => rewriteCorner m c e_vOld e_tcOld i j s) s)
    ⟨List.replicate m.F.length Vector3i.fresh, []⟩

/-- All locals of `remapMesh` at line 90. -/
structure RemapState (R : Type) where
  v_tc_index : List (List Int)
  counts : Counts
  emit : Emit R
  v_new : List (Cell R)
  rw : Rewrite
deriving DecidableEq, Repr

/-- Lines 17-89 of `remapMesh`. -/
def remapLocals {R : Type} (m : MatrixMesh R) : Except Fault (RemapState R) := do
  let v_tc_index ← buildVtcIndex m
  let counts ← countStart m.V.length v_tc_index
  let emit ← emitTexcoords m.TC v_tc_index
  let v_new ← emitPositions m.V m.TC.length counts
  let rw ← rewriteFaces m counts emit.vNew2vOld emit.vNew2TcOld
  pure ⟨v_tc_index, counts, emit, v_new, rw⟩

/-- The function `remapMesh`: the mesh after the call, and the corners for which
`F(i,j) Wrong!` was printed. `per_vertex_normals` stands for
`igl::per_vertex_normals`, which is outside the repository. -/
def remapMesh {R : Type} (per_vertex_normals : List (Cell R) → List Vector3i → List (Cell R))
    (m : MatrixMesh R) : Except Fault (MatrixMesh R × List (Nat × Nat)) := do
  let s ← remapLocals m
  pure ({ F := s.rw.f_new, FTC := s.rw.f_new, V := s.v_new, TC := s.emit.tc_new,
          N := per_vertex_normals s.v_new s.rw.f_new, FN := s.rw.f_new }, s.rw.wrong)


/-! ## `objl::algorithm` (src/OBJ_Loader.h) -/

/-- A `std::string`. -/
abbrev Str := List Char

/-- The result of `find_first_not_of(chars, pos)`: the first index at or after
`pos` whose character is not in `chars`; `none` is `npos`, also as `pos`. -/
def find_first_not_of (s chars : Str) (pos : Option Nat) : Option Nat :=
  match pos with
  | none => none
  | some p =>
    match (s.drop p).findIdx? (fun c => !chars.contains c) with
    | some k => some (p + k)
    | none => none

/-- The result of `find_first_of(chars, pos)`: the first index at or after `pos`
whose character is in `chars`; `none` is `npos`, also as `pos`. -/
def find_first_of (s chars : Str) (pos : Option Nat) : Option Nat :=
  match pos with
  | none => none
  | some p =>
    match (s.drop p).findIdx? (fun c => chars.contains c) with
    | some k => some (p + k)
    | none => none

/-- The result of `find_last_not_of(chars)`: the last index whose character is
not in `chars`; `none` is `npos`. -/
def find_last_not_of (s chars : Str) : Option Nat :=
  match s.reverse.findIdx? (fun c => !chars.contains c) with
  | some k => some (s.length - 1 - k)
  | none => none

/-- The two characters `" \t"`. -/
def blanks : Str := [' ', '\t']

/-- Lines 218-254, the loop of `split` at index `i`, with `fuel` bounding the
iterations that remain (`in.size()` of them suffice). `in.substr(i, n)` is
`(inp.drop i).take n`, `i` being inside the string. The step
`i += token.size() - 1` followed by `i++` leaves `i + token.size()`. -/
def splitLoop (inp token : Str) : Nat → Nat → Str → List Str → List Str
  | 0, _, _, out => out
  | fuel + 1, i, temp, out =>
    if i < inp.length then
      let test := (inp.drop i).take token.length
      if test = token then
        if temp ≠ [] then splitLoop inp token fuel (i + token.length) [] (out ++ [temp])
        else splitLoop inp token fuel (i + 1) temp (out ++ [[]])
      else if i + token.length ≥ inp.length then
        out ++ [temp ++ (inp.drop i).take token.length]
      else splitLoop inp token fuel (i + 1) (temp ++ (inp.drop i).take 1) out
    else out

/-- The function `algorithm::split`: the value of `out` on return. -/
def split (inp token : Str) : List Str :=
  splitLoop inp token inp.length 0 [] []

/-- The function `algorithm::tail`, lines 257-272. Where both ends are found
`tail_start ≤ tail_end`, so that `tail_end - tail_start + 1` does not wrap. -/
def tail (inp : Str) : Str :=
  let token_start := find_first_not_of inp blanks (some 0)
  let space_start := find_first_of inp blanks token_start
  let tail_start := find_first_not_of inp blanks space_start
  let tail_end := find_last_not_of inp blanks
  match tail_start, tail_end with
  | some ts, some te => (inp.drop ts).take (te - ts + 1)
  | some ts, none => inp.drop ts
  | none, _ => []

/-- The function `algorithm::firstToken`, lines 275-291. -/
def firstToken (inp : Str) : Str :=
  if inp ≠ [] then
    let token_start := find_first_not_of inp blanks (some 0)
    let token_end := find_first_of inp blanks token_start
    match token_start, token_end with
    | some ts, some te => (inp.drop ts).take (te - ts)
    | some ts, none => inp.drop ts
    | none, _ => []
  else []

/-- The characters `std::isspace` accepts in the "C" locale. -/
def isspace (c : Char) : Bool :=
  c = ' ' || c = '\t' || c = '\n' || c = '\x0b' || c = '\x0c' || c = '\r'

/-- The value of a run of decimal digits. -/
def decVal (ds : Str) : Nat :=
  ds.foldl (fun a c => 10 * a + (c.toNat - 48)) 0

/-- The C++ library function `std::stoi(str)` (base 10): leading whitespace is
skipped, a sign is optional, the longest run of digits is converted and what
follows is ignored; no digit is `std::invalid_argument`, a value outside `int`
is `std::out_of_range`. -/
def stoi (s : Str) : Except Fault Int :=
  let s1 := s.dropWhile isspace
  let neg := s1.head? = some '-'
  let s2 := if s1.head? = some '-' ∨ s1.head? = some '+' then s1.drop 1 else s1
  let ds := s2.takeWhile Char.isDigit
  if ds = [] then .error .invalidArgument
  else
    let v : Int := if neg then -(decVal ds : Int) else (decVal ds : Int)
    if -2147483648 ≤ v ∧ v ≤ 2147483647 then .ok v else .error .outOfRange

/-- The function `algorithm::getElement`, lines 294-303: the index it reads,
a negative one counted from the end of the `size` elements. No function of the
loader calls it. -/
def getElementIndex (size : Nat) (index : Str) : Except Fault Int := do
  let idx ← stoi index
  if idx < 0 then pure ((size : Int) + idx) else pure (idx - 1)

/-- The function `algorithm::getIndex`, lines 305-309. -/
def getIndex (index : Str) : Except Fault Int := do
  let v ← stoi index
  if v - 1 < -2147483648 then .error .overflow else pure (v - 1)

/-- The result of `std::to_string` for a natural number. -/
def to_string (n : Nat) : Str := Nat.toDigits 10 n

/-! ## `objl::Material`, `objl::Mesh` -/

/-- An `Eigen::Vector3f`, each component unwritten until assigned. -/
structure Vector3f (Flt : Type) where
  x : Cell Flt
  y : Cell Flt
  z : Cell Flt
deriving DecidableEq, Repr

/-- The struct `objl::Material`. -/
structure Material (Flt : Type) where
  name : Str
  Ka : Vector3f Flt
  Kd : Vector3f Flt
  Ks : Vector3f Flt
  Ns : Flt
  Ni : Flt
  d : Flt
  illum : Int
  map_Ka : Str
  map_Kd : Str
  map_Ks : Str
  map_Ns : Str
  map_d : Str
  map_bump : Str
deriving DecidableEq, Repr

/-- The constructor `Material()`, lines 21-28; `zero` is `0.0f`. -/
def Material.new {Flt : Type} (zero : Flt) : Material Flt :=
  { name := [], Ka := ⟨none, none, none⟩, Kd := ⟨none, none, none⟩, Ks := ⟨none, none, none⟩,
    Ns := zero, Ni := zero, d := zero, illum := 0, map_Ka := [], map_Kd := [], map_Ks := [],
    map_Ns := [], map_d := [], map_bump := [] }

/-- The struct `objl::Mesh`. -/
structure Mesh (Flt : Type) where
  MeshName : Str
  PositionIndices : List Vector3i
  TextureIndices : List Vector3i
  NormalIndices : List Vector3i
  MeshMaterial : Material Flt
deriving DecidableEq, Repr

/-- The default constructor `Mesh()`. -/
def Mesh.empty {Flt : Type} (zero : Flt) : Mesh Flt :=
  { MeshName := [], PositionIndices := [], TextureIndices := [], NormalIndices := [],
    MeshMaterial := Material.new zero }

/-- The test `v[0] < 0 || v[1] < 0 || v[2] < 0` of lines 76 and 83, `||`
stopping at the first true operand; reading an unwritten component is a
fault. -/
def anyNegative (v : Vector3i) : Except Fault Bool :=
  match v.c0 with
  | none => .error .uninitRead
  | some a =>
    if a < 0 then .ok true
    else match v.c1 with
      | none => .error .uninitRead
      | some b =>
        if b < 0 then .ok true
        else match v.c2 with
          | none => .error .uninitRead
          | some c => .ok (decide (c < 0))

/-- The scan of lines 75-80 and 82-87: whether a row with a negative component
is met, rows being read in order up to the first such row. -/
def hasNegativeRow : List Vector3i → Except Fault Bool
  | [] => .ok false
  | v :: rest => do
    if (← anyNegative v) then pure true else hasNegativeRow rest

/-- The loops of lines 75-80 and 82-87: the list is cleared at the first row
with a negative component. -/
def clearIfNegative (l : List Vector3i) : Except Fault (List Vector3i) := do
  if (← hasNegativeRow l) then pure [] else pure l

/-- The constructor `Mesh(_PositionIndices, _TextureIndices, _NormalIndices)`,
lines 70-88. -/
def Mesh.new {Flt : Type} (zero : Flt) (PositionIndices TextureIndices NormalIndices : List Vector3i) :
    Except Fault (Mesh Flt) := do
  let t ← clearIfNegative TextureIndices
  let n ← clearIfNegative NormalIndices
  pure { MeshName := [], PositionIndices := PositionIndices, TextureIndices := t,
         NormalIndices := n, MeshMaterial := Material.new zero }

/-! ## `objl::Loader` -/

/-- What the loader takes from outside the repository: the C++ library's
`std::stod` and `std::stof` (a thrown exception is a fault), `0.0f`, the file
system (`readLines path` is the lines `std::getline` yields when the file
opens, `none` when it does not) and
`boost::filesystem::path(p).parent_path().string()`. -/
structure Env (Flt : Type) where
  stod : Str → Except Fault Flt
  stof : Str → Except Fault Flt
  zero : Flt
  readLines : Str → Option (List Str)
  parent_path : Str → Str

/-- The data members of `objl::Loader`. -/
structure Loader (Flt : Type) where
  LoadedPath : Str
  LoadedMeshes : List (Mesh Flt)
  LoadedPositions : List (Flt × Flt × Flt)
  LoadedNormals : List (Flt × Flt × Flt)
  LoadedTCoords : List (Flt × Flt)
  LoadedMaterials : List (Material Flt)
deriving DecidableEq, Repr

/-- The loader after the constructor `Loader()`. -/
def Loader.new {Flt : Type} : Loader Flt :=
  { LoadedPath := [], LoadedMeshes := [], LoadedPositions := [], LoadedNormals := [],
    LoadedTCoords := [], LoadedMaterials := [] }

/-- The element `v[i]` of a `std::vector`; outside the vector it is a fault. -/
def vecAt {α : Type} (v : List α) (i : Nat) : Except Fault α :=
  match v.get? i with
  | some a => .ok a
  | none => .error .outOfBounds

/-- The last four characters `path.substr(path.size() - 4, n)` of lines 337
and 725 (`n` is at least 4 there); with fewer than four characters the
position wraps around and `substr` throws `std::out_of_range`. -/
def lastFour (path : Str) : Except Fault Str :=
  if path.length < 4 then .error .outOfRange else .ok (path.drop (path.length - 4))

/-- The message `ReadTriangleIndicesRawOBJ` prints for a face that is not a
triangle. -/
def onlyTriangleMessage : Str := "[OBJ Loader][ERROR] only triangle is supported!".toList

/-- Lines 652-717: one vertex record of a face. `vtype` is unwritten unless the
record has one, two or three fields, and the `switch` reads it. -/
def readVertex (PositionIdx TextureIdx NormalIdx : Vector3i) (i : Nat) (record : Str) :
    Except Fault (Vector3i × Vector3i × Vector3i) := do
  let svert := split record ['/']
  let vtype : Cell Nat := none
  let vtype := if svert.length = 1 then some 1 else vtype
  let vtype := if svert.length = 2 then some 2 else vtype
  let vtype ←
    if svert.length = 3 then do
      let middle ← vecAt svert 1
      pure (if middle ≠ [] then some 4 else some 3)
    else pure vtype
  match vtype with
  | none => .error .uninitRead
  | some 1 =>
    let p ← getIndex (← vecAt svert 0)
    pure (PositionIdx.set i p, TextureIdx.set i (-1), NormalIdx.set i (-1))
  | some 2 =>
    let p ← getIndex (← vecAt svert 0)
    let t ← getIndex (← vecAt svert 1)
    pure (PositionIdx.set i p, TextureIdx.set i t, NormalIdx.set i (-1))
  | some 3 =>
    let p ← getIndex (← vecAt svert 0)
    let n ← getIndex (← vecAt svert 2)
    pure (PositionIdx.set i p, TextureIdx.set i (-1), NormalIdx.set i n)
  | some 4 =>
    let p ← getIndex (← vecAt svert 0)
    let t ← getIndex (← vecAt svert 1)
    let n ← getIndex (← vecAt svert 2)
    pure (PositionIdx.set i p, TextureIdx.set i t, NormalIdx.set i n)
  | some _ => pure (PositionIdx, TextureIdx, NormalIdx)

/-- The three index vectors a face line leaves, and what it printed. -/
structure FaceRead where
  PositionIdx : Vector3i
  TextureIdx : Vector3i
  NormalIdx : Vector3i
  printed : List Str
deriving DecidableEq, Repr

/-- The function `Loader::ReadTriangleIndicesRawOBJ`, lines 637-719: the three
vectors passed by reference as they are on return. -/
def ReadTriangleIndicesRawOBJ (PositionIdx TextureIdx NormalIdx : Vector3i) (icurline : Str) :
    Except Fault FaceRead := do
  let sface := split (tail icurline) [' ']
  if sface.length ≠ 3 then
    pure ⟨PositionIdx, TextureIdx, NormalIdx, [onlyTriangleMessage]⟩
  else
    let s ← forRange sface.length (fun i s => do
      let record ← vecAt sface i
      readVertex s.1 s.2.1 s.2.2 i record) (PositionIdx, TextureIdx, NormalIdx)
    pure ⟨s.1, s.2.1, s.2.2, []⟩

/-- The locals of `LoadMaterials` and the material collection it appends to. -/
structure MtlState (Flt : Type) where
  LoadedMaterials : List (Material Flt)
  tempMaterial : Material Flt
  listening : Bool
deriving DecidableEq, Repr

/-- The name a `newmtl` line gives, lines 749-756 and 768-775. -/
def newmtlName (curline : Str) : Str :=
  if curline.length > 7 then tail curline else "none".toList

/-- The three components of a colour line, lines 781-789; `none` is the
`continue` of lines 785, 798 and 811. -/
def readColour {Flt : Type} (env : Env Flt) (curline : Str) : Except Fault (Option (Vector3f Flt)) := do
  let temp := split (tail curline) [' ']
  if temp.length ≠ 3 then pure none
  else
    let a ← env.stof (← vecAt temp 0)
    let b ← env.stof (← vecAt temp 1)
    let c ← env.stof (← vecAt temp 2)
    pure (some ⟨some a, some b, some c⟩)

/-- Lines 743-866: the body of the loop of `LoadMaterials` for one line. The
`if`s of the source compare the one first token with different keywords, so
that at most one of them applies. -/
def mtlLine {Flt : Type} (env : Env Flt) (s : MtlState Flt) (curline : Str) :
    Except Fault (MtlState Flt) := do
  let tok := firstToken curline
  let s : MtlState Flt :=
    if tok = "newmtl".toList then
      if !s.listening then
        { s with listening := true,
                 tempMaterial := { s.tempMaterial with name := newmtlName curline } }
      else
        { s with LoadedMaterials := s.LoadedMaterials ++ [s.tempMaterial],
                 tempMaterial := { Material.new env.zero with name := newmtlName curline } }
    else s
  if tok = "Ka".toList then
    match ← readColour env curline with
    | none => pure s
    | some c => pure { s with tempMaterial := { s.tempMaterial with Ka := c } }
  else if tok = "Kd".toList then
    match ← readColour env curline with
    | none => pure s
    | some c => pure { s with tempMaterial := { s.tempMaterial with Kd := c } }
  else if tok = "Ks".toList then
    match ← readColour env curline with
    | none => pure s
    | some c => pure { s with tempMaterial := { s.tempMaterial with Ks := c } }
  else if tok = "Ns".toList then
    let x ← env.stof (tail curline)
    pure { s with tempMaterial := { s.tempMaterial with Ns := x } }
  else if tok = "Ni".toList then
    let x ← env.stof (tail curline)
    pure { s with tempMaterial := { s.tempMaterial with Ni := x } }
  else if tok = "d".toList then
    let x ← env.stof (tail curline)
    pure { s with tempMaterial := { s.tempMaterial with d := x } }
  else if tok = "illum".toList then
    let x ← stoi (tail curline)
    pure { s with tempMaterial := { s.tempMaterial with illum := x } }
  else if tok = "map_Ka".toList then
    pure { s with tempMaterial := { s.tempMaterial with map_Ka := tail curline } }
  else if tok = "map_Kd".toList then
    pure { s with tempMaterial := { s.tempMaterial with map_Kd := tail curline } }
  else if tok = "map_Ks".toList then
    pure { s with tempMaterial := { s.tempMaterial with map_Ks := tail curline } }
  else if tok = "map_Ns".toList then
    pure { s with tempMaterial := { s.tempMaterial with map_Ns := tail curline } }
  else if tok = "map_d".toList then
    pure { s with tempMaterial := { s.tempMaterial with map_d := tail curline } }
  else if tok = "map_Bump".toList ∨ tok = "map_bump".toList ∨ tok = "bump".toList then
    pure { s with tempMaterial := { s.tempMaterial with map_bump := tail curline } }
  else pure s

/-- The function `Loader::LoadMaterials`, lines 722-881: the value returned and
the loader after the call. -/
def LoadMaterials {Flt : Type} (env : Env Flt) (self : Loader Flt) (path : Str) :
    Except Fault (Bool × Loader Flt) := do
  if (← lastFour path) ≠ ".mtl".toList then pure (false, self)
  else
    match env.readLines path with
    | none => pure (false, self)
    | some lines =>
      let s ← lines.foldlM (mtlLine env) ⟨self.LoadedMaterials, Material.new env.zero, false⟩
      let materials := s.LoadedMaterials ++ [s.tempMaterial]
      pure (!materials.isEmpty, { self with LoadedMaterials := materials })

/-- The locals of `LoadFile` inside the loop over the lines, with the loader
and what has been printed. -/
structure ObjState (Flt : Type) where
  loader : Loader Flt
  PositionIndices : List Vector3i
  NormalIndices : List Vector3i
  TextureIndices : List Vector3i
  MeshMatNames : List Str
  listening : Bool
  meshname : Str
  printed : List Str
deriving DecidableEq, Repr

/-- The test `firstToken(curline) == "o" || firstToken(curline) == "g"`. -/
def isObjectOrGroup (curline : Str) : Bool :=
  firstToken curline = ['o'] || firstToken curline = ['g']

/-- Lines 388-440: an object or group line. `curline[0]` of an empty line is the
terminating `'\0'`. -/
def objectLine {Flt : Type} (env : Env Flt) (s : ObjState Flt) (curline : Str) :
    Except Fault (ObjState Flt) := do
  if isObjectOrGroup curline ∨ curline.head? = some 'g' then
    if !s.listening then
      pure { s with listening := true,
                    meshname := if isObjectOrGroup curline then tail curline
                                else "unnamed".toList }
    else if !s.PositionIndices.isEmpty && !s.loader.LoadedPositions.isEmpty then
      let tempMesh ← Mesh.new env.zero s.PositionIndices s.TextureIndices s.NormalIndices
      let tempMesh := { tempMesh with MeshName := s.meshname }
      pure { s with loader := { s.loader with
                                 LoadedMeshes := s.loader.LoadedMeshes ++ [tempMesh] },
                    PositionIndices := [], NormalIndices := [], TextureIndices := [],
                    meshname := tail curline }
    else
      pure { s with meshname := if isObjectOrGroup curline then tail curline
                                else "unnamed".toList }
  else pure s

/-- Lines 442-453: a `v` line. -/
def positionLine {Flt : Type} (env : Env Flt) (s : ObjState Flt) (curline : Str) :
    Except Fault (ObjState Flt) := do
  if firstToken curline = ['v'] then
    let spos := split (tail curline) [' ']
    let x ← env.stod (← vecAt spos 0)
    let y ← env.stod (← vecAt spos 1)
    let z ← env.stod (← vecAt spos 2)
    pure { s with loader := { s.loader with
                               LoadedPositions := s.loader.LoadedPositions ++ [(x, y, z)] } }
  else pure s

/-- Lines 455-465: a `vt` line. -/
def texcoordLine {Flt : Type} (env : Env Flt) (s : ObjState Flt) (curline : Str) :
    Except Fault (ObjState Flt) := do
  if firstToken curline = ['v', 't'] then
    let stex := split (tail curline) [' ']
    let x ← env.stod (← vecAt stex 0)
    let y ← env.stod (← vecAt stex 1)
    pure { s with loader := { s.loader with
                               LoadedTCoords := s.loader.LoadedTCoords ++ [(x, y)] } }
  else pure s

/-- Lines 467-478: a `vn` line. -/
def normalLine {Flt : Type} (env : Env Flt) (s : ObjState Flt) (curline : Str) :
    Except Fault (ObjState Flt) := do
  if firstToken curline = ['v', 'n'] then
    let snor := split (tail curline) [' ']
    let x ← env.stod (← vecAt snor 0)
    let y ← env.stod (← vecAt snor 1)
    let z ← env.stod (← vecAt snor 2)
    pure { s with loader := { s.loader with
                               LoadedNormals := s.loader.LoadedNormals ++ [(x, y, z)] } }
  else pure s

/-- Lines 480-488: an `f` line. The three local vectors are unwritten when
`ReadTriangleIndicesRawOBJ` is called, and are appended whatever it did. -/
def faceLine {Flt : Type} (s : ObjState Flt) (curline : Str) :
    Except Fault (ObjState Flt) := do
  if firstToken curline = ['f'] then
    let r ← ReadTriangleIndicesRawOBJ Vector3i.fresh Vector3i.fresh Vector3i.fresh curline
    pure { s with PositionIndices := s.PositionIndices ++ [r.PositionIdx],
                  TextureIndices := s.TextureIndices ++ [r.TextureIdx],
                  NormalIndices := s.NormalIndices ++ [r.NormalIdx],
                  printed := s.printed ++ r.printed }
  else pure s

/-- Lines 500-508: the name of the mesh a `usemtl` line closes. The body of
`while(1)` runs once: the `continue` of line 506 continues the inner `for`, and
the `break` of line 507 follows it unconditionally, so that `i` stays 2. -/
def splitName (meshname : Str) : Str :=
  meshname ++ ['_'] ++ to_string 2

/-- Lines 490-522: a `usemtl` line. -/
def usemtlLine {Flt : Type} (env : Env Flt) (s : ObjState Flt) (curline : Str) :
    Except Fault (ObjState Flt) := do
  if firstToken curline = "usemtl".toList then
    let s := { s with MeshMatNames := s.MeshMatNames ++ [tail curline] }
    if !s.PositionIndices.isEmpty && !s.loader.LoadedPositions.isEmpty then
      let tempMesh ← Mesh.new env.zero s.PositionIndices s.TextureIndices s.NormalIndices
      let tempMesh := { tempMesh with MeshName := splitName s.meshname }
      pure { s with loader := { s.loader with
                                 LoadedMeshes := s.loader.LoadedMeshes ++ [tempMesh] },
                    PositionIndices := [], TextureIndices := [], NormalIndices := [] }
    else pure s
  else pure s

/-- Lines 524-554: a `mtllib` line; what `LoadMaterials` returns is not used. -/
def mtllibLine {Flt : Type} (env : Env Flt) (Path : Str) (s : ObjState Flt) (curline : Str) :
    Except Fault (ObjState Flt) := do
  if firstToken curline = "mtllib".toList then
    let pathtomat := env.parent_path Path ++ ['/'] ++ tail curline
    let r ← LoadMaterials env s.loader pathtomat
    pure { s with loader := r.2 }
  else pure s

/-- Lines 369-555: the body of the loop of `LoadFile` for one line, the `if`s in
the order of the source. -/
def objLine {Flt : Type} (env : Env Flt) (Path : Str) (s : ObjState Flt) (curline : Str) :
    Except Fault (ObjState Flt) := do
  let s ← objectLine env s curline
  let s ← positionLine env s curline
  let s ← texcoordLine env s curline
  let s ← normalLine env s curline
  let s ← faceLine s curline
  let s ← usemtlLine env s curline
  mtllibLine env Path s curline

/-- Lines 561-571: the last mesh. -/
def lastMesh {Flt : Type} (env : Env Flt) (s : ObjState Flt) : Except Fault (Loader Flt) := do
  if !s.PositionIndices.isEmpty && !s.loader.LoadedPositions.isEmpty then
    let tempMesh ← Mesh.new env.zero s.PositionIndices s.TextureIndices s.NormalIndices
    let tempMesh := { tempMesh with MeshName := s.meshname }
    pure { s.loader with LoadedMeshes := s.loader.LoadedMeshes ++ [tempMesh] }
  else pure s.loader

/-- Lines 582-589: the first loaded material named `matname`. -/
def findMaterial {Flt : Type} (materials : List (Material Flt)) (matname : Str) :
    Option (Material Flt) :=
  materials.find? (fun m => m.name = matname)

/-- Lines 576-590: the material of mesh `i` is set from the `i`-th recorded
name; `LoadedMeshes[i]` outside the vector is a fault. -/
def setMaterials {Flt : Type} (MeshMatNames : List Str) (self : Loader Flt) :
    Except Fault (Loader Flt) :=
  forRange MeshMatNames.length (fun i self => do
    let matname ← vecAt MeshMatNames i
    match findMaterial self.LoadedMaterials matname with
    | none => pure self
    | some mat =>
      let mesh ← vecAt self.LoadedMeshes i
      pure { self with LoadedMeshes := self.LoadedMeshes.set i { mesh with MeshMaterial := mat } })
    self

/-- The state of `LoadFile` before the first line, lines 346-361. -/
def ObjState.start {Flt : Type} (self : Loader Flt) (Path : Str) : ObjState Flt :=
  { loader := { self with LoadedPath := Path, LoadedMeshes := [], LoadedPositions := [],
                          LoadedNormals := [], LoadedTCoords := [] },
    PositionIndices := [], NormalIndices := [], TextureIndices := [], MeshMatNames := [],
    listening := false, meshname := [], printed := [] }

/-- Lines 369-599 of `LoadFile`, on the lines of the opened file: the value
returned, the loader after the call and what was printed. -/
def loadLines {Flt : Type} (env : Env Flt) (self : Loader Flt) (Path : Str) (lines : List Str) :
    Except Fault (Bool × Loader Flt × List Str) := do
  let s ← lines.foldlM (objLine env Path) (ObjState.start self Path)
  let l ← lastMesh env s
  let l ← setMaterials s.MeshMatNames l
  pure (!(l.LoadedMeshes.isEmpty && l.LoadedPositions.isEmpty), l, s.printed)

/-- The function `Loader::LoadFile`, lines 334-600: the value returned, the
loader after the call and what was printed. -/
def LoadFile {Flt : Type} (env : Env Flt) (self : Loader Flt) (Path : Str) :
    Except Fault (Bool × Loader Flt × List Str) := do
  if (← lastFour Path) ≠ ".obj".toList then pure (false, self, [])
  else
    match env.readLines Path with
    | none => pure (false, self, [])
    | some lines => loadLines env self Path lines

/-- The function `Mesh::GetTriangleIndices`, lines 90-103: the matrices `F`,
`FTC` and `FN`, a row per entry of the index lists. -/
def Mesh.GetTriangleIndices {Flt : Type} (mesh : Mesh Flt) :
    List Vector3i × List Vector3i × List Vector3i :=
  (mesh.PositionIndices, mesh.TextureIndices, mesh.NormalIndices)

/-! ## Descriptions used to state and prove the properties -/

/-- An index cell is written and lies in `[0, n)`. -/
def inRange (n : Nat) (c : Cell Int) : Bool :=
  match c with
  | some x => decide (0 ≤ x) && decide (x < (n : Int))
  | none => false

/-- All three cells of a row are written and lie in `[0, n)`. -/
def rowInRange (n : Nat) (r : Vector3i) : Bool :=
  inRange n r.c0 && inRange n r.c1 && inRange n r.c2

/-- The (position index, texcoord index) pairs at the three corners of one
face, those whose two cells are written. -/
def faceCorners (a b : Vector3i) : List (Int × Int) :=
  [(a.c0, b.c0), (a.c1, b.c1), (a.c2, b.c2)].filterMap fun c =>
    match c with
    | (some p, some t) => some (p, t)
    | _ => none

/-- The (position index, texcoord index) pairs that occur at face corners,
scanning faces row by row and corners left to right. -/
def cornerPairs {R : Type} (m : MatrixMesh R) : List (Int × Int) :=
  (m.F.zip m.FTC).flatMap fun ab => faceCorners ab.1 ab.2

/-- Append `t` unless it is already there. -/
def pushNew (l : List Int) (t : Int) : List Int :=
  if t ∈ l then l else l ++ [t]

/-- The distinct texcoord indices paired with position index `p` in the corner
list `cs`, in order of first occurrence. -/
def tcsOf (cs : List (Int × Int)) (p : Int) : List Int :=
  cs.foldl (fun acc c => if c.1 = p then pushNew acc c.2 else acc) []

/-- The (position index, texcoord index) pairs of the groups `0 .. i-1` of
`G`, group by group and in the order within each group. -/
def flatUpTo (G : List (List Int)) : Nat → List (Int × Int)
  | 0 => []
  | i + 1 => flatUpTo G i ++ (G.getD i []).map (fun t => ((i : Int), t))

/-- The entry `M(i, j)` where it is written, `0` elsewhere. -/
def idxAt (M : List Vector3i) (i j : Nat) : Int :=
  ((M.get? i).bind (fun r => r.get j)).getD 0

/-- The corner pairs of the faces `0 .. i-1`. -/
def cornersUpTo {R : Type} (m : MatrixMesh R) : Nat → List (Int × Int)
  | 0 => []
  | i + 1 => cornersUpTo m i ++
      [(idxAt m.F i 0, idxAt m.FTC i 0), (idxAt m.F i 1, idxAt m.FTC i 1),
       (idxAt m.F i 2, idxAt m.FTC i 2)]

/-- A buffer of `n` entries whose first entries are the images of `W` under
`f`, the others still holding the initial value `d`. -/
def fill {α β : Type} (f : β → α) (W : List β) (n : Nat) (d : α) : List α :=
  W.map f ++ List.replicate (n - W.length) d

/-- The row `M.row(x)` where it exists, an unwritten row elsewhere. -/
def rowAt {R : Type} (M : List (Cell R)) (x : Int) : Cell R :=
  M.getD x.toNat none

/-- The buffers of lines 49-61 once the pairs `W` have been emitted. -/
def emitOf {R : Type} (TC : List (Cell R)) (W : List (Int × Int)) : Emit R :=
  ⟨fill (fun c => rowAt TC c.2) W TC.length none, fill (fun c => c.1) W TC.length 0,
   fill (fun c => c.2) W TC.length 0, (W.length : Int)⟩

/-- The result of the counting pass on the groups `G`. -/
def countsOf (G : List (List Int)) : Counts :=
  ⟨(List.range G.length).map (fun q => ((G.getD q []).length : Int)),
   (List.range G.length).map (fun q => ((flatUpTo G q).length : Int)),
   ((flatUpTo G G.length).length : Int)⟩

/-- The new vertex index of the pair `(p, t)`: the pairs of the groups before
`p`, plus the place of `t` in the group of `p`. -/
def newIndex (G : List (List Int)) (p t : Int) : Int :=
  ((flatUpTo G p.toNat).length : Int) + (List.indexOf t (G.getD p.toNat []) : Int)

/-- Row `i` of the rewritten face matrix. -/
def newRow {R : Type} (m : MatrixMesh R) (G : List (List Int)) (i : Nat) : Vector3i :=
  ⟨some (newIndex G (idxAt m.F i 0) (idxAt m.FTC i 0)),
   some (newIndex G (idxAt m.F i 1) (idxAt m.FTC i 1)),
   some (newIndex G (idxAt m.F i 2) (idxAt m.FTC i 2))⟩

/-- The groups the first pass builds: for every position index its distinct
texcoord indices in first-seen order. -/
def groupsOf {R : Type} (m : MatrixMesh R) : List (List Int) :=
  (List.range m.V.length).map fun (q : Nat) => tcsOf (cornersUpTo m m.F.length) (q : Int)

/-- The locals of `remapMesh` at line 90, in closed form. -/
def localsOf {R : Type} (m : MatrixMesh R) : RemapState R :=
  ⟨groupsOf m, countsOf (groupsOf m),
   emitOf m.TC (flatUpTo (groupsOf m) (groupsOf m).length),
   fill (fun c => rowAt m.V c.1) (flatUpTo (groupsOf m) (groupsOf m).length) m.TC.length none,
   ⟨(List.range m.F.length).map (newRow m (groupsOf m)), []⟩⟩

/-- The result of `remapMesh` on valid input, in closed form. -/
def outOf {R : Type} (per_vertex_normals : List (Cell R) → List Vector3i → List (Cell R))
    (m : MatrixMesh R) : MatrixMesh R :=
  { F := (localsOf m).rw.f_new, FTC := (localsOf m).rw.f_new, V := (localsOf m).v_new,
    TC := (localsOf m).emit.tc_new,
    N := per_vertex_normals (localsOf m).v_new (localsOf m).rw.f_new,
    FN := (localsOf m).rw.f_new }

/-- The input is one `remapMesh` is meant for: `F` and `FTC` have the same
number of rows, the position indices lie in `[0, rows(V))`, the texcoord
indices in `[0, rows(TC))`, and the distinct corner pairs are at most
`rows(TC)`. -/
def ValidInput {R : Type} (m : MatrixMesh R) : Prop :=
  m.F.length = m.FTC.length ∧ (∀ r ∈ m.F, rowInRange m.V.length r = true) ∧
    (∀ r ∈ m.FTC, rowInRange m.TC.length r = true) ∧
    (cornerPairs m).dedup.length ≤ m.TC.length

instance {R : Type} (m : MatrixMesh R) : Decidable (ValidInput m) := by
  unfold ValidInput
  infer_instance

/-- The texcoord indices paired with position index `p` at the face corners,
with repetitions. -/
def pairedTcs {R : Type} (m : MatrixMesh R) (p : Int) : List Int :=
  ((cornerPairs m).filter (fun c => decide (c.1 = p))).map (fun c => c.2)

/-- The output vertices `remapMesh` has emitted, each with its provenance:
(old position index, old texcoord index, position row, texcoord row). -/
def emittedVertices {R : Type} (s : RemapState R) (m' : MatrixMesh R) :
    List (Int × Int × Cell R × Cell R) :=
  List.zip (s.emit.vNew2vOld.take s.emit.count.toNat)
    (List.zip (s.emit.vNew2TcOld.take s.emit.count.toNat)
      (List.zip (m'.V.take s.emit.count.toNat) (m'.TC.take s.emit.count.toNat)))

/-- A small valid mesh: a quad of two triangles whose position `0` is used
with the texcoords `0` and `3`. -/
def quadMesh : MatrixMesh Nat :=
  { V := [some 10, some 11, some 12, some 13], N := [],
    TC := [some 20, some 21, some 22, some 23, some 24],
    F := [⟨some 0, some 1, some 2⟩, ⟨some 0, some 2, some 3⟩], FN := [],
    FTC := [⟨some 0, some 1, some 2⟩, ⟨some 3, some 2, some 4⟩] }

/-- The pairs `(0, 0), ..., (N-1, N-1)`. -/
def diagPairs (N : Nat) : List (Int × Int) :=
  (List.range N).map (fun (q : Nat) => ((q : Int), (q : Int)))

/-- The number of vertices `remapMesh` emits on `m`. -/
def emittedCount {R : Type} (m : MatrixMesh R) : Nat :=
  (flatUpTo (groupsOf m) (groupsOf m).length).length

/-- A mesh with a texcoord row no corner refers to: one triangle, three
positions, four texcoords. -/
def spareTexcoordMesh : MatrixMesh Nat :=
  { V := [some 10, some 11, some 12], N := [],
    TC := [some 20, some 21, some 22, some 23],
    F := [⟨some 0, some 1, some 2⟩], FN := [],
    FTC := [⟨some 0, some 1, some 2⟩] }

/-- A mesh whose three positions share the only texcoord row. -/
def sharedTexcoordMesh : MatrixMesh Nat :=
  { V := [some 10, some 11, some 12], N := [],
    TC := [some 20],
    F := [⟨some 0, some 1, some 2⟩], FN := [],
    FTC := [⟨some 0, some 0, some 0⟩] }

/-- A triangle whose positions each have their own texcoord. -/
def triMesh : MatrixMesh Nat :=
  { V := [some 10, some 11, some 12], N := [],
    TC := [some 20, some 21, some 22],
    F := [⟨some 0, some 1, some 2⟩], FN := [],
    FTC := [⟨some 2, some 0, some 1⟩] }

/-- A stand-in for `igl::per_vertex_normals` that returns no normals. -/
def noNormals : List (Cell Nat) → List Vector3i → List (Cell Nat) := fun _ _ => []

/-- A mesh whose three positions each have one texcoord, two of them the same
one, with only two texcoord rows. -/
def twoTexcoordMesh : MatrixMesh Nat :=
  { V := [some 10, some 11, some 12], N := [],
    TC := [some 20, some 21],
    F := [⟨some 0, some 1, some 2⟩], FN := [],
    FTC := [⟨some 0, some 1, some 1⟩] }

/-- What `split` leaves for a one-character token `c`, read off the text that
remains, `temp` being the field under way. -/
def splitByChar (c : Char) : Str → Str → List Str
  | [], _ => []
  | x :: rest, temp =>
    if x = c then temp :: splitByChar c rest []
    else if rest = [] then [temp ++ [x]]
    else splitByChar c rest (temp ++ [x])

/-- A non-empty run of decimal digits. -/
def isDigits (ds : Str) : Bool :=
  !ds.isEmpty && ds.all Char.isDigit

/-- A positive decimal index that an `int` holds. -/
def isIndex (ds : Str) : Bool :=
  isDigits ds && decide (1 ≤ decVal ds) && decide (decVal ds ≤ 2147483647)

/-- The four forms of a vertex record of a face line. -/
inductive VertexRecord where
  | P (p : Str)
  | PT (p t : Str)
  | PN (p n : Str)
  | PTN (p t n : Str)
deriving DecidableEq, Repr

/-- The record as written: `p`, `p/t`, `p//n` or `p/t/n`. -/
def VertexRecord.text : VertexRecord → Str
  | .P p => p
  | .PT p t => p ++ '/' :: t
  | .PN p n => p ++ '/' :: '/' :: n
  | .PTN p t n => p ++ '/' :: (t ++ '/' :: n)

/-- Every field of the record is a positive decimal index. -/
def VertexRecord.wellFormed : VertexRecord → Bool
  | .P p => isIndex p
  | .PT p t => isIndex p && isIndex t
  | .PN p n => isIndex p && isIndex n
  | .PTN p t n => isIndex p && isIndex t && isIndex n

/-- The triple (position, texture, normal) the claim gives for the record. -/
def VertexRecord.triple : VertexRecord → Int × Int × Int
  | .P p => ((decVal p : Int) - 1, -1, -1)
  | .PT p t => ((decVal p : Int) - 1, (decVal t : Int) - 1, -1)
  | .PN p n => ((decVal p : Int) - 1, -1, (decVal n : Int) - 1)
  | .PTN p t n => ((decVal p : Int) - 1, (decVal t : Int) - 1, (decVal n : Int) - 1)

/-- A stand-in for what is outside the repository, for the examples: numbers
are read by `stoi`, the only file is `mesh.obj` with the given lines, and every
directory is the current one. -/
def exampleEnv (lines : List Str) : Env Int :=
  { stod := stoi, stof := stoi, zero := 0,
    readLines := fun p => if p = "mesh.obj".toList then some lines else none,
    parent_path := fun _ => [] }

/-- The state of `LoadFile` on `mesh.obj` after the one line `v 0 0 0`. -/
def onePositionState : ObjState Int :=
  { loader := { LoadedPath := "mesh.obj".toList, LoadedMeshes := [],
                LoadedPositions := [(0, 0, 0)], LoadedNormals := [], LoadedTCoords := [],
                LoadedMaterials := [] },
    PositionIndices := [], NormalIndices := [], TextureIndices := [], MeshMatNames := [],
    listening := false, meshname := [], printed := [] }

/-- The fields joined by the delimiter `d`. -/
def joinFields (d : Str) (fields : List Str) : Str :=
  List.intercalate d fields

/-- A stand-in for what is outside the repository, for the examples with a
material file: numbers are read by `stoi`, the only file is `lib.mtl` with the
given lines. -/
def mtlEnv (lines : List Str) : Env Int :=
  { stod := stoi, stof := stoi, zero := 0,
    readLines := fun p => if p = "lib.mtl".toList then some lines else none,
    parent_path := fun _ => [] }

/-- The distinct elements of `l` in order of first occurrence. -/
def firstSeen (l : List Int) : List Int :=
  (l.reverse.dedup).reverse

/-- The number of distinct corner pairs of `m` whose position index is
smaller than `p`. -/
def pairsBelow {R : Type} (m : MatrixMesh R) (p : Int) : Nat :=
  ((cornerPairs m).dedup.filter (fun c => decide (c.1 < p))).length

/-- The index lists of a sub-mesh as the constructor leaves them: at least one
face, and the texcoord and the normal index list each either cleared or as long
as the position index list and without a negative index. -/
def FacesShape {Flt : Type} (m : Mesh Flt) : Prop :=
  m.PositionIndices ≠ [] ∧
  (m.TextureIndices = [] ∨ (m.TextureIndices.length = m.PositionIndices.length ∧
    hasNegativeRow m.TextureIndices = .ok false)) ∧
  (m.NormalIndices = [] ∨ (m.NormalIndices.length = m.PositionIndices.length ∧
    hasNegativeRow m.NormalIndices = .ok false))

/-- What holds of the loader between two lines: every sub-mesh has the shape
above and no material yet, and with a sub-mesh there is a position. -/
def LoaderInv {Flt : Type} (zero : Flt) (l : Loader Flt) : Prop :=
  (∀ m ∈ l.LoadedMeshes, FacesShape m ∧ m.MeshMaterial = Material.new zero) ∧
  (l.LoadedMeshes ≠ [] → l.LoadedPositions ≠ [])

/-- What holds of the locals of `LoadFile` between two lines: the loader is as
above and the three accumulators have the same length. -/
def StateInv {Flt : Type} (zero : Flt) (s : ObjState Flt) : Prop :=
  LoaderInv zero s.loader ∧ s.TextureIndices.length = s.PositionIndices.length ∧
  s.NormalIndices.length = s.PositionIndices.length

/-- A step that pushes no sub-mesh and leaves accumulators and recorded names
alone; positions may have been appended. -/
def Keeps {Flt : Type} (s s' : ObjState Flt) : Prop :=
  s'.loader.LoadedMeshes = s.loader.LoadedMeshes ∧
  (∃ extra, s'.loader.LoadedPositions = s.loader.LoadedPositions ++ extra) ∧
  s'.PositionIndices = s.PositionIndices ∧ s'.TextureIndices = s.TextureIndices ∧
  s'.NormalIndices = s.NormalIndices ∧ s'.MeshMatNames = s.MeshMatNames

/-- The names the `usemtl` lines record, in the order of the lines. -/
def usemtlNames (lines : List Str) : List Str :=
  (lines.filter (fun l => decide (firstToken l = "usemtl".toList))).map tail

/-- The mesh `m` at place `i` once the recorded names have been gone through:
with the first material named as the `i`-th recorded name, where there is such
a name and such a material, and as it was otherwise. -/
def withRecorded {Flt : Type} (materials : List (Material Flt)) (names : List Str) (i : Nat)
    (m : Mesh Flt) : Mesh Flt :=
  match names[i]? with
  | some X =>
    match findMaterial materials X with
    | some mat => { m with MeshMaterial := mat }
    | none => m
  | none => m

/-- A stand-in for what is outside the repository, for the examples with a mesh
file and a material file: numbers are read by `stoi`, the files are `mesh.obj`
and, next to it, `lib.mtl`. -/
def twoFileEnv (objLines mtlLines : List Str) : Env Int :=
  { stod := stoi, stof := stoi, zero := 0,
    readLines := fun p => if p = "mesh.obj".toList then some objLines
      else if p = "/lib.mtl".toList then some mtlLines else none,
    parent_path := fun _ => [] }

/-- Every component of every row is written and not negative. -/
def AllWrittenNonneg (rows : List Vector3i) : Prop :=
  ∀ row ∈ rows, ∃ a b c : Int, row = ⟨some a, some b, some c⟩ ∧ 0 ≤ a ∧ 0 ≤ b ∧ 0 ≤ c

/-- The loader after `v 0 0 0`, `o A` and `f 1 1 1`. -/
def oneTriangleLoaded : Loader Int :=
  { LoadedPath := "mesh.obj".toList,
    LoadedMeshes := [{ MeshName := "A".toList, PositionIndices := [⟨some 0, some 0, some 0⟩],
                       TextureIndices := [], NormalIndices := [],
                       MeshMaterial := Material.new 0 }],
    LoadedPositions := [(0, 0, 0)], LoadedNormals := [], LoadedTCoords := [],
    LoadedMaterials := [] }

/-- The sub-mesh of `v 0 0 0`, `vt 0 0` and `f 1/1 1/1 1/1`. -/
def texturedMesh : Mesh Int :=
  { MeshName := [], PositionIndices := [⟨some 0, some 0, some 0⟩],
    TextureIndices := [⟨some 0, some 0, some 0⟩], NormalIndices := [],
    MeshMaterial := Material.new 0 }

/-- The loader after `v 0 0 0`, `vt 0 0` and `f 1/1 1/1 1/1`. -/
def texturedLoaded : Loader Int :=
  { LoadedPath := "mesh.obj".toList, LoadedMeshes := [texturedMesh],
    LoadedPositions := [(0, 0, 0)], LoadedNormals := [], LoadedTCoords := [(0, 0)],
    LoadedMaterials := [] }

/-- The material `M` of the example: the fresh material named `M`, with
`Ns 5`. -/
def materialM : Material Int :=
  { Material.new 0 with name := "M".toList, Ns := 5 }

/-- The lines of the example mesh file: object `A` with no material, object `B`
under the material `M`. -/
def twoObjectsLines : List Str :=
  ["mtllib lib.mtl".toList, "v 0 0 0".toList, "o A".toList, "f 1 1 1".toList,
   "o B".toList, "usemtl M".toList, "f 1 1 1".toList]

/-- The loader after the example mesh file, with `newmtl M` and `Ns 5` in the
material file. -/
def twoObjectsLoaded : Loader Int :=
  { LoadedPath := "mesh.obj".toList,
    LoadedMeshes :=
      [{ MeshName := "A".toList, PositionIndices := [⟨some 0, some 0, some 0⟩],
         TextureIndices := [], NormalIndices := [], MeshMaterial := materialM },
       { MeshName := "B".toList, PositionIndices := [⟨some 0, some 0, some 0⟩],
         TextureIndices := [], NormalIndices := [], MeshMaterial := Material.new 0 }],
    LoadedPositions := [(0, 0, 0)], LoadedNormals := [], LoadedTCoords := [],
    LoadedMaterials := [materialM] }

/-- An `f` line together with the three records it is made of. -/
structure FaceLine where
  line : Str
  a : VertexRecord
  b : VertexRecord
  c : VertexRecord

/-- The line is an `f` line whose tail splits into the three records, each of
them well-formed. -/
def FaceLine.good (f : FaceLine) : Bool :=
  f.a.wellFormed && f.b.wellFormed && f.c.wellFormed &&
    decide (firstToken f.line = ['f']) &&
    decide (split (tail f.line) [' '] = [f.a.text, f.b.text, f.c.text])

/-- The position indices of the face, as stored. -/
def FaceLine.positions (f : FaceLine) : Vector3i :=
  ⟨some f.a.triple.1, some f.b.triple.1, some f.c.triple.1⟩

/-- The texcoord indices of the face, as stored. -/
def FaceLine.texcoords (f : FaceLine) : Vector3i :=
  ⟨some f.a.triple.2.1, some f.b.triple.2.1, some f.c.triple.2.1⟩

/-- The normal indices of the face, as stored. -/
def FaceLine.normals (f : FaceLine) : Vector3i :=
  ⟨some f.a.triple.2.2, some f.b.triple.2.2, some f.c.triple.2.2⟩

/-- The state before the first object, face and material line: only positions
and materials may have been loaded. -/
def Fresh {Flt : Type} (s : ObjState Flt) : Prop :=
  s.PositionIndices = [] ∧ s.TextureIndices = [] ∧ s.NormalIndices = [] ∧
  s.MeshMatNames = [] ∧ s.listening = false ∧ s.printed = [] ∧ s.loader.LoadedMeshes = []

/-- Every component of every row is written. -/
def AllWritten (rows : List Vector3i) : Prop :=
  ∀ row ∈ rows, ∃ a b c : Int, row = ⟨some a, some b, some c⟩

/-- The lines of the example with a material switch: two faces of the object
`N` under the material `A`, one under `B`. -/
def switchLines : List Str :=
  ["mtllib lib.mtl".toList, "v 0 0 0".toList, "o N".toList, "usemtl A".toList,
   "f 1 1 1".toList, "f 1 1 1".toList, "usemtl B".toList, "f 1 1 1".toList]

/-- The state of `LoadFile` on the example after `mtllib lib.mtl` and
`v 0 0 0`, the library defining `A` and `B`. -/
def switchPreState : ObjState Int :=
  { loader := { LoadedPath := "mesh.obj".toList, LoadedMeshes := [],
                LoadedPositions := [(0, 0, 0)], LoadedNormals := [], LoadedTCoords := [],
                LoadedMaterials := [{ Material.new 0 with name := "A".toList },
                                    { Material.new 0 with name := "B".toList }] },
    PositionIndices := [], NormalIndices := [], TextureIndices := [], MeshMatNames := [],
    listening := false, meshname := [], printed := [] }

/-- The face line `f 1 1 1` with its three records. -/
def faceOneOneOne : FaceLine :=
  ⟨"f 1 1 1".toList, .P "1".toList, .P "1".toList, .P "1".toList⟩

/-- The name of the mesh under way after the lines, read from the start of
`LoadFile`. -/
def meshnameAfter (env : Env Int) (lines : List Str) : Option Str :=
  (lines.foldlM (objLine env "mesh.obj".toList)
    (ObjState.start Loader.new "mesh.obj".toList)).toOption.map (fun s => s.meshname)

/-- A mesh of two triangles whose four positions use the two texcoord rows:
four distinct corner pairs, two texcoord rows. -/
def fourPairsMesh : MatrixMesh Nat :=
  { V := [some 10, some 11, some 12, some 13], N := [],
    TC := [some 20, some 21],
    F := [⟨some 0, some 1, some 2⟩, ⟨some 0, some 2, some 3⟩], FN := [],
    FTC := [⟨some 0, some 1, some 0⟩, ⟨some 0, some 0, some 1⟩] }

/-- The number of recorded `usemtl` names and the number of sub-meshes at the
end of the parse of the lines, before the material pass of lines 575-590. -/
def parsedCounts (env : Env Int) (lines : List Str) : Option (Nat × Nat) :=
  (do
    let s ← lines.foldlM (objLine env "mesh.obj".toList)
      (ObjState.start Loader.new "mesh.obj".toList)
    let l ← lastMesh env s
    pure (s.MeshMatNames.length, l.LoadedMeshes.length)).toOption

/-- The lines of a mesh file with two `usemtl` lines before its only face. -/
def twoNamesLines : List Str :=
  ["mtllib lib.mtl".toList, "v 0 0 0".toList, "usemtl M".toList, "usemtl M".toList,
   "f 1 1 1".toList]

/-- The position-index triple `ReadTriangleIndicesRawOBJ` leaves for an `f`
line, as `LoadFile` appends it; nothing for another line. -/
def facePositionOf (d : Str) : Option Vector3i :=
  if firstToken d = ['f'] then
    match ReadTriangleIndicesRawOBJ Vector3i.fresh Vector3i.fresh Vector3i.fresh d with
    | .ok r => some r.PositionIdx
    | .error _ => none
  else none

/-- The position-index triples of the `f` lines, in file order. -/
def facePositions (lines : List Str) : List Vector3i :=
  lines.filterMap facePositionOf

/-- The position-index triples of the sub-meshes, sub-mesh after sub-mesh. -/
def meshFaces {Flt : Type} (meshes : List (Mesh Flt)) : List Vector3i :=
  (meshes.map (fun m => m.PositionIndices)).flatten

/-- The faces read so far: those of the sub-meshes pushed, then those under
way. -/
def allFaces {Flt : Type} (s : ObjState Flt) : List Vector3i :=
  meshFaces s.loader.LoadedMeshes ++ s.PositionIndices

/-- An index list with the content of its rows put aside: as many unwritten
rows. -/
def blankRows (P : List Vector3i) : List Vector3i :=
  P.map (fun _ => Vector3i.fresh)

/-- A sub-mesh with its position indices put aside. -/
def Mesh.forget {Flt : Type} (m : Mesh Flt) : Mesh Flt :=
  { m with PositionIndices := blankRows m.PositionIndices }

/-- A loader with the position indices of its sub-meshes put aside. -/
def Loader.forget {Flt : Type} (l : Loader Flt) : Loader Flt :=
  { l with LoadedMeshes := l.LoadedMeshes.map Mesh.forget }

/-- The locals of `LoadFile` with all position indices put aside. -/
def ObjState.forget {Flt : Type} (s : ObjState Flt) : ObjState Flt :=
  { s with PositionIndices := blankRows s.PositionIndices, loader := s.loader.forget }

/-- The result of `LoadFile` with all position indices put aside. -/
def forgetResult {Flt : Type} (r : Bool × Loader Flt × List Str) : Bool × Loader Flt × List Str :=
  (r.1, r.2.1.forget, r.2.2)

/-- Two lines that are the same, or two well-formed face lines with the same
texcoord and normal indices: they differ at most in the position indices
written. -/
def SameButPositions (d d' : Str) : Prop :=
  d = d' ∨ ∃ f g : FaceLine, f.good = true ∧ g.good = true ∧ d = f.line ∧ d' = g.line ∧
    f.texcoords = g.texcoords ∧ f.normals = g.normals

/-- The face line `f 5 6 7` with its three records. -/
def faceFiveSixSeven : FaceLine :=
  ⟨"f 5 6 7".toList, .P "5".toList, .P "6".toList, .P "7".toList⟩

/-- The lines of a mesh file with two objects of one face each, all indices in
range. -/
def inRangeLines : List Str :=
  ["v 0 0 0".toList, "o A".toList, "f 1 1 1".toList, "o B".toList, "f 1 1 1".toList]

/-- The same lines, the first face with the position indices 5, 6 and 7, the
file having one position. -/
def outOfRangeLines : List Str :=
  ["v 0 0 0".toList, "o A".toList, "f 5 6 7".toList, "o B".toList, "f 1 1 1".toList]

/-- The loader after the lines `inRangeLines`. -/
def inRangeLoaded : Loader Int :=
  { LoadedPath := "mesh.obj".toList,
    LoadedMeshes :=
      [{ MeshName := "A".toList, PositionIndices := [⟨some 0, some 0, some 0⟩],
         TextureIndices := [], NormalIndices := [], MeshMaterial := Material.new 0 },
       { MeshName := "B".toList, PositionIndices := [⟨some 0, some 0, some 0⟩],
         TextureIndices := [], NormalIndices := [], MeshMaterial := Material.new 0 }],
    LoadedPositions := [(0, 0, 0)], LoadedNormals := [], LoadedTCoords := [],
    LoadedMaterials := [] }

/-! ## Loop and buffer lemmas -/

theorem forRange_zero {σ : Type} (body : Nat → σ → Except Fault σ) (s : σ) :
    forRange 0 body s = .ok s := rfl

theorem forRange_succ {σ : Type} (n : Nat) (body : Nat → σ → Except Fault σ) (s : σ) :
    forRange (n + 1) body s = (forRange n body s >>= body n) := by
  simp [forRange, List.range_succ, List.foldlM_append]

/-- Loop invariant rule: an invariant that every iteration re-establishes
without faulting holds after the loop, and the loop does not fault. -/
theorem forRange_inv {σ : Type} (n : Nat) (body : Nat → σ → Except Fault σ)
    (Inv : Nat → σ → Prop) (s0 : σ) (h0 : Inv 0 s0)
    (hstep : ∀ i s, i < n → Inv i s → ∃ s', body i s = .ok s' ∧ Inv (i + 1) s') :
    ∃ s', forRange n body s0 = .ok s' ∧ Inv n s' := by
  induction n with
  | zero => exact ⟨s0, rfl, h0⟩
  | succ k ih =>
    obtain ⟨s1, h1, hI⟩ := ih (fun i s hi => hstep i s (Nat.lt_succ_of_lt hi))
    obtain ⟨s2, h2, hI2⟩ := hstep k s1 (Nat.lt_succ_self k) hI
    refine ⟨s2, ?_, hI2⟩
    rw [forRange_succ, h1]
    exact h2

theorem getAt_nat {α : Type} (l : List α) (i : Nat) (a : α) (h : l[i]? = some a) :
    getAt l (i : Int) = .ok a := by
  simp [getAt, h]

theorem getAt_int {α : Type} (l : List α) (x : Int) (a : α) (h0 : 0 ≤ x)
    (h : l[x.toNat]? = some a) : getAt l x = .ok a := by
  simp [getAt, h0, h]

theorem setAt_nat {α : Type} (l : List α) (i : Nat) (a : α) (h : i < l.length) :
    setAt l (i : Int) a = .ok (l.set i a) := by
  simp [setAt, h]

theorem setAt_int {α : Type} (l : List α) (x : Int) (a : α) (h0 : 0 ≤ x)
    (h : x.toNat < l.length) : setAt l x a = .ok (l.set x.toNat a) := by
  simp [setAt, h0, h]

theorem set_append_replicate {α : Type} (W : List α) (k : Nat) (d x : α) :
    (W ++ List.replicate (k + 1) d).set W.length x = (W ++ [x]) ++ List.replicate k d := by
  induction W with
  | nil => simp [List.replicate_succ]
  | cons a W ih => simpa using ih

/-! ## First pass -/

theorem tcsOf_append_one (cs : List (Int × Int)) (c : Int × Int) (p : Int) :
    tcsOf (cs ++ [c]) p = if c.1 = p then pushNew (tcsOf cs p) c.2 else tcsOf cs p := by
  simp [tcsOf, List.foldl_append]

theorem inRange_spec (n : Nat) (c : Cell Int) (h : inRange n c = true) :
    ∃ x : Int, c = some x ∧ 0 ≤ x ∧ x < n := by
  cases c with
  | none => simp [inRange] at h
  | some x => simp [inRange] at h; exact ⟨x, rfl, h.1, h.2⟩

theorem coeff_inRange (M : List Vector3i) (n : Nat) (h : ∀ r ∈ M, rowInRange n r = true)
    (i j : Nat) (hi : i < M.length) :
    coeff M i j = .ok (idxAt M i j) ∧ 0 ≤ idxAt M i j ∧ idxAt M i j < n := by
  have hr := h (M[i]) (List.getElem_mem _)
  simp only [rowInRange, Bool.and_eq_true] at hr
  have hc : inRange n (M[i].get j) = true := by
    unfold Vector3i.get
    split
    · exact hr.1.1
    · exact hr.1.2
    · exact hr.2
  obtain ⟨x, hx, h0, h1⟩ := inRange_spec n _ hc
  simp [coeff, idxAt, List.getElem?_eq_getElem hi, hx, h0, h1]

theorem collectCorner_spec (n : Nat) (f : Nat → List Int) (p t : Int) (h0 : 0 ≤ p)
    (h1 : p < n) :
    collectCorner ((List.range n).map f) p t =
      .ok ((List.range n).map fun (q : Nat) => if p = (q : Int) then pushNew (f q) t else f q) := by
  have hp : p.toNat < n := by omega
  have hg : ((List.range n).map f)[p.toNat]? = some (f p.toNat) := by
    simp [List.getElem?_map, List.getElem?_range hp]
  have hcast : ((p.toNat : Nat) : Int) = p := by omega
  simp only [collectCorner, getAt_int _ p _ h0 hg, bind, Except.bind]
  by_cases hm : t ∈ f p.toNat
  · simp only [hm, if_true, pure, Except.pure]
    congr 1
    apply List.map_congr_left
    intro q _
    by_cases hq : p = (q : Int)
    · have : q = p.toNat := by omega
      subst this
      rw [if_pos hq, pushNew, if_pos hm]
    · simp [hq]
  · simp only [hm, if_false]
    rw [setAt_int _ p _ h0 (by simpa using hp)]
    congr 1
    apply List.ext_getElem?
    intro k
    simp only [List.getElem?_set, List.getElem?_map, List.length_map, List.length_range]
    by_cases hk : p.toNat = k
    · subst hk
      simp [hp, List.getElem?_range hp, hcast, pushNew, hm]
    · simp only [hk, if_false]
      by_cases hkn : k < n
      · have : ¬ (p = (k : Int)) := by omega
        simp [List.getElem?_range hkn, this]
      · simp [List.getElem?_eq_none (l := List.range n) (by simpa using Nat.le_of_not_lt hkn)]

theorem forRange_three {σ : Type} (body : Nat → σ → Except Fault σ) (s : σ) :
    forRange 3 body s = (body 0 s >>= body 1 >>= body 2) := by
  simp [forRange, List.range_succ, List.foldlM_append]

/-- The first pass does not fault on in-range input, and records for every
position index its distinct texcoord indices in first-seen order. -/
theorem buildVtcIndex_spec {R : Type} (m : MatrixMesh R)
    (hrows : m.F.length = m.FTC.length)
    (hF : ∀ r ∈ m.F, rowInRange m.V.length r = true)
    (hFTC : ∀ r ∈ m.FTC, rowInRange m.TC.length r = true) :
    buildVtcIndex m =
      .ok ((List.range m.V.length).map fun (q : Nat) => tcsOf (cornersUpTo m m.F.length) (q : Int)) := by
  obtain ⟨s, hs, hI⟩ := forRange_inv m.F.length
    (fun i s => forRange 3 (fun j s => do
      let f_Index ← coeff m.F i j
      let ftc_Index ← coeff m.FTC i j
      collectCorner s f_Index ftc_Index) s)
    (fun i s => s = (List.range m.V.length).map fun (q : Nat) => tcsOf (cornersUpTo m i) (q : Int))
    (List.replicate m.V.length [])
    (by
      apply List.ext_getElem?
      intro k
      by_cases hk : k < m.V.length
      · simp [List.getElem?_replicate, hk, List.getElem?_range hk, cornersUpTo, tcsOf]
      · simp [List.getElem?_replicate, hk,
          List.getElem?_eq_none (l := List.range m.V.length) (by simpa using Nat.le_of_not_lt hk)])
    (by
      intro i s hi hs
      subst hs
      have c0 := coeff_inRange m.F _ hF i 0 hi
      have c1 := coeff_inRange m.F _ hF i 1 hi
      have c2 := coeff_inRange m.F _ hF i 2 hi
      have d0 := coeff_inRange m.FTC _ hFTC i 0 (hrows ▸ hi)
      have d1 := coeff_inRange m.FTC _ hFTC i 1 (hrows ▸ hi)
      have d2 := coeff_inRange m.FTC _ hFTC i 2 (hrows ▸ hi)
      refine ⟨_, ?_, rfl⟩
      beta_reduce
      rw [forRange_three]
      simp only [bind, Except.bind, c0.1, c1.1, c2.1, d0.1, d1.1, d2.1]
      rw [collectCorner_spec _ _ _ _ c0.2.1 c0.2.2]
      simp only []
      rw [collectCorner_spec _ _ _ _ c1.2.1 c1.2.2]
      simp only []
      rw [collectCorner_spec _ _ _ _ c2.2.1 c2.2.2]
      congr 1
      apply List.map_congr_left
      intro q _
      simp only [cornersUpTo]
      rw [show ∀ (a b c : Int × Int) (l : List (Int × Int)), l ++ [a, b, c] = ((l ++ [a]) ++ [b]) ++ [c]
        from fun a b c l => by simp]
      simp only [tcsOf_append_one])
  rw [← hI]
  exact hs

/-! ## Buffers filled front to back -/

theorem fill_nil {α β : Type} (f : β → α) (n : Nat) (d : α) :
    fill f [] n d = List.replicate n d := by
  simp [fill]

theorem fill_length {α β : Type} (f : β → α) (W : List β) (n : Nat) (d : α)
    (h : W.length ≤ n) : (fill f W n d).length = n := by
  simp [fill]; omega

theorem fill_getElem?_lt {α β : Type} (f : β → α) (W : List β) (n : Nat) (d : α)
    (k : Nat) (c : β) (h : W[k]? = some c) : (fill f W n d)[k]? = some (f c) := by
  have hk : k < W.length := by
    by_contra hcon
    rw [List.getElem?_eq_none (Nat.le_of_not_lt hcon)] at h
    exact absurd h (by simp)
  rw [fill, List.getElem?_append_left (by simpa using hk), List.getElem?_map, h]
  rfl

theorem fill_getElem?_ge {α β : Type} (f : β → α) (W : List β) (n : Nat) (d : α)
    (k : Nat) (h : W.length ≤ k) (hk : k < n) : (fill f W n d)[k]? = some d := by
  rw [fill, List.getElem?_append_right (by simpa using h), List.getElem?_replicate]
  simp
  omega

theorem setAt_fill {α β : Type} (f : β → α) (W : List β) (n : Nat) (d : α) (c : β)
    (x : Int) (hx : x = (W.length : Int)) (h : W.length < n) :
    setAt (fill f W n d) x (f c) = .ok (fill f (W ++ [c]) n d) := by
  subst hx
  rw [setAt_nat _ _ _ (by rw [fill_length f W n d (Nat.le_of_lt h)]; exact h)]
  congr 1
  have e : n - W.length = (n - (W.length + 1)) + 1 := by omega
  have hl : (W.map f).length = W.length := by simp
  unfold fill
  rw [e, ← hl, set_append_replicate]
  simp

/-! ## Counting pass -/

theorem flatUpTo_succ_length (G : List (List Int)) (i : Nat) :
    (flatUpTo G (i + 1)).length = (flatUpTo G i).length + (G.getD i []).length := by
  simp [flatUpTo]

theorem flatUpTo_mono (G : List (List Int)) (i n : Nat) (h : i ≤ n) :
    ∃ rest, flatUpTo G n = flatUpTo G i ++ rest := by
  induction n with
  | zero =>
    have : i = 0 := by omega
    subst this
    exact ⟨[], by simp⟩
  | succ k ih =>
    by_cases hk : i = k + 1
    · subst hk
      exact ⟨[], by simp⟩
    · obtain ⟨rest, hr⟩ := ih (by omega)
      exact ⟨rest ++ (G.getD k []).map (fun t => ((k : Int), t)), by simp [flatUpTo, hr]⟩

theorem flatUpTo_length_mono (G : List (List Int)) (i n : Nat) (h : i ≤ n) :
    (flatUpTo G i).length ≤ (flatUpTo G n).length := by
  obtain ⟨rest, hr⟩ := flatUpTo_mono G i n h
  rw [hr]
  simp

/-- The counting pass does not fault; it stores the size of every group and
the number of pairs in the groups before it. -/
theorem countStart_spec (G : List (List Int)) :
    countStart G.length G =
      .ok ⟨(List.range G.length).map (fun q => ((G.getD q []).length : Int)),
           (List.range G.length).map (fun q => ((flatUpTo G q).length : Int)),
           ((flatUpTo G G.length).length : Int)⟩ := by
  have key : ∃ s', countStart G.length G = .ok s' ∧
      s' = ⟨fill (fun q => ((G.getD q []).length : Int)) (List.range G.length) G.length 0,
            fill (fun q => ((flatUpTo G q).length : Int)) (List.range G.length) G.length 0,
            ((flatUpTo G G.length).length : Int)⟩ := by
    unfold countStart
    apply forRange_inv G.length _
      (fun i (s : Counts) =>
        s = ⟨fill (fun q => ((G.getD q []).length : Int)) (List.range i) G.length 0,
             fill (fun q => ((flatUpTo G q).length : Int)) (List.range i) G.length 0,
             ((flatUpTo G i).length : Int)⟩)
    · simp [fill, flatUpTo]
    · intro i s hi hs
      subst hs
      refine ⟨_, ?_, rfl⟩
      have hg : G[i]? = some (G.getD i []) := by
        simp [List.getElem?_eq_getElem hi]
      have e1 := setAt_fill (fun q => ((G.getD q []).length : Int)) (List.range i) G.length 0 i
        (i : Int) (by simp) (by simpa using hi)
      have e2 := setAt_fill (fun q => ((flatUpTo G q).length : Int)) (List.range i) G.length 0 i
        (i : Int) (by simp) (by simpa using hi)
      simp only [bind, Except.bind, getAt_nat G i _ hg, pure, Except.pure]
      rw [e1]
      simp only []
      rw [e2]
      simp only [List.range_succ, flatUpTo_succ_length, Nat.cast_add]
  obtain ⟨s, hs, hI⟩ := key
  rw [hs, hI]
  simp [fill]

/-! ## Emitting the texcoord rows -/

theorem getAt_rowAt {R : Type} (M : List (Cell R)) (x : Int) (h0 : 0 ≤ x) (h1 : x < M.length) :
    getAt M x = .ok (rowAt M x) := by
  have hx : x.toNat < M.length := by omega
  apply getAt_int _ _ _ h0
  simp [rowAt, List.getElem?_eq_getElem hx]

theorem take_succ_map {α β : Type} (l : List α) (f : α → β) (j : Nat) (h : j < l.length) :
    (l.take (j + 1)).map f = (l.take j).map f ++ [f l[j]] := by
  rw [List.take_succ, List.getElem?_eq_getElem h, List.map_append]
  rfl

/-- The emission of the texcoord rows does not fault when the texcoord
indices are in range and the pairs fit the buffers of `TC.rows()` entries. -/
theorem emitTexcoords_spec {R : Type} (TC : List (Cell R)) (G : List (List Int))
    (hT : ∀ row ∈ G, ∀ t ∈ row, 0 ≤ t ∧ t < (TC.length : Int))
    (hcap : (flatUpTo G G.length).length ≤ TC.length) :
    emitTexcoords TC G = .ok (emitOf TC (flatUpTo G G.length)) := by
  have key : ∃ s', emitTexcoords TC G = .ok s' ∧ s' = emitOf TC (flatUpTo G G.length) := by
    unfold emitTexcoords
    apply forRange_inv G.length _ (fun i (s : Emit R) => s = emitOf TC (flatUpTo G i))
    · simp [emitOf, flatUpTo, fill]
    · intro i s hi hs
      subst hs
      have hg : G[i]? = some G[i] := List.getElem?_eq_getElem hi
      have hgd : G.getD i [] = G[i] := by simp [List.getElem?_eq_getElem hi]
      have hle : (flatUpTo G (i + 1)).length ≤ TC.length :=
        Nat.le_trans (flatUpTo_length_mono G (i + 1) G.length hi) hcap
      rw [flatUpTo_succ_length, hgd] at hle
      simp only [bind, Except.bind, getAt_nat G i _ hg]
      have inner : ∃ s', forRange G[i].length (fun j (s : Emit R) => do
            let tc_index ← getAt G[i] j
            let r ← getAt TC tc_index
            let tc_new ← setAt s.tc_new s.count r
            let a ← setAt s.vNew2vOld s.count (i : Int)
            let b ← setAt s.vNew2TcOld s.count tc_index
            pure ⟨tc_new, a, b, s.count + 1⟩) (emitOf TC (flatUpTo G i)) = .ok s' ∧
          s' = emitOf TC (flatUpTo G i ++ (G[i].take G[i].length).map (fun t => ((i : Int), t))) := by
        apply forRange_inv G[i].length _ (fun j (s : Emit R) =>
          s = emitOf TC (flatUpTo G i ++ (G[i].take j).map (fun t => ((i : Int), t))))
        · simp
        · intro j s hj hs
          subst hs
          refine ⟨_, ?_, rfl⟩
          have hmem : G[i][j] ∈ G[i] := List.getElem_mem _
          have hr := hT G[i] (List.getElem_mem _) G[i][j] hmem
          have hlen : (flatUpTo G i ++ (G[i].take j).map (fun t => ((i : Int), t))).length
              < TC.length := by
            simp [List.length_take]
            omega
          simp only [bind, Except.bind, getAt_nat G[i] j _ (List.getElem?_eq_getElem hj),
            getAt_rowAt TC _ hr.1 hr.2, emitOf, pure, Except.pure]
          rw [setAt_fill (fun c : Int × Int => rowAt TC c.2) _ TC.length none
            ((i : Int), G[i][j]) _ rfl hlen]
          simp only []
          rw [setAt_fill (fun c : Int × Int => c.1) _ TC.length 0
            ((i : Int), G[i][j]) _ rfl hlen]
          simp only []
          rw [setAt_fill (fun c : Int × Int => c.2) _ TC.length 0
            ((i : Int), G[i][j]) _ rfl hlen]
          simp only [take_succ_map _ _ _ hj, List.append_assoc, List.length_append,
            List.length_singleton, Nat.cast_add, Nat.cast_one, add_assoc]
      obtain ⟨s', hs', hE⟩ := inner
      refine ⟨s', hs', ?_⟩
      rw [hE, List.take_length, flatUpTo, hgd]
  obtain ⟨s, hs, hI⟩ := key
  rw [hs, hI]

/-! ## Emitting the position rows -/

theorem countsOf_count (G : List (List Int)) (p : Nat) (hp : p < G.length) :
    (countsOf G).v_tc_count[p]? = some ((G[p].length : Int)) := by
  simp [countsOf, List.getElem?_range hp, List.getElem?_eq_getElem hp]

theorem countsOf_start (G : List (List Int)) (p : Nat) (hp : p < G.length) :
    (countsOf G).v_tc_start[p]? = some (((flatUpTo G p).length : Int)) := by
  simp [countsOf, List.getElem?_range hp]

/-- The emission of the position rows does not fault when the pairs fit the
buffer of `TC.rows()` entries. -/
theorem emitPositions_spec {R : Type} (V : List (Cell R)) (nTC : Nat) (G : List (List Int))
    (hlen : G.length = V.length)
    (hcap : (flatUpTo G G.length).length ≤ nTC) :
    emitPositions V nTC (countsOf G) =
      .ok (fill (fun c => rowAt V c.1) (flatUpTo G G.length) nTC none) := by
  have key : ∃ s', emitPositions V nTC (countsOf G) = .ok s' ∧
      s' = fill (fun c => rowAt V c.1) (flatUpTo G G.length) nTC none := by
    unfold emitPositions
    rw [← hlen]
    apply forRange_inv G.length _ (fun i (s : List (Cell R)) =>
      s = fill (fun c => rowAt V c.1) (flatUpTo G i) nTC none)
    · simp [flatUpTo, fill]
    · intro i s hi hs
      subst hs
      have hgd : G.getD i [] = G[i] := by simp [List.getElem?_eq_getElem hi]
      have hle : (flatUpTo G (i + 1)).length ≤ nTC :=
        Nat.le_trans (flatUpTo_length_mono G (i + 1) G.length hi) hcap
      rw [flatUpTo_succ_length, hgd] at hle
      simp only [bind, Except.bind, getAt_nat _ i _ (countsOf_count G i hi), Int.toNat_ofNat]
      have inner : ∃ s', forRange G[i].length (fun count1 (v_new : List (Cell R)) => do
            let st ← getAt (countsOf G).v_tc_start i
            let r ← getAt V i
            setAt v_new (st + count1) r)
            (fill (fun c => rowAt V c.1) (flatUpTo G i) nTC none) = .ok s' ∧
          s' = fill (fun c => rowAt V c.1)
            (flatUpTo G i ++ (G[i].take G[i].length).map (fun t => ((i : Int), t))) nTC none := by
        apply forRange_inv G[i].length _ (fun j (s : List (Cell R)) =>
          s = fill (fun c => rowAt V c.1)
            (flatUpTo G i ++ (G[i].take j).map (fun t => ((i : Int), t))) nTC none)
        · simp
        · intro j s hj hs
          subst hs
          refine ⟨_, ?_, rfl⟩
          have hl : (flatUpTo G i ++ (G[i].take j).map (fun t => ((i : Int), t))).length
              < nTC := by
            simp [List.length_take]
            omega
          have hx : ((flatUpTo G i).length : Int) + (j : Int) =
              ((flatUpTo G i ++ (G[i].take j).map (fun t => ((i : Int), t))).length : Int) := by
            simp [List.length_take]
            omega
          have hv : getAt V (i : Int) = .ok (rowAt V (i : Int)) :=
            getAt_rowAt V _ (by omega) (by omega)
          simp only [bind, Except.bind, getAt_nat _ i _ (countsOf_start G i hi), hv]
          rw [setAt_fill (fun c : Int × Int => rowAt V c.1) _ nTC none
            ((i : Int), G[i][j]) _ hx hl]
          simp only [take_succ_map _ _ _ hj, List.append_assoc]
      obtain ⟨s', hs', hE⟩ := inner
      refine ⟨s', hs', ?_⟩
      rw [hE, List.take_length, flatUpTo, hgd]
  obtain ⟨s, hs, hI⟩ := key
  rw [hs, hI]

/-! ## Rewriting the faces -/

theorem flatUpTo_getElem? (G : List (List Int)) (p k : Nat) (hp : p < G.length)
    (hk : k < G[p].length) :
    (flatUpTo G G.length)[(flatUpTo G p).length + k]? = some ((p : Int), G[p][k]) := by
  obtain ⟨rest, hr⟩ := flatUpTo_mono G (p + 1) G.length hp
  have hgd : G.getD p [] = G[p] := by simp [List.getElem?_eq_getElem hp]
  rw [hr, flatUpTo, hgd, List.append_assoc,
    List.getElem?_append_right (Nat.le_add_right _ _), Nat.add_sub_cancel_left,
    List.getElem?_append_left (by simpa using hk), List.getElem?_map,
    List.getElem?_eq_getElem hk]
  rfl

theorem not_mem_take_of_nodup (l : List Int) (k : Nat) (hk : k < l.length) (hnd : l.Nodup) :
    l[k] ∉ l.take k := by
  have h1 : (l.take (k + 1)).Nodup := hnd.sublist (List.take_sublist _ _)
  rw [List.take_succ, List.getElem?_eq_getElem hk] at h1
  have h2 := (List.nodup_append.1 h1).2.2
  intro hmem
  exact h2 hmem (by simp)

theorem mem_take_succ (l : List Int) (k : Nat) (hk : k < l.length) (t : Int) :
    t ∈ l.take (k + 1) ↔ t ∈ l.take k ∨ t = l[k] := by
  rw [List.take_succ, List.getElem?_eq_getElem hk]
  simp only [Option.toList, List.mem_append, List.mem_singleton]

/-- The search of one corner finds the unique new index of its pair. -/
theorem lookupCorner_spec {R : Type} (TC : List (Cell R)) (G : List (List Int)) (i j : Nat)
    (p : Nat) (t : Int) (f_new : List Vector3i) (row : Vector3i)
    (hp : p < G.length) (hnd : G[p].Nodup) (ht : t ∈ G[p])
    (hrow : f_new[i]? = some row) :
    lookupCorner (emitOf TC (flatUpTo G G.length)).vNew2vOld
        (emitOf TC (flatUpTo G G.length)).vNew2TcOld i j (p : Int) t
        ((flatUpTo G p).length : Int) (G[p].length : Int) f_new =
      .ok (f_new.set i (row.set j (((flatUpTo G p).length : Int) + (List.indexOf t G[p] : Int))),
           true) := by
  have key : ∃ s', lookupCorner (emitOf TC (flatUpTo G G.length)).vNew2vOld
        (emitOf TC (flatUpTo G G.length)).vNew2TcOld i j (p : Int) t
        ((flatUpTo G p).length : Int) (G[p].length : Int) f_new = .ok s' ∧
      s' = (if t ∈ G[p].take G[p].length then
        (f_new.set i (row.set j (((flatUpTo G p).length : Int) + (List.indexOf t G[p] : Int))),
          true) else (f_new, false)) := by
    unfold lookupCorner
    rw [Int.toNat_ofNat]
    apply forRange_inv G[p].length _ (fun k (s : List Vector3i × Bool) =>
      s = (if t ∈ G[p].take k then
        (f_new.set i (row.set j (((flatUpTo G p).length : Int) + (List.indexOf t G[p] : Int))),
          true) else (f_new, false)))
    · simp
    · intro k s hk hs
      subst hs
      refine ⟨_, ?_, rfl⟩
      have hidx := flatUpTo_getElem? G p k hp hk
      have ha : getAt (emitOf TC (flatUpTo G G.length)).vNew2vOld
          (((flatUpTo G p).length : Int) + (k : Int)) = .ok (p : Int) := by
        have := getAt_nat (emitOf TC (flatUpTo G G.length)).vNew2vOld
          ((flatUpTo G p).length + k) (p : Int)
          (fill_getElem?_lt (fun c : Int × Int => c.1) _ TC.length 0 _ _ hidx)
        simpa using this
      have hb : getAt (emitOf TC (flatUpTo G G.length)).vNew2TcOld
          (((flatUpTo G p).length : Int) + (k : Int)) = .ok G[p][k] := by
        have := getAt_nat (emitOf TC (flatUpTo G G.length)).vNew2TcOld
          ((flatUpTo G p).length + k) G[p][k]
          (fill_getElem?_lt (fun c : Int × Int => c.2) _ TC.length 0 _ _ hidx)
        simpa using this
      simp only [bind, Except.bind, ha, hb, if_true, pure, Except.pure]
      by_cases hbt : G[p][k] = t
      · have hnot : t ∉ G[p].take k := hbt ▸ not_mem_take_of_nodup G[p] k hk hnd
        have hin : t ∈ G[p].take (k + 1) := (mem_take_succ _ _ hk _).2 (Or.inr hbt.symm)
        have hio : List.indexOf t G[p] = k := hbt ▸ List.indexOf_getElem hnd k hk
        simp only [hbt, if_true, hnot, if_false, hin, setCoeff, List.get?_eq_getElem?, hrow, hio]
      · have hiff : t ∈ G[p].take (k + 1) ↔ t ∈ G[p].take k := by
          rw [mem_take_succ _ _ hk]
          constructor
          · rintro (h | h)
            · exact h
            · exact absurd h.symm hbt
          · exact Or.inl
        simp only [hbt, if_false, hiff]
  obtain ⟨s, hs, hI⟩ := key
  rw [hs, hI, List.take_length, if_pos ht]

theorem fill_set {α β : Type} (f : β → α) (W : List β) (n : Nat) (d : α) (c : β)
    (h : W.length < n) :
    (fill f W n d).set W.length (f c) = fill f (W ++ [c]) n d := by
  have := setAt_fill f W n d c (W.length : Int) rfl h
  rw [setAt_nat _ _ _ (by rw [fill_length f W n d (Nat.le_of_lt h)]; exact h)] at this
  exact Except.ok.inj this

theorem rewriteCorner_spec {R : Type} (m : MatrixMesh R) (G : List (List Int)) (i j : Nat)
    (fcur : List Vector3i) (row : Vector3i)
    (hc : coeff m.F i j = .ok (idxAt m.F i j))
    (hd : coeff m.FTC i j = .ok (idxAt m.FTC i j))
    (h0 : 0 ≤ idxAt m.F i j) (h1 : (idxAt m.F i j).toNat < G.length)
    (hnd : (G.getD (idxAt m.F i j).toNat []).Nodup)
    (ht : idxAt m.FTC i j ∈ G.getD (idxAt m.F i j).toNat [])
    (hrow : fcur[i]? = some row) :
    rewriteCorner m (countsOf G) (emitOf m.TC (flatUpTo G G.length)).vNew2vOld
        (emitOf m.TC (flatUpTo G G.length)).vNew2TcOld i j ⟨fcur, []⟩ =
      .ok ⟨fcur.set i (row.set j (newIndex G (idxAt m.F i j) (idxAt m.FTC i j))), []⟩ := by
  obtain ⟨p, hp⟩ : ∃ p : Nat, idxAt m.F i j = (p : Int) := ⟨_, (Int.toNat_of_nonneg h0).symm⟩
  rw [hp] at h1 hnd ht hc
  simp only [Int.toNat_ofNat] at h1 hnd ht
  have hgd : G.getD p [] = G[p] := by simp [List.getElem?_eq_getElem h1]
  rw [hgd] at hnd ht
  unfold rewriteCorner
  simp only [bind, Except.bind, hc, hd, getAt_nat _ p _ (countsOf_start G p h1),
    getAt_nat _ p _ (countsOf_count G p h1),
    lookupCorner_spec m.TC G i j p _ fcur row h1 hnd ht hrow, if_true, pure, Except.pure,
    newIndex, hp, Int.toNat_ofNat, hgd]

theorem pushNew_nodup (l : List Int) (t : Int) (h : l.Nodup) : (pushNew l t).Nodup := by
  unfold pushNew
  split
  · exact h
  · rename_i hn
    exact List.nodup_append.2 ⟨h, List.nodup_singleton t, by
      intro a ha hb
      rw [List.mem_singleton] at hb
      exact hn (hb ▸ ha)⟩

theorem mem_pushNew (l : List Int) (t x : Int) : x ∈ pushNew l t ↔ x ∈ l ∨ x = t := by
  unfold pushNew
  split
  · rename_i h
    constructor
    · exact Or.inl
    · rintro (h1 | h1)
      · exact h1
      · exact h1 ▸ h
  · simp

theorem tcsOf_nodup (cs : List (Int × Int)) (p : Int) : (tcsOf cs p).Nodup := by
  induction cs using List.reverseRecOn with
  | nil => simp [tcsOf]
  | append_singleton cs c ih =>
    rw [tcsOf_append_one]
    split
    · exact pushNew_nodup _ _ ih
    · exact ih

theorem mem_tcsOf (cs : List (Int × Int)) (p t : Int) : t ∈ tcsOf cs p ↔ (p, t) ∈ cs := by
  induction cs using List.reverseRecOn with
  | nil => simp [tcsOf]
  | append_singleton cs c ih =>
    rw [tcsOf_append_one]
    obtain ⟨c1, c2⟩ := c
    by_cases h : c1 = p
    · subst h
      simp only [if_true, mem_pushNew, ih, List.mem_append, List.mem_singleton, Prod.mk.injEq,
        true_and]
    · have h' : ¬ p = c1 := fun e => h e.symm
      simp only [h, if_false, ih, List.mem_append, List.mem_singleton, Prod.mk.injEq, h',
        false_and, or_false]

theorem mem_cornersUpTo {R : Type} (m : MatrixMesh R) (n i j : Nat) (hi : i < n) (hj : j < 3) :
    (idxAt m.F i j, idxAt m.FTC i j) ∈ cornersUpTo m n := by
  induction n with
  | zero => omega
  | succ k ih =>
    simp only [cornersUpTo, List.mem_append]
    by_cases hik : i = k
    · subst hik
      right
      interval_cases j <;> simp
    · left
      exact ih (by omega)

theorem groupsOf_length {R : Type} (m : MatrixMesh R) : (groupsOf m).length = m.V.length := by
  simp [groupsOf]

theorem groupsOf_getD {R : Type} (m : MatrixMesh R) (p : Nat) (hp : p < m.V.length) :
    (groupsOf m).getD p [] = tcsOf (cornersUpTo m m.F.length) (p : Int) := by
  simp [groupsOf, List.getElem?_range hp]

theorem Vector3i_set_all (a b c : Int) :
    ((Vector3i.fresh.set 0 a).set 1 b).set 2 c = ⟨some a, some b, some c⟩ := rfl

/-- The face rewrite does not fault on in-range input, finds every corner and
stores its new index. -/
theorem rewriteFaces_spec {R : Type} (m : MatrixMesh R)
    (hrows : m.F.length = m.FTC.length)
    (hF : ∀ r ∈ m.F, rowInRange m.V.length r = true)
    (hFTC : ∀ r ∈ m.FTC, rowInRange m.TC.length r = true) :
    rewriteFaces m (countsOf (groupsOf m))
        (emitOf m.TC (flatUpTo (groupsOf m) (groupsOf m).length)).vNew2vOld
        (emitOf m.TC (flatUpTo (groupsOf m) (groupsOf m).length)).vNew2TcOld =
      .ok ⟨(List.range m.F.length).map (newRow m (groupsOf m)), []⟩ := by
  have key : ∃ s', rewriteFaces m (countsOf (groupsOf m))
        (emitOf m.TC (flatUpTo (groupsOf m) (groupsOf m).length)).vNew2vOld
        (emitOf m.TC (flatUpTo (groupsOf m) (groupsOf m).length)).vNew2TcOld = .ok s' ∧
      s' = ⟨fill (newRow m (groupsOf m)) (List.range m.F.length) m.F.length Vector3i.fresh,
            []⟩ := by
    unfold rewriteFaces
    apply forRange_inv m.F.length _ (fun i (s : Rewrite) =>
      s = ⟨fill (newRow m (groupsOf m)) (List.range i) m.F.length Vector3i.fresh, []⟩)
    · simp [fill]
    · intro i s hi hs
      subst hs
      refine ⟨_, ?_, rfl⟩
      have corner : ∀ j, j < 3 → ∀ (fcur : List Vector3i) (row : Vector3i),
          fcur[i]? = some row →
          rewriteCorner m (countsOf (groupsOf m))
            (emitOf m.TC (flatUpTo (groupsOf m) (groupsOf m).length)).vNew2vOld
            (emitOf m.TC (flatUpTo (groupsOf m) (groupsOf m).length)).vNew2TcOld i j ⟨fcur, []⟩ =
          .ok ⟨fcur.set i (row.set j
            (newIndex (groupsOf m) (idxAt m.F i j) (idxAt m.FTC i j))), []⟩ := by
        intro j hj fcur row hrow
        have c := coeff_inRange m.F _ hF i j hi
        have d := coeff_inRange m.FTC _ hFTC i j (hrows ▸ hi)
        have hp : (idxAt m.F i j).toNat < m.V.length := by omega
        have hgd := groupsOf_getD m _ hp
        rw [Int.toNat_of_nonneg c.2.1] at hgd
        apply rewriteCorner_spec m (groupsOf m) i j fcur row c.1 d.1 c.2.1
        · rw [groupsOf_length]; exact hp
        · rw [hgd]; exact tcsOf_nodup _ _
        · rw [hgd, mem_tcsOf]; exact mem_cornersUpTo m _ i j hi hj
        · exact hrow
      have hlen : (fill (newRow m (groupsOf m)) (List.range i) m.F.length Vector3i.fresh).length
          = m.F.length := fill_length _ _ _ _ (by simpa using Nat.le_of_lt hi)
      have hfresh : (fill (newRow m (groupsOf m)) (List.range i) m.F.length Vector3i.fresh)[i]?
          = some Vector3i.fresh := fill_getElem?_ge _ _ _ _ _ (by simp) hi
      rw [forRange_three]
      simp only [bind, Except.bind]
      rw [corner 0 (by omega) _ _ hfresh]
      simp only []
      rw [corner 1 (by omega) _ _ (by rw [List.getElem?_set_self (by omega)])]
      simp only []
      rw [corner 2 (by omega) _ _ (by rw [List.getElem?_set_self (by simp; omega)])]
      simp only [List.set_set, Vector3i_set_all]
      congr 2
      have := fill_set (newRow m (groupsOf m)) (List.range i) m.F.length Vector3i.fresh i
        (by simpa using hi)
      simp only [List.length_range] at this
      rw [List.range_succ]
      exact this
  obtain ⟨s, hs, hI⟩ := key
  rw [hs, hI]
  simp [fill]

/-! ## The whole of `remapMesh` on valid input -/

theorem cornersUpTo_range {R : Type} (m : MatrixMesh R)
    (hrows : m.F.length = m.FTC.length)
    (hF : ∀ r ∈ m.F, rowInRange m.V.length r = true)
    (hFTC : ∀ r ∈ m.FTC, rowInRange m.TC.length r = true)
    (n : Nat) (hn : n ≤ m.F.length) (p t : Int) (h : (p, t) ∈ cornersUpTo m n) :
    (0 ≤ p ∧ p < m.V.length) ∧ (0 ≤ t ∧ t < m.TC.length) := by
  induction n with
  | zero => simp [cornersUpTo] at h
  | succ k ih =>
    simp only [cornersUpTo, List.mem_append, List.mem_cons, Prod.mk.injEq, List.mem_nil_iff,
      or_false] at h
    have hk : k < m.F.length := by omega
    rcases h with h | ⟨h1, h2⟩ | ⟨h1, h2⟩ | ⟨h1, h2⟩
    · exact ih (by omega) h
    · exact h1 ▸ h2 ▸ ⟨(coeff_inRange m.F _ hF k 0 hk).2, (coeff_inRange m.FTC _ hFTC k 0 (hrows ▸ hk)).2⟩
    · exact h1 ▸ h2 ▸ ⟨(coeff_inRange m.F _ hF k 1 hk).2, (coeff_inRange m.FTC _ hFTC k 1 (hrows ▸ hk)).2⟩
    · exact h1 ▸ h2 ▸ ⟨(coeff_inRange m.F _ hF k 2 hk).2, (coeff_inRange m.FTC _ hFTC k 2 (hrows ▸ hk)).2⟩

theorem faceCorners_inRange (a b : Vector3i) (n k : Nat) (ha : rowInRange n a = true)
    (hb : rowInRange k b = true) :
    faceCorners a b = [((a.c0).getD 0, (b.c0).getD 0), ((a.c1).getD 0, (b.c1).getD 0),
      ((a.c2).getD 0, (b.c2).getD 0)] := by
  simp only [rowInRange, Bool.and_eq_true] at ha hb
  obtain ⟨x0, e0, -⟩ := inRange_spec _ _ ha.1.1
  obtain ⟨x1, e1, -⟩ := inRange_spec _ _ ha.1.2
  obtain ⟨x2, e2, -⟩ := inRange_spec _ _ ha.2
  obtain ⟨y0, f0, -⟩ := inRange_spec _ _ hb.1.1
  obtain ⟨y1, f1, -⟩ := inRange_spec _ _ hb.1.2
  obtain ⟨y2, f2, -⟩ := inRange_spec _ _ hb.2
  simp [faceCorners, e0, e1, e2, f0, f1, f2]

theorem idxAt_eq (M : List Vector3i) (i j : Nat) (hi : i < M.length) :
    idxAt M i j = (M[i].get j).getD 0 := by
  simp [idxAt, List.getElem?_eq_getElem hi]

/-- On in-range input the corner list the loops walk through is the list of
corner pairs of the mesh. -/
theorem cornersUpTo_eq_cornerPairs {R : Type} (m : MatrixMesh R)
    (hrows : m.F.length = m.FTC.length)
    (hF : ∀ r ∈ m.F, rowInRange m.V.length r = true)
    (hFTC : ∀ r ∈ m.FTC, rowInRange m.TC.length r = true) :
    cornersUpTo m m.F.length = cornerPairs m := by
  have key : ∀ n, n ≤ m.F.length →
      cornersUpTo m n = ((m.F.zip m.FTC).take n).flatMap (fun ab => faceCorners ab.1 ab.2) := by
    intro n
    induction n with
    | zero => intro _; simp [cornersUpTo]
    | succ k ih =>
      intro hk
      have hk1 : k < m.F.length := by omega
      have hk2 : k < m.FTC.length := by omega
      have hz : k < (m.F.zip m.FTC).length := by simp; omega
      rw [List.take_succ, List.getElem?_eq_getElem hz, List.flatMap_append, ← ih (by omega),
        cornersUpTo]
      congr 1
      simp only [Option.toList, List.flatMap_cons, List.flatMap_nil, List.append_nil,
        List.getElem_zip]
      rw [faceCorners_inRange _ _ _ _ (hF _ (List.getElem_mem hk1)) (hFTC _ (List.getElem_mem hk2))]
      simp only [idxAt_eq _ _ _ hk1, idxAt_eq _ _ _ hk2]
      rfl
  rw [key _ (Nat.le_refl _), cornerPairs, List.take_of_length_le (by simp)]

theorem mem_flatUpTo (G : List (List Int)) (n : Nat) (p t : Int) :
    (p, t) ∈ flatUpTo G n ↔ ∃ q : Nat, q < n ∧ p = (q : Int) ∧ t ∈ G.getD q [] := by
  induction n with
  | zero => simp [flatUpTo]
  | succ k ih =>
    simp only [flatUpTo, List.mem_append, ih, List.mem_map, Prod.mk.injEq]
    constructor
    · rintro (⟨q, hq, hp, ht⟩ | ⟨a, ha, hp, hta⟩)
      · exact ⟨q, by omega, hp, ht⟩
      · exact ⟨k, by omega, hp.symm, hta ▸ ha⟩
    · rintro ⟨q, hq, hp, ht⟩
      by_cases hqk : q = k
      · subst hqk
        exact Or.inr ⟨t, ht, hp.symm, rfl⟩
      · exact Or.inl ⟨q, by omega, hp, ht⟩

theorem flatUpTo_nodup (G : List (List Int)) (hG : ∀ row ∈ G, row.Nodup) (n : Nat) :
    (flatUpTo G n).Nodup := by
  induction n with
  | zero => simp [flatUpTo]
  | succ k ih =>
    rw [flatUpTo]
    apply List.nodup_append.2
    refine ⟨ih, ?_, ?_⟩
    · apply List.Nodup.map
      · intro a b hab
        exact (Prod.mk.inj hab).2
      · by_cases hk : k < G.length
        · have : G.getD k [] = G[k] := by simp [List.getElem?_eq_getElem hk]
          rw [this]
          exact hG _ (List.getElem_mem hk)
        · have : G.getD k [] = [] := by
            simp [List.getElem?_eq_none (Nat.le_of_not_lt hk)]
          rw [this]
          exact List.nodup_nil
    · intro c hc1 hc2
      obtain ⟨p, t⟩ := c
      obtain ⟨q, hq, hp, -⟩ := (mem_flatUpTo G k p t).1 hc1
      simp only [List.mem_map, Prod.mk.injEq] at hc2
      obtain ⟨a, -, hpk, -⟩ := hc2
      omega

theorem groupsOf_nodup {R : Type} (m : MatrixMesh R) : ∀ row ∈ groupsOf m, row.Nodup := by
  intro row hrow
  simp only [groupsOf, List.mem_map] at hrow
  obtain ⟨q, -, rfl⟩ := hrow
  exact tcsOf_nodup _ _

/-- On in-range input the emitted pairs are the distinct corner pairs. -/
theorem mem_flat_groupsOf {R : Type} (m : MatrixMesh R)
    (hrows : m.F.length = m.FTC.length)
    (hF : ∀ r ∈ m.F, rowInRange m.V.length r = true)
    (hFTC : ∀ r ∈ m.FTC, rowInRange m.TC.length r = true) (p t : Int) :
    (p, t) ∈ flatUpTo (groupsOf m) (groupsOf m).length ↔ (p, t) ∈ cornerPairs m := by
  rw [mem_flatUpTo, groupsOf_length, ← cornersUpTo_eq_cornerPairs m hrows hF hFTC]
  constructor
  · rintro ⟨q, hq, hp, ht⟩
    rw [groupsOf_getD m q hq, mem_tcsOf] at ht
    exact hp ▸ ht
  · intro h
    have hr := (cornersUpTo_range m hrows hF hFTC _ (Nat.le_refl _) p t h).1
    refine ⟨p.toNat, by omega, by omega, ?_⟩
    rw [groupsOf_getD m _ (by omega), mem_tcsOf, Int.toNat_of_nonneg hr.1]
    exact h

/-- The number of emitted pairs is the number of distinct corner pairs. -/
theorem flat_groupsOf_length {R : Type} (m : MatrixMesh R)
    (hrows : m.F.length = m.FTC.length)
    (hF : ∀ r ∈ m.F, rowInRange m.V.length r = true)
    (hFTC : ∀ r ∈ m.FTC, rowInRange m.TC.length r = true) :
    (flatUpTo (groupsOf m) (groupsOf m).length).length = (cornerPairs m).dedup.length := by
  have hnd := flatUpTo_nodup (groupsOf m) (groupsOf_nodup m) (groupsOf m).length
  rw [← List.toFinset_card_of_nodup hnd, ← List.card_toFinset]
  congr 1
  ext ⟨p, t⟩
  simp only [List.mem_toFinset]
  exact mem_flat_groupsOf m hrows hF hFTC p t

/-- On valid input `remapMesh` runs to line 90 without a fault, and its locals
are the ones of `localsOf`. -/
theorem remapLocals_spec {R : Type} (m : MatrixMesh R)
    (hrows : m.F.length = m.FTC.length)
    (hF : ∀ r ∈ m.F, rowInRange m.V.length r = true)
    (hFTC : ∀ r ∈ m.FTC, rowInRange m.TC.length r = true)
    (hcap : (cornerPairs m).dedup.length ≤ m.TC.length) :
    remapLocals m = .ok (localsOf m) := by
  have hcap' : (flatUpTo (groupsOf m) (groupsOf m).length).length ≤ m.TC.length := by
    rw [flat_groupsOf_length m hrows hF hFTC]; exact hcap
  have h1 : buildVtcIndex m = .ok (groupsOf m) := buildVtcIndex_spec m hrows hF hFTC
  have h2 : countStart m.V.length (groupsOf m) = .ok (countsOf (groupsOf m)) := by
    rw [← groupsOf_length m]; exact countStart_spec _
  have h3 := emitTexcoords_spec m.TC (groupsOf m) (by
    intro row hrow t ht
    simp only [groupsOf, List.mem_map] at hrow
    obtain ⟨q, -, rfl⟩ := hrow
    rw [mem_tcsOf] at ht
    exact (cornersUpTo_range m hrows hF hFTC _ (Nat.le_refl _) _ t ht).2) hcap'
  have h4 := emitPositions_spec m.V m.TC.length (groupsOf m) (groupsOf_length m) hcap'
  have h5 := rewriteFaces_spec m hrows hF hFTC
  simp only [remapLocals, bind, Except.bind, h1, h2, h3, h4, h5, pure, Except.pure, localsOf]

theorem remapMesh_spec {R : Type}
    (pvn : List (Cell R) → List Vector3i → List (Cell R)) (m : MatrixMesh R)
    (h : ValidInput m) : remapMesh pvn m = .ok (outOf pvn m, []) := by
  obtain ⟨hrows, hF, hFTC, hcap⟩ := h
  simp only [remapMesh, bind, Except.bind, remapLocals_spec m hrows hF hFTC hcap, pure,
    Except.pure, outOf]
  rfl

theorem coeff_newRow {R : Type} (m : MatrixMesh R) (G : List (List Int)) (i j : Nat)
    (hi : i < m.F.length) (hj : j < 3) :
    coeff ((List.range m.F.length).map (newRow m G)) i j =
      .ok (newIndex G (idxAt m.F i j) (idxAt m.FTC i j)) := by
  have : ((List.range m.F.length).map (newRow m G))[i]? = some (newRow m G i) := by
    simp [List.getElem?_range hi]
  simp only [coeff, List.get?_eq_getElem?, this]
  interval_cases j <;> rfl

/-- The new index of a pair that occurs in its group addresses that pair among
the emitted pairs. -/
theorem flat_newIndex (G : List (List Int)) (p : Nat) (t : Int) (hp : p < G.length)
    (ht : t ∈ G[p]) :
    0 ≤ newIndex G (p : Int) t ∧
      (flatUpTo G G.length)[(newIndex G (p : Int) t).toNat]? = some ((p : Int), t) := by
  have hgd : G.getD p [] = G[p] := by simp [List.getElem?_eq_getElem hp]
  have hk : List.indexOf t G[p] < G[p].length := List.indexOf_lt_length.2 ht
  have h := flatUpTo_getElem? G p _ hp hk
  rw [List.getElem_indexOf hk] at h
  constructor
  · simp only [newIndex]; omega
  · simp only [newIndex, Int.toNat_ofNat, hgd]
    rw [show ((flatUpTo G p).length : Int) + (List.indexOf t G[p] : Int) =
      (((flatUpTo G p).length + List.indexOf t G[p] : Nat) : Int) by push_cast; rfl,
      Int.toNat_ofNat]
    exact h

/-- On valid input every corner's pair is in its group, and its new index
addresses that pair among the emitted pairs. -/
theorem corner_newIndex {R : Type} (m : MatrixMesh R)
    (hF : ∀ r ∈ m.F, rowInRange m.V.length r = true)
    (i j : Nat) (hi : i < m.F.length) (hj : j < 3) :
    0 ≤ newIndex (groupsOf m) (idxAt m.F i j) (idxAt m.FTC i j) ∧
      (flatUpTo (groupsOf m) (groupsOf m).length)[(newIndex (groupsOf m) (idxAt m.F i j)
        (idxAt m.FTC i j)).toNat]? = some (idxAt m.F i j, idxAt m.FTC i j) := by
  have c := coeff_inRange m.F _ hF i j hi
  obtain ⟨p, hp⟩ : ∃ p : Nat, idxAt m.F i j = (p : Int) :=
    ⟨_, (Int.toNat_of_nonneg c.2.1).symm⟩
  have hpl : p < (groupsOf m).length := by rw [groupsOf_length]; omega
  have hgd := groupsOf_getD m p (by omega)
  have hgd' : (groupsOf m).getD p [] = (groupsOf m)[p] := by
    simp [List.getElem?_eq_getElem hpl]
  have ht : idxAt m.FTC i j ∈ (groupsOf m)[p] := by
    rw [← hgd', hgd, mem_tcsOf, ← hp]
    exact mem_cornersUpTo m _ i j hi hj
  rw [hp]
  exact flat_newIndex (groupsOf m) p _ hpl ht

theorem getAt_fill {α β : Type} (f : β → α) (W : List β) (n : Nat) (d : α) (x : Int)
    (c : β) (h0 : 0 ≤ x) (h : W[x.toNat]? = some c) : getAt (fill f W n d) x = .ok (f c) :=
  getAt_int _ _ _ h0 (fill_getElem?_lt f W n d _ c h)

/-- C1: on an input whose `F` and `FTC` have the same number of rows, whose
position indices lie in `[0, rows(V))`, whose texcoord indices lie in
`[0, rows(TC))` and whose distinct corner pairs are at most `rows(TC)`,
`remapMesh` returns, and for every face `i` and corner `j` the output vertex at
the rewritten index `F'(i,j)` has the position row `V[F(i,j)]` and the texcoord
row `TC[FTC(i,j)]` of the input. -/
theorem remapMesh_preserves_corner_attributes {R : Type}
    (pvn : List (Cell R) → List Vector3i → List (Cell R)) (m : MatrixMesh R)
    (hrows : m.F.length = m.FTC.length)
    (hF : ∀ r ∈ m.F, rowInRange m.V.length r = true)
    (hFTC : ∀ r ∈ m.FTC, rowInRange m.TC.length r = true)
    (hcap : (cornerPairs m).dedup.length ≤ m.TC.length)
    (i j : Nat) (hi : i < m.F.length) (hj : j < 3) :
    ∃ (m' : MatrixMesh R) (wrong : List (Nat × Nat)) (p t idx : Int) (vrow trow : Cell R),
      remapMesh pvn m = .ok (m', wrong) ∧
      coeff m.F i j = .ok p ∧ coeff m.FTC i j = .ok t ∧ coeff m'.F i j = .ok idx ∧
      getAt m.V p = .ok vrow ∧ getAt m'.V idx = .ok vrow ∧
      getAt m.TC t = .ok trow ∧ getAt m'.TC idx = .ok trow := by
  have c := coeff_inRange m.F _ hF i j hi
  have d := coeff_inRange m.FTC _ hFTC i j (hrows ▸ hi)
  have hn := corner_newIndex m hF i j hi hj
  refine ⟨outOf pvn m, [], idxAt m.F i j, idxAt m.FTC i j,
    newIndex (groupsOf m) (idxAt m.F i j) (idxAt m.FTC i j),
    rowAt m.V (idxAt m.F i j), rowAt m.TC (idxAt m.FTC i j),
    remapMesh_spec pvn m ⟨hrows, hF, hFTC, hcap⟩, c.1, d.1, ?_, ?_, ?_, ?_, ?_⟩
  · exact coeff_newRow m (groupsOf m) i j hi hj
  · exact getAt_rowAt _ _ c.2.1 c.2.2
  · exact getAt_fill (fun c : Int × Int => rowAt m.V c.1) _ _ _ _ _ hn.1 hn.2
  · exact getAt_rowAt _ _ d.2.1 d.2.2
  · exact getAt_fill (fun c : Int × Int => rowAt m.TC c.2) _ _ _ _ _ hn.1 hn.2

/-! ## Vertices per position -/

theorem fill_take {α β : Type} (f : β → α) (W : List β) (n : Nat) (d : α) :
    (fill f W n d).take W.length = W.map f := by
  have : W.length = (W.map f).length := by simp
  rw [fill, this, List.take_left]

theorem filter_flatUpTo (G : List (List Int)) (n : Nat) (p : Int) :
    (flatUpTo G n).filter (fun c => decide (c.1 = p)) =
      if 0 ≤ p ∧ p.toNat < n then (G.getD p.toNat []).map (fun t => (p, t)) else [] := by
  induction n with
  | zero => simp [flatUpTo]
  | succ k ih =>
    rw [flatUpTo, List.filter_append, ih]
    by_cases hpk : p = (k : Int)
    · subst hpk
      have h1 : ¬ ((0 : Int) ≤ (k : Int) ∧ (k : Int).toNat < k) := by
        simp
      have h2 : (0 : Int) ≤ (k : Int) ∧ (k : Int).toNat < k + 1 := by
        simp
      rw [if_neg h1, if_pos h2, List.nil_append, Int.toNat_ofNat]
      apply List.filter_eq_self.2
      intro c hc
      simp only [List.mem_map] at hc
      obtain ⟨t, -, rfl⟩ := hc
      simp
    · have h3 : List.filter (fun c : Int × Int => decide (c.1 = p))
          ((G.getD k []).map (fun t => ((k : Int), t))) = [] := by
        apply List.filter_eq_nil_iff.2
        intro c hc
        simp only [List.mem_map] at hc
        obtain ⟨t, -, rfl⟩ := hc
        simpa using fun e => hpk e.symm
      rw [h3, List.append_nil]
      by_cases h4 : 0 ≤ p ∧ p.toNat < k
      · rw [if_pos h4, if_pos ⟨h4.1, by omega⟩]
      · rw [if_neg h4, if_neg (by omega)]

theorem mem_pairedTcs {R : Type} (m : MatrixMesh R) (p t : Int) :
    t ∈ pairedTcs m p ↔ (p, t) ∈ cornerPairs m := by
  simp only [pairedTcs, List.mem_map, List.mem_filter, decide_eq_true_eq]
  constructor
  · rintro ⟨⟨a, b⟩, ⟨hm, rfl⟩, rfl⟩
    exact hm
  · intro h
    exact ⟨(p, t), ⟨h, rfl⟩, rfl⟩

theorem tcsOf_length {R : Type} (m : MatrixMesh R) (p : Int) :
    (tcsOf (cornerPairs m) p).length = (pairedTcs m p).dedup.length := by
  rw [← List.toFinset_card_of_nodup (tcsOf_nodup _ _), ← List.card_toFinset]
  congr 1
  ext t
  simp only [List.mem_toFinset, mem_tcsOf, mem_pairedTcs]

/-- The emitted pairs whose position index is `p` are the distinct texcoord
indices of `p`, in first-seen order. -/
theorem filter_flat_groupsOf {R : Type} (m : MatrixMesh R)
    (hrows : m.F.length = m.FTC.length)
    (hF : ∀ r ∈ m.F, rowInRange m.V.length r = true)
    (hFTC : ∀ r ∈ m.FTC, rowInRange m.TC.length r = true) (p : Int) :
    (flatUpTo (groupsOf m) (groupsOf m).length).filter (fun c => decide (c.1 = p)) =
      (tcsOf (cornerPairs m) p).map (fun t => (p, t)) := by
  rw [filter_flatUpTo, groupsOf_length, ← cornersUpTo_eq_cornerPairs m hrows hF hFTC]
  by_cases h : 0 ≤ p ∧ p.toNat < m.V.length
  · rw [if_pos h, groupsOf_getD m _ h.2, Int.toNat_of_nonneg h.1]
  · rw [if_neg h]
    have : tcsOf (cornersUpTo m m.F.length) p = [] := by
      apply List.eq_nil_iff_forall_not_mem.2
      intro t ht
      rw [mem_tcsOf] at ht
      have := (cornersUpTo_range m hrows hF hFTC _ (Nat.le_refl _) p t ht).1
      omega
    rw [this]
    rfl

/-- C3: on valid input, for a position index `p` paired with exactly `k`
distinct texcoord indices over all face corners, exactly `k` of the emitted
output vertices originate from `p`; they carry the position row `V[p]`, and
their texcoords are the distinct texcoords paired with `p`, each once (none
when no face refers to `p`). -/
theorem remapMesh_vertices_per_position {R : Type}
    (pvn : List (Cell R) → List Vector3i → List (Cell R)) (m : MatrixMesh R)
    (h : ValidInput m) (p : Int) (k : Nat) (hk : (pairedTcs m p).dedup.length = k) :
    ∃ (s : RemapState R) (m' : MatrixMesh R) (wrong : List (Nat × Nat)) (ts : List Int),
      remapLocals m = .ok s ∧ remapMesh pvn m = .ok (m', wrong) ∧
      (emittedVertices s m').filter (fun v => decide (v.1 = p)) =
        ts.map (fun t => (p, t, rowAt m.V p, rowAt m.TC t)) ∧
      ts.length = k ∧ ts.Nodup ∧ ∀ t, t ∈ ts ↔ t ∈ pairedTcs m p := by
  obtain ⟨hrows, hF, hFTC, hcap⟩ := h
  refine ⟨localsOf m, outOf pvn m, [], tcsOf (cornerPairs m) p,
    remapLocals_spec m hrows hF hFTC hcap, remapMesh_spec pvn m ⟨hrows, hF, hFTC, hcap⟩,
    ?_, ?_, tcsOf_nodup _ _, ?_⟩
  · simp only [emittedVertices, localsOf, outOf, emitOf, Int.toNat_ofNat, fill_take,
      List.zip_map', List.filter_map]
    have hcomp : ((fun v : Int × Int × Cell R × Cell R => decide (v.1 = p)) ∘
        fun a : Int × Int => (a.1, a.2, rowAt m.V a.1, rowAt m.TC a.2)) =
        fun c : Int × Int => decide (c.1 = p) := rfl
    rw [hcomp, filter_flat_groupsOf m hrows hF hFTC p, List.map_map]
    rfl
  · rw [tcsOf_length, hk]
  · intro t
    rw [mem_tcsOf, mem_pairedTcs]

/-! ## Remapping a remapped mesh -/

theorem mem_cornersUpTo_iff {R : Type} (m : MatrixMesh R) (n : Nat) (c : Int × Int) :
    c ∈ cornersUpTo m n ↔
      ∃ i j, i < n ∧ j < 3 ∧ c = (idxAt m.F i j, idxAt m.FTC i j) := by
  constructor
  · intro h
    induction n with
    | zero => simp [cornersUpTo] at h
    | succ k ih =>
      simp only [cornersUpTo, List.mem_append, List.mem_cons, List.mem_nil_iff, or_false] at h
      rcases h with h | h | h | h
      · obtain ⟨i, j, hi, hj, hc⟩ := ih h
        exact ⟨i, j, by omega, hj, hc⟩
      · exact ⟨k, 0, by omega, by omega, h⟩
      · exact ⟨k, 1, by omega, by omega, h⟩
      · exact ⟨k, 2, by omega, by omega, h⟩
  · rintro ⟨i, j, hi, hj, rfl⟩
    exact mem_cornersUpTo m n i j hi hj

theorem idxAt_newRow {R : Type} (m : MatrixMesh R) (G : List (List Int)) (i j : Nat)
    (hi : i < m.F.length) (hj : j < 3) :
    idxAt ((List.range m.F.length).map (newRow m G)) i j =
      newIndex G (idxAt m.F i j) (idxAt m.FTC i j) := by
  have : ((List.range m.F.length).map (newRow m G))[i]? = some (newRow m G i) := by
    simp [List.getElem?_range hi]
  conv_lhs => simp only [idxAt, List.get?_eq_getElem?, this]
  interval_cases j <;> rfl

/-- In a corner list whose pairs all have equal components, the group of `q`
is `[q]` when `(q, q)` occurs and is empty otherwise. -/
theorem tcsOf_diag (cs : List (Int × Int)) (hd : ∀ c ∈ cs, c.1 = c.2) (q : Int) :
    tcsOf cs q = if (q, q) ∈ cs then [q] else [] := by
  induction cs using List.reverseRecOn with
  | nil => simp [tcsOf]
  | append_singleton cs c ih =>
    have ih' := ih (fun c hc => hd c (List.mem_append_left _ hc))
    have hc := hd c (List.mem_append_right _ (List.mem_singleton_self c))
    obtain ⟨c1, c2⟩ := c
    simp only at hc
    subst hc
    rw [tcsOf_append_one, ih']
    by_cases hq : c1 = q
    · subst hq
      by_cases hm : (c1, c1) ∈ cs
      · simp [hm, pushNew]
      · simp [hm, pushNew]
    · have hq' : ¬ q = c1 := fun e => hq e.symm
      simp [hq, hq']

/-- Every emitted pair is the pair of some corner, whose new index is the
place of the pair. -/
theorem newIndex_surj {R : Type} (m : MatrixMesh R)
    (hrows : m.F.length = m.FTC.length)
    (hF : ∀ r ∈ m.F, rowInRange m.V.length r = true)
    (hFTC : ∀ r ∈ m.FTC, rowInRange m.TC.length r = true)
    (q : Nat) (hq : q < (flatUpTo (groupsOf m) (groupsOf m).length).length) :
    ∃ i j, i < m.F.length ∧ j < 3 ∧
      newIndex (groupsOf m) (idxAt m.F i j) (idxAt m.FTC i j) = (q : Int) := by
  have hmem : (flatUpTo (groupsOf m) (groupsOf m).length)[q] ∈
      flatUpTo (groupsOf m) (groupsOf m).length := List.getElem_mem hq
  rcases hpt : (flatUpTo (groupsOf m) (groupsOf m).length)[q] with ⟨p, t⟩
  rw [hpt, mem_flat_groupsOf m hrows hF hFTC, ← cornersUpTo_eq_cornerPairs m hrows hF hFTC,
    mem_cornersUpTo_iff] at hmem
  obtain ⟨i, j, hi, hj, hc⟩ := hmem
  refine ⟨i, j, hi, hj, ?_⟩
  have hn := corner_newIndex m hF i j hi hj
  rw [← hc, ← hpt] at hn
  have hnd := flatUpTo_nodup (groupsOf m) (groupsOf_nodup m) (groupsOf m).length
  have hlt : (newIndex (groupsOf m) (idxAt m.F i j) (idxAt m.FTC i j)).toNat <
      (flatUpTo (groupsOf m) (groupsOf m).length).length := by
    by_contra hcon
    rw [List.getElem?_eq_none (Nat.le_of_not_lt hcon)] at hn
    exact absurd hn.2 (by simp)
  have h2 := hn.2
  rw [List.getElem?_eq_getElem hlt] at h2
  have := (List.Nodup.getElem_inj_iff hnd).1 (Option.some.inj h2)
  omega

theorem newIndex_lt {R : Type} (m : MatrixMesh R)
    (hF : ∀ r ∈ m.F, rowInRange m.V.length r = true)
    (i j : Nat) (hi : i < m.F.length) (hj : j < 3) :
    0 ≤ newIndex (groupsOf m) (idxAt m.F i j) (idxAt m.FTC i j) ∧
      newIndex (groupsOf m) (idxAt m.F i j) (idxAt m.FTC i j) <
        ((flatUpTo (groupsOf m) (groupsOf m).length).length : Int) := by
  have hn := corner_newIndex m hF i j hi hj
  have hlt : (newIndex (groupsOf m) (idxAt m.F i j) (idxAt m.FTC i j)).toNat <
      (flatUpTo (groupsOf m) (groupsOf m).length).length := by
    by_contra hcon
    rw [List.getElem?_eq_none (Nat.le_of_not_lt hcon)] at hn
    exact absurd hn.2 (by simp)
  omega

theorem outOf_F {R : Type} (pvn : List (Cell R) → List Vector3i → List (Cell R))
    (m : MatrixMesh R) : (outOf pvn m).F = (List.range m.F.length).map (newRow m (groupsOf m)) :=
  rfl

theorem outOf_FTC {R : Type} (pvn : List (Cell R) → List Vector3i → List (Cell R))
    (m : MatrixMesh R) :
    (outOf pvn m).FTC = (List.range m.F.length).map (newRow m (groupsOf m)) := rfl

theorem outOf_V {R : Type} (pvn : List (Cell R) → List Vector3i → List (Cell R))
    (m : MatrixMesh R) :
    (outOf pvn m).V = fill (fun c : Int × Int => rowAt m.V c.1)
      (flatUpTo (groupsOf m) (groupsOf m).length) m.TC.length none := rfl

theorem outOf_TC {R : Type} (pvn : List (Cell R) → List Vector3i → List (Cell R))
    (m : MatrixMesh R) :
    (outOf pvn m).TC = fill (fun c : Int × Int => rowAt m.TC c.2)
      (flatUpTo (groupsOf m) (groupsOf m).length) m.TC.length none := rfl

theorem outOf_F_length {R : Type} (pvn : List (Cell R) → List Vector3i → List (Cell R))
    (m : MatrixMesh R) : (outOf pvn m).F.length = m.F.length := by
  simp [outOf_F]

theorem outOf_V_length {R : Type} (pvn : List (Cell R) → List Vector3i → List (Cell R))
    (m : MatrixMesh R) (h : emittedCount m ≤ m.TC.length) :
    (outOf pvn m).V.length = m.TC.length := by
  rw [outOf_V]; exact fill_length _ _ _ _ h

theorem outOf_TC_length {R : Type} (pvn : List (Cell R) → List Vector3i → List (Cell R))
    (m : MatrixMesh R) (h : emittedCount m ≤ m.TC.length) :
    (outOf pvn m).TC.length = m.TC.length := by
  rw [outOf_TC]; exact fill_length _ _ _ _ h

/-- The corner pairs of a remapped mesh are the pairs `(q, q)` for the emitted
vertices `q`. -/
theorem mem_corners_outOf {R : Type} (pvn : List (Cell R) → List Vector3i → List (Cell R))
    (m : MatrixMesh R)
    (hrows : m.F.length = m.FTC.length)
    (hF : ∀ r ∈ m.F, rowInRange m.V.length r = true)
    (hFTC : ∀ r ∈ m.FTC, rowInRange m.TC.length r = true) (c : Int × Int) :
    c ∈ cornersUpTo (outOf pvn m) (outOf pvn m).F.length ↔
      ∃ q : Nat, q < emittedCount m ∧ c = ((q : Int), (q : Int)) := by
  rw [mem_cornersUpTo_iff, outOf_F_length]
  constructor
  · rintro ⟨i, j, hi, hj, rfl⟩
    have hl := newIndex_lt m hF i j hi hj
    rw [outOf_F, outOf_FTC, idxAt_newRow m _ i j hi hj]
    refine ⟨(newIndex (groupsOf m) (idxAt m.F i j) (idxAt m.FTC i j)).toNat, ?_, ?_⟩
    · unfold emittedCount; omega
    · rw [Int.toNat_of_nonneg hl.1]
  · rintro ⟨q, hq, rfl⟩
    obtain ⟨i, j, hi, hj, hx⟩ := newIndex_surj m hrows hF hFTC q hq
    refine ⟨i, j, hi, hj, ?_⟩
    rw [outOf_F, outOf_FTC, idxAt_newRow m _ i j hi hj, hx]

theorem groupsOf_outOf_getD {R : Type} (pvn : List (Cell R) → List Vector3i → List (Cell R))
    (m : MatrixMesh R)
    (hrows : m.F.length = m.FTC.length)
    (hF : ∀ r ∈ m.F, rowInRange m.V.length r = true)
    (hFTC : ∀ r ∈ m.FTC, rowInRange m.TC.length r = true)
    (hcap : emittedCount m ≤ m.TC.length) (q : Nat) (hq : q < m.TC.length) :
    (groupsOf (outOf pvn m)).getD q [] = if q < emittedCount m then [(q : Int)] else [] := by
  rw [groupsOf_getD _ q (by rw [outOf_V_length pvn m hcap]; exact hq)]
  rw [tcsOf_diag _ (by
    intro c hc
    obtain ⟨q', -, rfl⟩ := (mem_corners_outOf pvn m hrows hF hFTC c).1 hc
    rfl)]
  have : ((q : Int), (q : Int)) ∈ cornersUpTo (outOf pvn m) (outOf pvn m).F.length ↔
      q < emittedCount m := by
    rw [mem_corners_outOf pvn m hrows hF hFTC]
    constructor
    · rintro ⟨q', hq', he⟩
      have := (Prod.mk.inj he).1
      omega
    · intro h
      exact ⟨q, h, rfl⟩
  by_cases h : q < emittedCount m
  · rw [if_pos h, if_pos (this.2 h)]
  · rw [if_neg h, if_neg (fun hc => h (this.1 hc))]

theorem flatUpTo_outOf {R : Type} (pvn : List (Cell R) → List Vector3i → List (Cell R))
    (m : MatrixMesh R)
    (hrows : m.F.length = m.FTC.length)
    (hF : ∀ r ∈ m.F, rowInRange m.V.length r = true)
    (hFTC : ∀ r ∈ m.FTC, rowInRange m.TC.length r = true)
    (hcap : emittedCount m ≤ m.TC.length) (n : Nat) (hn : n ≤ m.TC.length) :
    flatUpTo (groupsOf (outOf pvn m)) n =
      diagPairs (min n (emittedCount m)) := by
  induction n with
  | zero => simp [flatUpTo, diagPairs]
  | succ k ih =>
    rw [flatUpTo, ih (by omega), groupsOf_outOf_getD pvn m hrows hF hFTC hcap k (by omega)]
    by_cases h : k < emittedCount m
    · rw [if_pos h, Nat.min_eq_left (by omega), Nat.min_eq_left (by omega), diagPairs,
        diagPairs, List.range_succ]
      simp
    · rw [if_neg h, Nat.min_eq_right (by omega), Nat.min_eq_right (by omega)]
      simp

theorem flat_outOf {R : Type} (pvn : List (Cell R) → List Vector3i → List (Cell R))
    (m : MatrixMesh R)
    (hrows : m.F.length = m.FTC.length)
    (hF : ∀ r ∈ m.F, rowInRange m.V.length r = true)
    (hFTC : ∀ r ∈ m.FTC, rowInRange m.TC.length r = true)
    (hcap : emittedCount m ≤ m.TC.length) :
    flatUpTo (groupsOf (outOf pvn m)) (groupsOf (outOf pvn m)).length =
      diagPairs (emittedCount m) := by
  rw [groupsOf_length, outOf_V_length pvn m hcap,
    flatUpTo_outOf pvn m hrows hF hFTC hcap _ (Nat.le_refl _), Nat.min_eq_right hcap]

theorem emittedCount_eq {R : Type} (m : MatrixMesh R)
    (hrows : m.F.length = m.FTC.length)
    (hF : ∀ r ∈ m.F, rowInRange m.V.length r = true)
    (hFTC : ∀ r ∈ m.FTC, rowInRange m.TC.length r = true) :
    emittedCount m = (cornerPairs m).dedup.length :=
  flat_groupsOf_length m hrows hF hFTC

theorem inRange_some (n : Nat) (x : Int) (h0 : 0 ≤ x) (h1 : x < n) :
    inRange n (some x) = true := by
  simp [inRange, h0, h1]

theorem outOf_rows_inRange {R : Type} (pvn : List (Cell R) → List Vector3i → List (Cell R))
    (m : MatrixMesh R)
    (hF : ∀ r ∈ m.F, rowInRange m.V.length r = true)
    (hcap : emittedCount m ≤ m.TC.length) :
    ∀ r ∈ (outOf pvn m).F, rowInRange m.TC.length r = true := by
  intro r hr
  rw [outOf_F, List.mem_map] at hr
  obtain ⟨i, hi, rfl⟩ := hr
  rw [List.mem_range] at hi
  have h0 := newIndex_lt m hF i 0 hi (by omega)
  have h1 := newIndex_lt m hF i 1 hi (by omega)
  have h2 := newIndex_lt m hF i 2 hi (by omega)
  unfold emittedCount at hcap
  simp only [rowInRange, newRow, Bool.and_eq_true]
  exact ⟨⟨inRange_some _ _ h0.1 (by omega), inRange_some _ _ h1.1 (by omega)⟩,
    inRange_some _ _ h2.1 (by omega)⟩

/-- The result of `remapMesh` on valid input is itself valid input, with as
many distinct corner pairs as vertices were emitted. -/
theorem validInput_outOf {R : Type} (pvn : List (Cell R) → List Vector3i → List (Cell R))
    (m : MatrixMesh R) (h : ValidInput m) :
    ValidInput (outOf pvn m) ∧ emittedCount (outOf pvn m) = emittedCount m := by
  obtain ⟨hrows, hF, hFTC, hcap⟩ := h
  have hcap' : emittedCount m ≤ m.TC.length := by
    rw [emittedCount_eq m hrows hF hFTC]; exact hcap
  have hr := outOf_rows_inRange pvn m hF hcap'
  have hF' : ∀ r ∈ (outOf pvn m).F, rowInRange (outOf pvn m).V.length r = true := by
    rw [outOf_V_length pvn m hcap']; exact hr
  have hFTC' : ∀ r ∈ (outOf pvn m).FTC, rowInRange (outOf pvn m).TC.length r = true := by
    rw [outOf_TC_length pvn m hcap']; exact hr
  have hcount : emittedCount (outOf pvn m) = emittedCount m := by
    unfold emittedCount
    rw [flat_outOf pvn m hrows hF hFTC hcap']
    simp [diagPairs, emittedCount]
  refine ⟨⟨rfl, hF', hFTC', ?_⟩, hcount⟩
  rw [← emittedCount_eq (outOf pvn m) rfl hF' hFTC', hcount, outOf_TC_length pvn m hcap']
  exact hcap'

/-- A buffer whose entries from `N` on are unwritten is reproduced by copying
its first `N` rows in place. -/
theorem fill_diag_eq {R : Type} (L : List (Cell R)) (n N : Nat) (g : Int × Int → Int)
    (hg : ∀ q : Nat, g ((q : Int), (q : Int)) = (q : Int))
    (hL : L.length = n) (hN : N ≤ n) (hrest : ∀ k, N ≤ k → k < n → L[k]? = some none) :
    fill (fun c : Int × Int => rowAt L (g c))
      (diagPairs N) n none = L := by
  apply List.ext_getElem?
  intro k
  by_cases hk : k < N
  · have hW : (diagPairs N)[k]? = some ((k : Int), (k : Int)) := by
      simp [diagPairs, List.getElem?_range hk]
    rw [fill_getElem?_lt _ _ _ _ k _ hW, hg, rowAt, Int.toNat_ofNat]
    have hkl : k < L.length := by omega
    simp [List.getElem?_eq_getElem hkl]
  · by_cases hkn : k < n
    · rw [fill_getElem?_ge _ _ _ _ k (by simp [diagPairs]; omega) hkn, hrest k (by omega) hkn]
    · rw [List.getElem?_eq_none (by
          rw [fill_length _ _ _ _ (by simpa [diagPairs] using hN)]; omega),
        List.getElem?_eq_none (by omega)]

theorem newIndex_outOf {R : Type} (pvn : List (Cell R) → List Vector3i → List (Cell R))
    (m : MatrixMesh R)
    (hrows : m.F.length = m.FTC.length)
    (hF : ∀ r ∈ m.F, rowInRange m.V.length r = true)
    (hFTC : ∀ r ∈ m.FTC, rowInRange m.TC.length r = true)
    (hcap : emittedCount m ≤ m.TC.length) (x : Int) (h0 : 0 ≤ x)
    (h1 : x < (emittedCount m : Int)) :
    newIndex (groupsOf (outOf pvn m)) x x = x := by
  obtain ⟨q, rfl⟩ : ∃ q : Nat, x = (q : Int) := ⟨_, (Int.toNat_of_nonneg h0).symm⟩
  have hq : q < emittedCount m := by omega
  rw [newIndex, Int.toNat_ofNat, groupsOf_outOf_getD pvn m hrows hF hFTC hcap q (by omega),
    if_pos hq, flatUpTo_outOf pvn m hrows hF hFTC hcap q (by omega), Nat.min_eq_left (by omega)]
  simp [diagPairs]

/-- Remapping the result of `remapMesh` changes nothing. -/
theorem outOf_outOf {R : Type} (pvn : List (Cell R) → List Vector3i → List (Cell R))
    (m : MatrixMesh R) (h : ValidInput m) : outOf pvn (outOf pvn m) = outOf pvn m := by
  have hv := validInput_outOf pvn m h
  obtain ⟨hrows, hF, hFTC, hcap⟩ := h
  have hcap' : emittedCount m ≤ m.TC.length := by
    rw [emittedCount_eq m hrows hF hFTC]; exact hcap
  have hflat := flat_outOf pvn m hrows hF hFTC hcap'
  have hFeq : (List.range (outOf pvn m).F.length).map
      (newRow (outOf pvn m) (groupsOf (outOf pvn m))) = (outOf pvn m).F := by
    rw [outOf_F_length]
    conv_rhs => rw [outOf_F]
    apply List.map_congr_left
    intro i hi
    rw [List.mem_range] at hi
    have e : ∀ j, j < 3 →
        newIndex (groupsOf (outOf pvn m)) (idxAt (outOf pvn m).F i j)
          (idxAt (outOf pvn m).FTC i j) =
        newIndex (groupsOf m) (idxAt m.F i j) (idxAt m.FTC i j) := by
      intro j hj
      have hl := newIndex_lt m hF i j hi hj
      rw [outOf_F, outOf_FTC, idxAt_newRow m _ i j hi hj]
      exact newIndex_outOf pvn m hrows hF hFTC hcap' _ hl.1 hl.2
    simp only [newRow, e 0 (by omega), e 1 (by omega), e 2 (by omega)]
  have hVeq : fill (fun c : Int × Int => rowAt (outOf pvn m).V c.1)
      (flatUpTo (groupsOf (outOf pvn m)) (groupsOf (outOf pvn m)).length)
      (outOf pvn m).TC.length none = (outOf pvn m).V := by
    rw [hflat, outOf_TC_length pvn m hcap']
    apply fill_diag_eq _ _ _ (fun c => c.1) (fun q => rfl) (outOf_V_length pvn m hcap') hcap'
    intro k hk1 hk2
    rw [outOf_V]
    exact fill_getElem?_ge _ _ _ _ k hk1 hk2
  have hTeq : fill (fun c : Int × Int => rowAt (outOf pvn m).TC c.2)
      (flatUpTo (groupsOf (outOf pvn m)) (groupsOf (outOf pvn m)).length)
      (outOf pvn m).TC.length none = (outOf pvn m).TC := by
    rw [hflat, outOf_TC_length pvn m hcap']
    apply fill_diag_eq _ _ _ (fun c => c.2) (fun q => rfl) (outOf_TC_length pvn m hcap') hcap'
    intro k hk1 hk2
    rw [outOf_TC]
    exact fill_getElem?_ge _ _ _ _ k hk1 hk2
  have e1 : (localsOf (outOf pvn m)).rw.f_new = (outOf pvn m).F := hFeq
  have e2 : (localsOf (outOf pvn m)).v_new = (outOf pvn m).V := hVeq
  have e3 : (localsOf (outOf pvn m)).emit.tc_new = (outOf pvn m).TC := hTeq
  conv_lhs => rw [outOf, e1, e2, e3]
  rfl

/-- C6: `remapMesh` is idempotent on valid input: applied to its own result it
returns, and what it yields is what the first call yielded, as far as the first
call wrote it: the face index matrices `F` and `FTC` are the same, the position
and texcoord buffers have the same number of rows and the same rows `0 .. N-1`,
`N` being the number of distinct corner pairs of the input, and every face
index lies in `[0, N)`. The rows from `N` on, which the buffers of `rows(TC)`
rows may have, are written by neither call and are not compared. -/
theorem remapMesh_idempotent {R : Type}
    (pvn : List (Cell R) → List Vector3i → List (Cell R)) (m : MatrixMesh R)
    (h : ValidInput m) :
    ∃ (m' m'' : MatrixMesh R) (w w' : List (Nat × Nat)),
      remapMesh pvn m = .ok (m', w) ∧ remapMesh pvn m' = .ok (m'', w') ∧
      m''.F = m'.F ∧ m''.FTC = m'.FTC ∧
      m''.V.length = m'.V.length ∧ m''.TC.length = m'.TC.length ∧
      m''.V.take (cornerPairs m).dedup.length = m'.V.take (cornerPairs m).dedup.length ∧
      m''.TC.take (cornerPairs m).dedup.length = m'.TC.take (cornerPairs m).dedup.length ∧
      (∀ i j, i < m'.F.length → j < 3 →
        ∃ idx : Int, coeff m'.F i j = .ok idx ∧ 0 ≤ idx ∧
          idx < ((cornerPairs m).dedup.length : Int)) ∧
      ∀ k, (cornerPairs m).dedup.length ≤ k → k < m'.V.length →
        m'.V[k]? = some none ∧ m'.TC[k]? = some none ∧
        m''.V[k]? = some none ∧ m''.TC[k]? = some none := by
  have h2 := remapMesh_spec pvn (outOf pvn m) (validInput_outOf pvn m h).1
  rw [outOf_outOf pvn m h] at h2
  obtain ⟨hrows, hF, hFTC, hcap⟩ := h
  have hN := flat_groupsOf_length m hrows hF hFTC
  have hcap' : emittedCount m ≤ m.TC.length := by
    rw [emittedCount_eq m hrows hF hFTC]; exact hcap
  refine ⟨outOf pvn m, outOf pvn m, [], [], remapMesh_spec pvn m ⟨hrows, hF, hFTC, hcap⟩, h2,
    rfl, rfl, rfl, rfl, rfl, rfl, ?_, ?_⟩
  · intro i j hi hj
    rw [outOf_F_length] at hi
    have hlt := newIndex_lt m hF i j hi hj
    rw [hN] at hlt
    exact ⟨_, coeff_newRow m (groupsOf m) i j hi hj, hlt.1, hlt.2⟩
  · intro k hk1 hk2
    rw [outOf_V_length pvn m hcap'] at hk2
    rw [← hN] at hk1
    have hV : (outOf pvn m).V[k]? = some none := by
      rw [outOf_V]; exact fill_getElem?_ge _ _ _ _ k hk1 hk2
    have hT : (outOf pvn m).TC[k]? = some none := by
      rw [outOf_TC]; exact fill_getElem?_ge _ _ _ _ k hk1 hk2
    exact ⟨hV, hT, hV, hT⟩

/-! ## `remapMesh` on concrete meshes -/

theorem remapMesh_preserves_corner_attributes_witness :
    (quadMesh.F.length = quadMesh.FTC.length ∧
      (∀ r ∈ quadMesh.F, rowInRange quadMesh.V.length r = true) ∧
      (∀ r ∈ quadMesh.FTC, rowInRange quadMesh.TC.length r = true) ∧
      (cornerPairs quadMesh).dedup.length ≤ quadMesh.TC.length ∧
      1 < quadMesh.F.length ∧ 0 < 3) ∧
    ∃ (m' : MatrixMesh Nat) (wrong : List (Nat × Nat)) (p t idx : Int)
      (vrow trow : Cell Nat),
      remapMesh noNormals quadMesh = .ok (m', wrong) ∧
      coeff quadMesh.F 1 0 = .ok p ∧ coeff quadMesh.FTC 1 0 = .ok t ∧
      coeff m'.F 1 0 = .ok idx ∧
      getAt quadMesh.V p = .ok vrow ∧ getAt m'.V idx = .ok vrow ∧
      getAt quadMesh.TC t = .ok trow ∧ getAt m'.TC idx = .ok trow :=
  ⟨by decide, remapMesh_preserves_corner_attributes noNormals quadMesh (by decide) (by decide)
    (by decide) (by decide) 1 0 (by decide) (by decide)⟩

/-- C2, the code at a failing input: with three distinct corner pairs and four
texcoord rows, the output buffers `V` and `TC` have four rows, the last one
unwritten, and not three. -/
theorem remapMesh_vertex_count_spare_texcoord :
    (∀ r ∈ spareTexcoordMesh.F, rowInRange spareTexcoordMesh.V.length r = true) ∧
    (∀ r ∈ spareTexcoordMesh.FTC, rowInRange spareTexcoordMesh.TC.length r = true) ∧
    (cornerPairs spareTexcoordMesh).dedup.length = 3 ∧
    spareTexcoordMesh.V.length = 3 ∧
    (∀ p ∈ [(0 : Int), 1, 2], (pairedTcs spareTexcoordMesh p).dedup.length = 1) ∧
    (remapMesh noNormals spareTexcoordMesh).toOption.map (fun r => (r.1.V, r.1.TC)) =
      some ([some 10, some 11, some 12, none], [some 20, some 21, some 22, none]) := by
  decide

/-- On valid input the output buffers `V` and `TC` have `rows(TC)` rows, and
the rows from the number of distinct corner pairs on are unwritten. -/
theorem remapMesh_output_rows {R : Type}
    (pvn : List (Cell R) → List Vector3i → List (Cell R)) (m : MatrixMesh R)
    (h : ValidInput m) :
    ∃ (m' : MatrixMesh R) (w : List (Nat × Nat)),
      remapMesh pvn m = .ok (m', w) ∧ m'.V.length = m.TC.length ∧
      m'.TC.length = m.TC.length ∧
      ∀ k, (cornerPairs m).dedup.length ≤ k → k < m.TC.length →
        m'.V[k]? = some none ∧ m'.TC[k]? = some none := by
  have hspec := remapMesh_spec pvn m h
  obtain ⟨hrows, hF, hFTC, hcap⟩ := h
  have hN := emittedCount_eq m hrows hF hFTC
  have hcap' : emittedCount m ≤ m.TC.length := by rw [hN]; exact hcap
  refine ⟨outOf pvn m, [], hspec, outOf_V_length pvn m hcap', outOf_TC_length pvn m hcap', ?_⟩
  intro k hk1 hk2
  rw [← hN] at hk1
  exact ⟨by rw [outOf_V]; exact fill_getElem?_ge _ _ _ _ k hk1 hk2,
    by rw [outOf_TC]; exact fill_getElem?_ge _ _ _ _ k hk1 hk2⟩

theorem remapMesh_vertices_per_position_witness :
    (ValidInput quadMesh ∧ (pairedTcs quadMesh 0).dedup.length = 2) ∧
    ∃ (s : RemapState Nat) (m' : MatrixMesh Nat) (wrong : List (Nat × Nat)) (ts : List Int),
      remapLocals quadMesh = .ok s ∧ remapMesh noNormals quadMesh = .ok (m', wrong) ∧
      (emittedVertices s m').filter (fun v => decide (v.1 = 0)) =
        ts.map (fun t => (0, t, rowAt quadMesh.V 0, rowAt quadMesh.TC t)) ∧
      ts.length = 2 ∧ ts.Nodup ∧ ∀ t, t ∈ ts ↔ t ∈ pairedTcs quadMesh 0 :=
  ⟨by decide, remapMesh_vertices_per_position noNormals quadMesh (by decide) 0 2 (by decide)⟩

/-- C4, the code at a failing input: `F` and `FTC` have the same number of
rows and all indices are in range, there are three distinct corner pairs and
one texcoord row, and the second write of lines 55-58 leaves the buffers of
`rows(TC)` entries before any corner is looked up. -/
theorem remapMesh_lookup_counterexample :
    sharedTexcoordMesh.F.length = sharedTexcoordMesh.FTC.length ∧
    (∀ r ∈ sharedTexcoordMesh.F, rowInRange sharedTexcoordMesh.V.length r = true) ∧
    (∀ r ∈ sharedTexcoordMesh.FTC, rowInRange sharedTexcoordMesh.TC.length r = true) ∧
    remapLocals sharedTexcoordMesh = .error Fault.outOfBounds ∧
    remapMesh noNormals sharedTexcoordMesh = .error Fault.outOfBounds := by
  decide

/-- Where the distinct corner pairs fit the buffers of `rows(TC)` entries, the
lookup of lines 71-89 succeeds: every corner `(i,j)` finds a new index `idx`
with `vNew2vOld[idx] = F(i,j)` and `vNew2TcOld[idx] = FTC(i,j)`, no corner is
reported as wrong and every entry of the rewritten face matrix is assigned. -/
theorem remapMesh_lookup_succeeds {R : Type}
    (pvn : List (Cell R) → List Vector3i → List (Cell R)) (m : MatrixMesh R)
    (hrows : m.F.length = m.FTC.length)
    (hF : ∀ r ∈ m.F, rowInRange m.V.length r = true)
    (hFTC : ∀ r ∈ m.FTC, rowInRange m.TC.length r = true)
    (hcap : (cornerPairs m).dedup.length ≤ m.TC.length) :
    ∃ (s : RemapState R) (m' : MatrixMesh R),
      remapLocals m = .ok s ∧ remapMesh pvn m = .ok (m', []) ∧ m'.F = s.rw.f_new ∧
      s.rw.wrong = [] ∧
      ∀ i j, i < m.F.length → j < 3 →
        ∃ p t idx : Int, coeff m.F i j = .ok p ∧ coeff m.FTC i j = .ok t ∧
          coeff s.rw.f_new i j = .ok idx ∧
          getAt s.emit.vNew2vOld idx = .ok p ∧ getAt s.emit.vNew2TcOld idx = .ok t := by
  refine ⟨localsOf m, outOf pvn m, remapLocals_spec m hrows hF hFTC hcap,
    remapMesh_spec pvn m ⟨hrows, hF, hFTC, hcap⟩, rfl, rfl, ?_⟩
  intro i j hi hj
  have c := coeff_inRange m.F _ hF i j hi
  have d := coeff_inRange m.FTC _ hFTC i j (hrows ▸ hi)
  have hn := corner_newIndex m hF i j hi hj
  exact ⟨_, _, _, c.1, d.1, coeff_newRow m (groupsOf m) i j hi hj,
    getAt_fill (fun c : Int × Int => c.1) _ _ _ _ _ hn.1 hn.2,
    getAt_fill (fun c : Int × Int => c.2) _ _ _ _ _ hn.1 hn.2⟩

theorem remapMesh_lookup_succeeds_witness :
    (quadMesh.F.length = quadMesh.FTC.length ∧
      (∀ r ∈ quadMesh.F, rowInRange quadMesh.V.length r = true) ∧
      (∀ r ∈ quadMesh.FTC, rowInRange quadMesh.TC.length r = true) ∧
      (cornerPairs quadMesh).dedup.length ≤ quadMesh.TC.length) ∧
    ∃ (s : RemapState Nat) (m' : MatrixMesh Nat),
      remapLocals quadMesh = .ok s ∧ remapMesh noNormals quadMesh = .ok (m', []) ∧
      m'.F = s.rw.f_new ∧ s.rw.wrong = [] ∧
      ∀ i j, i < quadMesh.F.length → j < 3 →
        ∃ p t idx : Int, coeff quadMesh.F i j = .ok p ∧ coeff quadMesh.FTC i j = .ok t ∧
          coeff s.rw.f_new i j = .ok idx ∧
          getAt s.emit.vNew2vOld idx = .ok p ∧ getAt s.emit.vNew2TcOld idx = .ok t :=
  ⟨by decide, remapMesh_lookup_succeeds noNormals quadMesh (by decide) (by decide) (by decide)
    (by decide)⟩

theorem remapMesh_idempotent_witness :
    ValidInput spareTexcoordMesh ∧
    ∃ (m' m'' : MatrixMesh Nat) (w w' : List (Nat × Nat)),
      remapMesh noNormals spareTexcoordMesh = .ok (m', w) ∧
      remapMesh noNormals m' = .ok (m'', w') ∧
      m''.F = m'.F ∧ m''.FTC = m'.FTC ∧
      m''.V.length = m'.V.length ∧ m''.TC.length = m'.TC.length ∧
      m''.V.take (cornerPairs spareTexcoordMesh).dedup.length =
        m'.V.take (cornerPairs spareTexcoordMesh).dedup.length ∧
      m''.TC.take (cornerPairs spareTexcoordMesh).dedup.length =
        m'.TC.take (cornerPairs spareTexcoordMesh).dedup.length ∧
      (∀ i j, i < m'.F.length → j < 3 →
        ∃ idx : Int, coeff m'.F i j = .ok idx ∧ 0 ≤ idx ∧
          idx < ((cornerPairs spareTexcoordMesh).dedup.length : Int)) ∧
      ∀ k, (cornerPairs spareTexcoordMesh).dedup.length ≤ k → k < m'.V.length →
        m'.V[k]? = some none ∧ m'.TC[k]? = some none ∧
        m''.V[k]? = some none ∧ m''.TC[k]? = some none :=
  ⟨by decide, remapMesh_idempotent noNormals spareTexcoordMesh (by decide)⟩

theorem flatUpTo_length_of_singletons (G : List (List Int)) (n : Nat)
    (h : ∀ q, q < n → (G.getD q []).length = 1) : (flatUpTo G n).length = n := by
  induction n with
  | zero => simp [flatUpTo]
  | succ k ih =>
    rw [flatUpTo_succ_length, ih (fun q hq => h q (by omega)), h k (by omega)]

theorem row_eq_of_inRange (M : List Vector3i) (n : Nat)
    (h : ∀ r ∈ M, rowInRange n r = true) (i : Nat) (hi : i < M.length) :
    M[i] = ⟨some (idxAt M i 0), some (idxAt M i 1), some (idxAt M i 2)⟩ := by
  have hr := h (M[i]) (List.getElem_mem _)
  simp only [rowInRange, Bool.and_eq_true] at hr
  obtain ⟨x0, e0, -⟩ := inRange_spec _ _ hr.1.1
  obtain ⟨x1, e1, -⟩ := inRange_spec _ _ hr.1.2
  obtain ⟨x2, e2, -⟩ := inRange_spec _ _ hr.2
  rw [idxAt_eq M i 0 hi, idxAt_eq M i 1 hi, idxAt_eq M i 2 hi]
  simp only [Vector3i.get, e0, e1, e2, Option.getD_some]
  rcases hM : M[i] with ⟨a, b, c⟩
  rw [hM] at e0 e1 e2
  simp only at e0 e1 e2
  rw [e0, e1, e2]

/-- C5, the code at a failing input: every position index `0..2` occurs and is
paired with exactly one texcoord index, there are two texcoord rows, and the
third write of lines 55-58 leaves the buffers of `rows(TC)` entries, so that no
face matrix is returned. -/
theorem remapMesh_identity_counterexample :
    twoTexcoordMesh.V.length = 3 ∧
    (∀ p ∈ [(0 : Int), 1, 2], (pairedTcs twoTexcoordMesh p).dedup.length = 1) ∧
    remapMesh noNormals twoTexcoordMesh = .error Fault.outOfBounds := by
  decide

/-- Where the distinct corner pairs fit the buffers of `rows(TC)` entries and
each position index `0..rows(V)-1` occurs at some face corner and is paired
with exactly one texcoord index, the rewritten face index matrix equals the
input position-index matrix `F`. -/
theorem remapMesh_identity_numbering {R : Type}
    (pvn : List (Cell R) → List Vector3i → List (Cell R)) (m : MatrixMesh R)
    (h : ValidInput m)
    (hone : ∀ p : Nat, p < m.V.length → (pairedTcs m (p : Int)).dedup.length = 1) :
    ∃ (m' : MatrixMesh R) (w : List (Nat × Nat)),
      remapMesh pvn m = .ok (m', w) ∧ m'.F = m.F := by
  refine ⟨outOf pvn m, [], remapMesh_spec pvn m h, ?_⟩
  obtain ⟨hrows, hF, hFTC, hcap⟩ := h
  have hlen1 : ∀ q, q < m.V.length → ((groupsOf m).getD q []).length = 1 := by
    intro q hq
    rw [groupsOf_getD m q hq, cornersUpTo_eq_cornerPairs m hrows hF hFTC, tcsOf_length]
    exact hone q hq
  have hidx : ∀ i j, i < m.F.length → j < 3 →
      newIndex (groupsOf m) (idxAt m.F i j) (idxAt m.FTC i j) = idxAt m.F i j := by
    intro i j hi hj
    have c := coeff_inRange m.F _ hF i j hi
    obtain ⟨p, hp⟩ : ∃ p : Nat, idxAt m.F i j = (p : Int) :=
      ⟨_, (Int.toNat_of_nonneg c.2.1).symm⟩
    have hpl : p < m.V.length := by omega
    have hmem : idxAt m.FTC i j ∈ (groupsOf m).getD p [] := by
      rw [groupsOf_getD m p hpl, mem_tcsOf, ← hp]
      exact mem_cornersUpTo m _ i j hi hj
    have h1 := hlen1 p hpl
    obtain ⟨a, ha⟩ := List.length_eq_one.1 h1
    rw [ha, List.mem_singleton] at hmem
    rw [hp, newIndex, Int.toNat_ofNat, ha, hmem,
      flatUpTo_length_of_singletons _ p (fun q hq => hlen1 q (by omega))]
    simp
  rw [outOf_F]
  apply List.ext_getElem
  · simp
  · intro i h1 h2
    have hi : i < m.F.length := h2
    rw [List.getElem_map, List.getElem_range, row_eq_of_inRange m.F _ hF i hi, newRow,
      hidx i 0 hi (by omega), hidx i 1 hi (by omega), hidx i 2 hi (by omega)]

theorem remapMesh_identity_numbering_witness :
    (ValidInput triMesh ∧
      ∀ p : Nat, p < triMesh.V.length → (pairedTcs triMesh (p : Int)).dedup.length = 1) ∧
    ∃ (m' : MatrixMesh Nat) (w : List (Nat × Nat)),
      remapMesh noNormals triMesh = .ok (m', w) ∧ m'.F = triMesh.F :=
  ⟨by decide, remapMesh_identity_numbering noNormals triMesh (by decide) (by decide)⟩

/-! ## Splitting on one character -/

theorem splitLoop_char (inp : Str) (c : Char) (fuel i : Nat) (temp : Str) (out : List Str)
    (hfuel : inp.length - i ≤ fuel) :
    splitLoop inp [c] fuel i temp out = out ++ splitByChar c (inp.drop i) temp := by
  induction fuel generalizing i temp out with
  | zero =>
    have : inp.drop i = [] := List.drop_eq_nil_of_le (by omega)
    simp [splitLoop, this, splitByChar]
  | succ k ih =>
    unfold splitLoop
    by_cases hi : i < inp.length
    · have hd : inp.drop i = inp[i] :: inp.drop (i + 1) := List.drop_eq_getElem_cons hi
      simp only [hi, if_true, hd, List.length_singleton, List.take_succ_cons, List.take_zero,
        List.cons.injEq, and_true, splitByChar]
      by_cases hx : inp[i] = c
      · simp only [hx, if_true]
        by_cases ht : temp = []
        · subst ht
          simp only [ne_eq, not_true_eq_false, if_false]
          rw [ih _ _ _ (by omega)]
          simp
        · simp only [ne_eq, ht, not_false_eq_true, if_true]
          rw [ih _ _ _ (by omega)]
          simp
      · simp only [hx, if_false]
        by_cases hlast : i + 1 ≥ inp.length
        · have : inp.drop (i + 1) = [] := List.drop_eq_nil_of_le hlast
          simp [hlast, this]
        · have hne : inp.drop (i + 1) ≠ [] := by
            intro h
            have := List.drop_eq_nil_iff.1 h
            omega
          simp only [hlast, if_false, hne]
          rw [ih _ _ _ (by omega)]
    · have : inp.drop i = [] := List.drop_eq_nil_of_le (by omega)
      simp [hi, this, splitByChar]

theorem split_char (inp : Str) (c : Char) : split inp [c] = splitByChar c inp [] := by
  rw [split, splitLoop_char inp c _ 0 [] [] (by omega)]
  simp

theorem splitByChar_field (c : Char) (f more temp : Str) (hf : c ∉ f) :
    splitByChar c (f ++ c :: more) temp = (temp ++ f) :: splitByChar c more [] := by
  induction f generalizing temp with
  | nil => simp [splitByChar]
  | cons a f ih =>
    have ha : ¬ a = c := fun e => hf (e ▸ List.mem_cons_self _ _)
    have hrest : f ++ c :: more ≠ [] := by simp
    rw [List.cons_append, splitByChar, if_neg ha, if_neg hrest,
      ih _ (fun h => hf (List.mem_cons_of_mem _ h))]
    simp

theorem splitByChar_last (c : Char) (f temp : Str) (hf : c ∉ f) (hne : f ≠ []) :
    splitByChar c f temp = [temp ++ f] := by
  induction f generalizing temp with
  | nil => exact absurd rfl hne
  | cons a f ih =>
    have ha : ¬ a = c := fun e => hf (e ▸ List.mem_cons_self _ _)
    rw [splitByChar, if_neg ha]
    by_cases hfe : f = []
    · simp [hfe]
    · rw [if_neg hfe, ih _ (fun h => hf (List.mem_cons_of_mem _ h)) hfe]
      simp

/-! ## Decoding a face line -/

theorem isDigits_spec (ds : Str) (h : isDigits ds = true) :
    ds ≠ [] ∧ ∀ c ∈ ds, c.isDigit = true := by
  simp only [isDigits, Bool.and_eq_true, Bool.not_eq_true', List.isEmpty_eq_false,
    List.all_eq_true] at h
  exact ⟨h.1, h.2⟩

theorem isIndex_spec (ds : Str) (h : isIndex ds = true) :
    (ds ≠ [] ∧ ∀ c ∈ ds, c.isDigit = true) ∧ 1 ≤ decVal ds ∧ decVal ds ≤ 2147483647 := by
  simp only [isIndex, Bool.and_eq_true, decide_eq_true_eq] at h
  exact ⟨isDigits_spec ds h.1.1, h.1.2, h.2⟩

theorem not_mem_of_digits (ds : Str) (h : ∀ c ∈ ds, c.isDigit = true) (x : Char)
    (hx : x.isDigit = false) : x ∉ ds := by
  intro hm
  rw [h x hm] at hx
  exact absurd hx (by simp)

/-- On a non-empty run of digits whose value an `int` holds, `std::stoi` returns
that value. -/
theorem stoi_digits (ds : Str) (hne : ds ≠ []) (hd : ∀ c ∈ ds, c.isDigit = true)
    (hv : decVal ds ≤ 2147483647) : stoi ds = .ok (decVal ds : Int) := by
  obtain ⟨d, rest, rfl⟩ := List.exists_cons_of_ne_nil hne
  have hdd : d.isDigit = true := hd d (List.mem_cons_self _ _)
  have hsp : isspace d = false := by
    by_contra hcon
    simp only [isspace, Bool.not_eq_false, Bool.or_eq_true, decide_eq_true_eq] at hcon
    rcases hcon with ((((h | h) | h) | h) | h) | h <;> (rw [h] at hdd; revert hdd; decide)
  have hminus : ¬ d = '-' := by
    intro h; rw [h] at hdd; revert hdd; decide
  have hplus : ¬ d = '+' := by
    intro h; rw [h] at hdd; revert hdd; decide
  have htw : (d :: rest).takeWhile Char.isDigit = d :: rest :=
    List.takeWhile_eq_self_iff.2 (fun c hc => hd c hc)
  have hbound : (-2147483648 : Int) ≤ (decVal (d :: rest) : Int) ∧
      (decVal (d :: rest) : Int) ≤ 2147483647 := by
    constructor <;> omega
  simp only [stoi, List.dropWhile_cons, hsp, Bool.false_eq_true, if_false, List.head?_cons,
    Option.some.injEq, hminus, hplus, or_self, htw, decide_False]
  simp only [List.cons_ne_nil, if_false, hbound, and_self, if_true]

theorem getIndex_digits (ds : Str) (h : isIndex ds = true) :
    getIndex ds = .ok ((decVal ds : Int) - 1) := by
  obtain ⟨⟨hne, hd⟩, h1, h2⟩ := isIndex_spec ds h
  have hno : ¬ ((decVal ds : Int) - 1 < -2147483648) := by omega
  simp only [getIndex, stoi_digits ds hne hd h2, bind, Except.bind, hno, if_false, pure,
    Except.pure]

theorem slash_not_mem (ds : Str) (h : isIndex ds = true) : '/' ∉ ds :=
  not_mem_of_digits ds (isIndex_spec ds h).1.2 '/' (by decide)

theorem split_record (r : VertexRecord) (h : r.wellFormed = true) :
    split r.text ['/'] =
      match r with
      | .P p => [p]
      | .PT p t => [p, t]
      | .PN p n => [p, [], n]
      | .PTN p t n => [p, t, n] := by
  rw [split_char]
  cases r with
  | P p =>
    simp only [VertexRecord.wellFormed] at h
    simp only [VertexRecord.text]
    rw [splitByChar_last _ _ _ (slash_not_mem p h) (isIndex_spec p h).1.1]
    rfl
  | PT p t =>
    simp only [VertexRecord.wellFormed, Bool.and_eq_true] at h
    simp only [VertexRecord.text]
    rw [splitByChar_field _ _ _ _ (slash_not_mem p h.1),
      splitByChar_last _ _ _ (slash_not_mem t h.2) (isIndex_spec t h.2).1.1]
    rfl
  | PN p n =>
    simp only [VertexRecord.wellFormed, Bool.and_eq_true] at h
    simp only [VertexRecord.text]
    rw [splitByChar_field _ _ _ _ (slash_not_mem p h.1)]
    have : splitByChar '/' ('/' :: n) [] = [] :: splitByChar '/' n [] := by
      simp [splitByChar]
    rw [this, splitByChar_last _ _ _ (slash_not_mem n h.2) (isIndex_spec n h.2).1.1]
    rfl
  | PTN p t n =>
    simp only [VertexRecord.wellFormed, Bool.and_eq_true] at h
    simp only [VertexRecord.text]
    rw [splitByChar_field _ _ _ _ (slash_not_mem p h.1.1),
      splitByChar_field _ _ _ _ (slash_not_mem t h.1.2),
      splitByChar_last _ _ _ (slash_not_mem n h.2) (isIndex_spec n h.2).1.1]
    rfl

/-- One well-formed vertex record is decoded into its triple, stored at the
corner's slot of the three index vectors. -/
theorem readVertex_record (P T N : Vector3i) (i : Nat) (r : VertexRecord)
    (h : r.wellFormed = true) :
    readVertex P T N i r.text =
      .ok (P.set i r.triple.1, T.set i r.triple.2.1, N.set i r.triple.2.2) := by
  unfold readVertex
  rw [split_record r h]
  cases r with
  | P p =>
    simp only [VertexRecord.wellFormed] at h
    simp [vecAt, getIndex_digits p h, bind, Except.bind, pure, Except.pure,
      VertexRecord.triple]
  | PT p t =>
    simp only [VertexRecord.wellFormed, Bool.and_eq_true] at h
    simp [vecAt, getIndex_digits p h.1, getIndex_digits t h.2, bind, Except.bind, pure,
      Except.pure, VertexRecord.triple]
  | PN p n =>
    simp only [VertexRecord.wellFormed, Bool.and_eq_true] at h
    simp [vecAt, getIndex_digits p h.1, getIndex_digits n h.2, bind, Except.bind, pure,
      Except.pure, VertexRecord.triple]
  | PTN p t n =>
    simp only [VertexRecord.wellFormed, Bool.and_eq_true] at h
    have hne : t ≠ [] := (isIndex_spec t h.1.2).1.1
    simp [vecAt, getIndex_digits p h.1.1, getIndex_digits t h.1.2, getIndex_digits n h.2, bind,
      Except.bind, pure, Except.pure, VertexRecord.triple, hne]

/-- A face line whose tail splits into three well-formed records is read
without a message, each record into its corner. -/
theorem readTriangle_three_records (P T N : Vector3i) (line : Str)
    (a b c : VertexRecord)
    (ha : a.wellFormed = true) (hb : b.wellFormed = true) (hc : c.wellFormed = true)
    (hline : split (tail line) [' '] = [a.text, b.text, c.text]) :
    ReadTriangleIndicesRawOBJ P T N line =
      .ok ⟨⟨some a.triple.1, some b.triple.1, some c.triple.1⟩,
           ⟨some a.triple.2.1, some b.triple.2.1, some c.triple.2.1⟩,
           ⟨some a.triple.2.2, some b.triple.2.2, some c.triple.2.2⟩, []⟩ := by
  unfold ReadTriangleIndicesRawOBJ
  simp only [hline, List.length_cons, List.length_nil, ne_eq, not_true_eq_false, if_false,
    bind, Except.bind]
  rw [show (0 + 1 + 1 + 1 : Nat) = 3 from rfl, forRange_three]
  simp only [bind, Except.bind, vecAt, List.get?_cons_zero, List.get?_cons_succ,
    readVertex_record _ _ _ _ a ha, readVertex_record _ _ _ _ b hb,
    readVertex_record _ _ _ _ c hc, pure, Except.pure]
  rfl

/-- C7: `ReadTriangleIndicesRawOBJ` decodes the four vertex-record forms. For a
face line whose tail splits into exactly three records, each written `p`,
`p/t`, `p//n` or `p/t/n` with positive decimal indices that an `int` holds, the
function returns without printing, and the corner of each record holds
`(p-1, -1, -1)`, `(p-1, t-1, -1)`, `(p-1, -1, n-1)` or `(p-1, t-1, n-1)` in the
position, texture and normal index vectors. -/
theorem ReadTriangleIndicesRawOBJ_decodes (P T N : Vector3i) (line : Str)
    (a b c : VertexRecord)
    (ha : a.wellFormed = true) (hb : b.wellFormed = true) (hc : c.wellFormed = true)
    (hline : split (tail line) [' '] = [a.text, b.text, c.text]) :
    ReadTriangleIndicesRawOBJ P T N line =
      .ok ⟨⟨some a.triple.1, some b.triple.1, some c.triple.1⟩,
           ⟨some a.triple.2.1, some b.triple.2.1, some c.triple.2.1⟩,
           ⟨some a.triple.2.2, some b.triple.2.2, some c.triple.2.2⟩, []⟩ :=
  readTriangle_three_records P T N line a b c ha hb hc hline

theorem ReadTriangleIndicesRawOBJ_decodes_witness :
    ((VertexRecord.PTN "1".toList "2".toList "3".toList).wellFormed = true ∧
      (VertexRecord.PN "4".toList "5".toList).wellFormed = true ∧
      (VertexRecord.P "6".toList).wellFormed = true ∧
      split (tail "f 1/2/3 4//5 6".toList) [' '] =
        [(VertexRecord.PTN "1".toList "2".toList "3".toList).text,
         (VertexRecord.PN "4".toList "5".toList).text, (VertexRecord.P "6".toList).text]) ∧
    ReadTriangleIndicesRawOBJ Vector3i.fresh Vector3i.fresh Vector3i.fresh
        "f 1/2/3 4//5 6".toList =
      .ok ⟨⟨some 0, some 3, some 5⟩, ⟨some 1, some (-1), some (-1)⟩,
           ⟨some 2, some 4, some (-1)⟩, []⟩ :=
  ⟨by decide, ReadTriangleIndicesRawOBJ_decodes Vector3i.fresh Vector3i.fresh Vector3i.fresh
    "f 1/2/3 4//5 6".toList (VertexRecord.PTN "1".toList "2".toList "3".toList)
    (VertexRecord.PN "4".toList "5".toList) (VertexRecord.P "6".toList)
    (by decide) (by decide) (by decide) (by decide)⟩

/-- C8, the code at a failing input: after three `v` lines the face line
`f -1 -2 -3` stores the position indices `-2, -3, -4`, not `2, 1, 0`;
`LoadFile` returns true with that face. `getElement`, which no function calls,
resolves `-1` to `2` for three elements. -/
theorem negative_position_index_not_resolved :
    (ReadTriangleIndicesRawOBJ Vector3i.fresh Vector3i.fresh Vector3i.fresh
        "f -1 -2 -3".toList).toOption.map (fun r => r.PositionIdx) =
      some ⟨some (-2), some (-3), some (-4)⟩ ∧
    (LoadFile (exampleEnv ["v 0 0 0".toList, "v 1 0 0".toList, "v 0 1 0".toList,
        "f -1 -2 -3".toList]) Loader.new "mesh.obj".toList).toOption.map
        (fun r => (r.1, r.2.1.LoadedPositions.length,
          r.2.1.LoadedMeshes.map (fun m => m.PositionIndices))) =
      some (true, 3, [[⟨some (-2), some (-3), some (-4)⟩]]) ∧
    getElementIndex 3 "-1".toList = .ok 2 :=
  ⟨by decide, by decide, by decide⟩

/-- C9, the code at a failing input: the line `f 1 2 3 4` prints the message
and still appends a row to each of the three accumulators, an unwritten one;
the mesh constructor then reads it, so that a file with this line does not
load as the file without it does. -/
theorem malformed_face_is_appended :
    (faceLine (ObjState.start (Loader.new : Loader Int) "mesh.obj".toList)
        "f 1 2 3 4".toList).toOption.map
        (fun s => (s.PositionIndices, s.TextureIndices, s.NormalIndices, s.printed)) =
      some ([Vector3i.fresh], [Vector3i.fresh], [Vector3i.fresh], [onlyTriangleMessage]) ∧
    LoadFile (exampleEnv ["v 0 0 0".toList, "f 1 2 3 4".toList, "f 1 1 1".toList])
        Loader.new "mesh.obj".toList = .error Fault.uninitRead ∧
    (LoadFile (exampleEnv ["v 0 0 0".toList, "f 1 1 1".toList])
        Loader.new "mesh.obj".toList).toOption.map
        (fun r => (r.1, r.2.1.LoadedMeshes.map (fun m => m.PositionIndices))) =
      some (true, [[⟨some 0, some 0, some 0⟩]]) :=
  ⟨by decide, by decide, by decide⟩

/-- C10, as stated, fails: with one position loaded the face `f 5 6 7` is
stored with the position indices `4, 5, 6` and `LoadFile` returns true. -/
theorem out_of_range_position_index_loads :
    (LoadFile (exampleEnv ["v 0 0 0".toList, "f 5 6 7".toList])
        Loader.new "mesh.obj".toList).toOption.map
        (fun r => (r.1, r.2.1.LoadedPositions.length,
          r.2.1.LoadedMeshes.map (fun m => m.PositionIndices))) =
      some (true, 1, [[⟨some 4, some 5, some 6⟩]]) := by
  decide

/-! ## Position indices are not checked -/

theorem firstToken_head (c : Char) (rest : Str) (hc : c ∉ blanks) :
    ∃ tl, firstToken (c :: rest) = c :: tl := by
  have hb : blanks.contains c = false := by simpa using hc
  have key : ∀ o : Option Nat, ∃ tl,
      (match (some 0 : Option Nat),
        (match Option.map (fun k => k + 1) o with
          | some k => some k
          | none => none) with
      | some ts, some te => List.take (te - ts) (List.drop ts (c :: rest))
      | some ts, none => List.drop ts (c :: rest)
      | none, _ => []) = c :: tl := by
    intro o
    cases o with
    | none => exact ⟨rest, by simp⟩
    | some k => exact ⟨rest.take k, by simp⟩
  simp only [firstToken, find_first_not_of, find_first_of, List.drop_zero, List.findIdx?_cons,
    hb, Bool.not_false, if_true, Nat.zero_add, ne_eq, List.cons_ne_nil, not_false_eq_true,
    Bool.false_eq_true, if_false]
  rw [show (1 : Nat) = 0 + 1 from rfl, List.findIdx?_start_succ]
  exact key _

theorem head_of_face_line (line : Str) (h : firstToken line = ['f']) :
    line.head? ≠ some 'g' := by
  cases line with
  | nil => simp
  | cons x rest =>
    intro hx
    simp only [List.head?_cons, Option.some.injEq] at hx
    subst hx
    obtain ⟨tl, htl⟩ := firstToken_head 'g' rest (by decide)
    rw [htl] at h
    exact absurd (List.cons.inj h).1 (by decide)

theorem clearIfNegative_written (x y z : Int) :
    ∃ r, clearIfNegative [⟨some x, some y, some z⟩] = .ok r := by
  simp only [clearIfNegative, hasNegativeRow, anyNegative, bind, Except.bind, pure, Except.pure]
  by_cases hx : x < 0
  · simp [hx]
  · by_cases hy : y < 0
    · simp [hx, hy]
    · by_cases hz : z < 0
      · simp [hx, hy, hz]
      · simp [hx, hy, hz]

/-- An `f` line of three well-formed records appends their indices to the
accumulators, in every state of the parser. -/
theorem objLine_face {Flt : Type} (env : Env Flt) (Path : Str) (s : ObjState Flt)
    (fline : Str) (a b c : VertexRecord)
    (ha : a.wellFormed = true) (hb : b.wellFormed = true) (hc : c.wellFormed = true)
    (hft : firstToken fline = ['f'])
    (hline : split (tail fline) [' '] = [a.text, b.text, c.text]) :
    objLine env Path s fline =
      .ok { s with
        PositionIndices := s.PositionIndices ++
          [⟨some a.triple.1, some b.triple.1, some c.triple.1⟩],
        TextureIndices := s.TextureIndices ++
          [⟨some a.triple.2.1, some b.triple.2.1, some c.triple.2.1⟩],
        NormalIndices := s.NormalIndices ++
          [⟨some a.triple.2.2, some b.triple.2.2, some c.triple.2.2⟩] } := by
  have hg := head_of_face_line fline hft
  have e1 : objectLine env s fline = .ok s := by
    simp [objectLine, isObjectOrGroup, hft, hg]; rfl
  have e2 : positionLine env s fline = .ok s := by
    simp [positionLine, hft]; rfl
  have e3 : texcoordLine env s fline = .ok s := by
    simp [texcoordLine, hft]; rfl
  have e4 : normalLine env s fline = .ok s := by
    simp [normalLine, hft]; rfl
  have e5 : faceLine s fline = .ok { s with
        PositionIndices := s.PositionIndices ++
          [⟨some a.triple.1, some b.triple.1, some c.triple.1⟩],
        TextureIndices := s.TextureIndices ++
          [⟨some a.triple.2.1, some b.triple.2.1, some c.triple.2.1⟩],
        NormalIndices := s.NormalIndices ++
          [⟨some a.triple.2.2, some b.triple.2.2, some c.triple.2.2⟩] } := by
    simp [faceLine, hft, readTriangle_three_records _ _ _ fline a b c ha hb hc hline,
      bind, Except.bind, pure, Except.pure]
  have e6 : ∀ s' : ObjState Flt, usemtlLine env s' fline = .ok s' := by
    intro s'
    simp [usemtlLine, hft]; rfl
  have e7 : ∀ s' : ObjState Flt, mtllibLine env Path s' fline = .ok s' := by
    intro s'
    simp [mtllibLine, hft]; rfl
  simp only [objLine, bind, Except.bind, e1, e2, e3, e4, e5, e6, e7]

/-- A final face line after lines that left nothing pending: when the lines
read so far have loaded at least one position and left no face and no material
name pending, a final `f` line of three well-formed records makes the parse
return true with one more sub-mesh whose face holds the position indices `p-1`
as written, whatever their relation to the number of positions. -/
theorem loadLines_keeps_any_position_index {Flt : Type} (env : Env Flt) (self : Loader Flt)
    (Path : Str) (lines : List Str) (s : ObjState Flt) (fline : Str) (a b c : VertexRecord)
    (hfold : lines.foldlM (objLine env Path) (ObjState.start self Path) = .ok s)
    (hpos : s.loader.LoadedPositions.isEmpty = false)
    (hP : s.PositionIndices = []) (hT : s.TextureIndices = []) (hN : s.NormalIndices = [])
    (hM : s.MeshMatNames = [])
    (ha : a.wellFormed = true) (hb : b.wellFormed = true) (hc : c.wellFormed = true)
    (hft : firstToken fline = ['f'])
    (hline : split (tail fline) [' '] = [a.text, b.text, c.text]) :
    ∃ mesh : Mesh Flt,
      loadLines env self Path (lines ++ [fline]) =
        .ok (true, { s.loader with LoadedMeshes := s.loader.LoadedMeshes ++ [mesh] },
             s.printed) ∧
      mesh.PositionIndices = [⟨some a.triple.1, some b.triple.1, some c.triple.1⟩] := by
  obtain ⟨t, ht⟩ := clearIfNegative_written a.triple.2.1 b.triple.2.1 c.triple.2.1
  obtain ⟨n, hn⟩ := clearIfNegative_written a.triple.2.2 b.triple.2.2 c.triple.2.2
  refine ⟨{ MeshName := s.meshname,
            PositionIndices := [⟨some a.triple.1, some b.triple.1, some c.triple.1⟩],
            TextureIndices := t, NormalIndices := n,
            MeshMaterial := Material.new env.zero }, ?_, rfl⟩
  simp only [loadLines, List.foldlM_append, hfold, bind, Except.bind, List.foldlM_cons,
    List.foldlM_nil, objLine_face env Path s fline a b c ha hb hc hft hline, pure, Except.pure,
    lastMesh, hP, hT, hN, hM, List.nil_append, List.isEmpty_cons, hpos, Bool.not_false,
    Bool.and_self, if_true, Mesh.new, ht, hn, setMaterials, List.length_nil, forRange_zero]
  simp

theorem loadLines_keeps_any_position_index_witness :
    (["v 0 0 0".toList].foldlM (objLine (exampleEnv []) "mesh.obj".toList)
        (ObjState.start Loader.new "mesh.obj".toList) = .ok onePositionState ∧
      onePositionState.loader.LoadedPositions.isEmpty = false ∧
      (VertexRecord.P "5".toList).wellFormed = true ∧
      (VertexRecord.P "6".toList).wellFormed = true ∧
      (VertexRecord.P "7".toList).wellFormed = true ∧
      firstToken "f 5 6 7".toList = ['f'] ∧
      split (tail "f 5 6 7".toList) [' '] = ["5".toList, "6".toList, "7".toList]) ∧
    ∃ mesh : Mesh Int,
      loadLines (exampleEnv []) Loader.new "mesh.obj".toList
          (["v 0 0 0".toList] ++ ["f 5 6 7".toList]) =
        .ok (true, { onePositionState.loader with
                     LoadedMeshes := onePositionState.loader.LoadedMeshes ++ [mesh] },
             onePositionState.printed) ∧
      mesh.PositionIndices = [⟨some 4, some 5, some 6⟩] :=
  ⟨⟨by decide, by decide, by decide, by decide, by decide, by decide, by decide⟩,
    loadLines_keeps_any_position_index (exampleEnv []) Loader.new "mesh.obj".toList
      ["v 0 0 0".toList] onePositionState
      "f 5 6 7".toList (VertexRecord.P "5".toList) (VertexRecord.P "6".toList)
      (VertexRecord.P "7".toList) (by decide) (by decide) rfl rfl rfl rfl (by decide)
      (by decide) (by decide) (by decide) (by decide)⟩

/-! ## The usual layout of a face line -/

theorem find_first_not_of_head (c : Char) (rest : Str) (hc : c ∉ blanks) :
    find_first_not_of (c :: rest) blanks (some 0) = some 0 := by
  simp [find_first_not_of, List.findIdx?_cons, hc]

/-- The tail of `f`, one space and a text that neither starts nor ends with a
blank is that text. -/
theorem tail_face_line (x z : Char) (rest mid : Str) (hx : x ∉ blanks) (hz : z ∉ blanks)
    (hhead : rest.head? = some x) (hlast : rest = mid ++ [z]) :
    tail ('f' :: ' ' :: rest) = rest := by
  obtain ⟨r1, hr1⟩ : ∃ r1, rest = x :: r1 := by
    cases rest with
    | nil => simp at hhead
    | cons y r1 =>
      simp only [List.head?_cons, Option.some.injEq] at hhead
      exact ⟨r1, by rw [hhead]⟩
  have hx' : ¬ x = ' ' ∧ ¬ x = '\t' := by simpa [blanks] using hx
  have h1 : find_first_not_of ('f' :: ' ' :: rest) blanks (some 0) = some 0 :=
    find_first_not_of_head 'f' _ (by decide)
  have h2 : find_first_of ('f' :: ' ' :: rest) blanks (some 0) = some 1 := by
    simp [find_first_of, List.findIdx?_cons, blanks]
  have h3 : find_first_not_of ('f' :: ' ' :: rest) blanks (some 1) = some 2 := by
    rw [hr1]
    simp [find_first_not_of, List.findIdx?_cons, blanks, hx']
  have h4 : find_last_not_of ('f' :: ' ' :: rest) blanks = some (rest.length + 1) := by
    have hrev : ('f' :: ' ' :: rest).reverse = z :: (mid.reverse ++ [' ', 'f']) := by
      rw [hlast]
      simp
    simp [find_last_not_of, hrev, List.findIdx?_cons, hz]
  have hlen : 1 ≤ rest.length := by rw [hr1]; simp
  simp only [tail, h1, h2, h3, h4]
  simp
  omega

theorem blank_not_mem_of_digits (ds : Str) (h : isIndex ds = true) : ' ' ∉ ds :=
  not_mem_of_digits ds (isIndex_spec ds h).1.2 ' ' (by decide)

theorem VertexRecord.text_spec (r : VertexRecord) (h : r.wellFormed = true) :
    ' ' ∉ r.text ∧ (∃ x, r.text.head? = some x ∧ x.isDigit = true) ∧
      ∃ mid z, r.text = mid ++ [z] ∧ z.isDigit = true := by
  have digits : ∀ ds : Str, isIndex ds = true →
      (∃ x, ds.head? = some x ∧ x.isDigit = true) ∧
      ∃ mid z, ds = mid ++ [z] ∧ z.isDigit = true := by
    intro ds hds
    obtain ⟨⟨hne, hd⟩, -, -⟩ := isIndex_spec ds hds
    constructor
    · obtain ⟨x, tl, rfl⟩ := List.exists_cons_of_ne_nil hne
      exact ⟨x, rfl, hd x (List.mem_cons_self _ _)⟩
    · refine ⟨ds.dropLast, ds.getLast hne, (List.dropLast_append_getLast hne).symm, ?_⟩
      exact hd _ (List.getLast_mem hne)
  have headApp : ∀ (ds more : Str), (∃ x, ds.head? = some x ∧ x.isDigit = true) →
      ∃ x, (ds ++ more).head? = some x ∧ x.isDigit = true := by
    rintro ds more ⟨x, hx, hxd⟩
    cases ds with
    | nil => simp at hx
    | cons y tl => exact ⟨x, by simpa using hx, hxd⟩
  have lastApp : ∀ (pre ds : Str), (∃ mid z, ds = mid ++ [z] ∧ z.isDigit = true) →
      ∃ mid z, pre ++ ds = mid ++ [z] ∧ z.isDigit = true := by
    rintro pre ds ⟨mid, z, rfl, hz⟩
    exact ⟨pre ++ mid, z, by simp, hz⟩
  cases r with
  | P p =>
    simp only [VertexRecord.wellFormed] at h
    exact ⟨blank_not_mem_of_digits p h, (digits p h).1, (digits p h).2⟩
  | PT p t =>
    simp only [VertexRecord.wellFormed, Bool.and_eq_true] at h
    refine ⟨?_, headApp p _ (digits p h.1).1, ?_⟩
    · simp [VertexRecord.text, blank_not_mem_of_digits p h.1, blank_not_mem_of_digits t h.2]
    · exact lastApp p ('/' :: t) (lastApp ['/'] t (digits t h.2).2)
  | PN p n =>
    simp only [VertexRecord.wellFormed, Bool.and_eq_true] at h
    refine ⟨?_, headApp p _ (digits p h.1).1, ?_⟩
    · simp [VertexRecord.text, blank_not_mem_of_digits p h.1, blank_not_mem_of_digits n h.2]
    · exact lastApp p ('/' :: '/' :: n) (lastApp ['/', '/'] n (digits n h.2).2)
  | PTN p t n =>
    simp only [VertexRecord.wellFormed, Bool.and_eq_true] at h
    refine ⟨?_, headApp p _ (digits p h.1.1).1, ?_⟩
    · simp [VertexRecord.text, blank_not_mem_of_digits p h.1.1,
        blank_not_mem_of_digits t h.1.2, blank_not_mem_of_digits n h.2]
    · exact lastApp p ('/' :: (t ++ '/' :: n))
        (lastApp ('/' :: t) ('/' :: n) (lastApp ['/'] n (digits n h.2).2))

theorem not_blank_of_digit (x : Char) (h : x.isDigit = true) : x ∉ blanks := by
  intro hm
  simp only [blanks, List.mem_cons, List.mem_singleton, List.mem_nil_iff, or_false] at hm
  rcases hm with h1 | h1 <;> (rw [h1] at h; revert h; decide)

/-- The line `f a b c` of three well-formed records separated by single spaces
has first token `f`, and its tail splits into the three records. -/
theorem face_line_layout (a b c : VertexRecord)
    (ha : a.wellFormed = true) (hb : b.wellFormed = true) (hc : c.wellFormed = true) :
    firstToken ('f' :: ' ' :: (a.text ++ ' ' :: (b.text ++ ' ' :: c.text))) = ['f'] ∧
    split (tail ('f' :: ' ' :: (a.text ++ ' ' :: (b.text ++ ' ' :: c.text)))) [' '] =
      [a.text, b.text, c.text] := by
  obtain ⟨ha1, ⟨x, hx, hxd⟩, -⟩ := VertexRecord.text_spec a ha
  obtain ⟨hb1, -, -⟩ := VertexRecord.text_spec b hb
  obtain ⟨hc1, -, ⟨mid, z, hz, hzd⟩⟩ := VertexRecord.text_spec c hc
  constructor
  · have h1 := find_first_not_of_head 'f' (' ' :: (a.text ++ ' ' :: (b.text ++ ' ' :: c.text)))
      (by decide)
    have h2 : find_first_of ('f' :: ' ' :: (a.text ++ ' ' :: (b.text ++ ' ' :: c.text))) blanks
        (some 0) = some 1 := by
      simp [find_first_of, List.findIdx?_cons, blanks]
    simp [firstToken, h1, h2]
  · have hhead : (a.text ++ ' ' :: (b.text ++ ' ' :: c.text)).head? = some x := by
      cases hat : a.text with
      | nil => rw [hat] at hx; simp at hx
      | cons y tl => rw [hat] at hx; simpa using hx
    have hlast : a.text ++ ' ' :: (b.text ++ ' ' :: c.text) =
        (a.text ++ ' ' :: (b.text ++ ' ' :: mid)) ++ [z] := by
      rw [hz]; simp
    have hcne : c.text ≠ [] := by rw [hz]; simp
    rw [tail_face_line x z _ _ (not_blank_of_digit x hxd) (not_blank_of_digit z hzd) hhead hlast,
      split_char, splitByChar_field _ _ _ _ ha1, splitByChar_field _ _ _ _ hb1,
      splitByChar_last _ _ _ hc1 hcne]
    rfl

/-- The line `f a b c` of three well-formed records separated by single spaces
is decoded into the triples of its records. -/
theorem readTriangle_usual_line (P T N : Vector3i) (a b c : VertexRecord)
    (ha : a.wellFormed = true) (hb : b.wellFormed = true) (hc : c.wellFormed = true) :
    ReadTriangleIndicesRawOBJ P T N
        ('f' :: ' ' :: (a.text ++ ' ' :: (b.text ++ ' ' :: c.text))) =
      .ok ⟨⟨some a.triple.1, some b.triple.1, some c.triple.1⟩,
           ⟨some a.triple.2.1, some b.triple.2.1, some c.triple.2.1⟩,
           ⟨some a.triple.2.2, some b.triple.2.2, some c.triple.2.2⟩, []⟩ :=
  readTriangle_three_records P T N _ a b c ha hb hc (face_line_layout a b c ha hb hc).2

/-! ## `split` and `join` -/

/-- C16, the code at a failing input: with the two-character delimiter `ab`
the fields `x`, the empty field and `y` join to `xababy`, and `split` returns
`x`, the empty field and `by`: where the field under way is empty the token is
recorded and not stepped over, so that its second character starts the next
field. With a leading empty field, `aby` gives the empty field and `by`. -/
theorem split_two_character_delimiter :
    joinFields "ab".toList ["x".toList, [], "y".toList] = "xababy".toList ∧
    split "xababy".toList "ab".toList = ["x".toList, [], "by".toList] ∧
    joinFields "ab".toList [[], "y".toList] = "aby".toList ∧
    split "aby".toList "ab".toList = [[], "by".toList] :=
  ⟨by decide, by decide, by decide, by decide⟩

theorem splitByChar_join (c : Char) (fields : List Str) (last : Str)
    (hf : ∀ f ∈ fields, c ∉ f) (hl : c ∉ last) (hne : last ≠ []) :
    splitByChar c (joinFields [c] (fields ++ [last])) [] = fields ++ [last] := by
  induction fields with
  | nil =>
    have hj : joinFields [c] ([] ++ [last]) = last := by
      simp [joinFields, List.intercalate, List.intersperse]
    rw [hj, splitByChar_last c last [] hl hne]
    rfl
  | cons f fs ih =>
    have hcons : joinFields [c] (f :: fs ++ [last]) = f ++ c :: joinFields [c] (fs ++ [last]) := by
      cases fs with
      | nil => simp [joinFields, List.intercalate, List.intersperse]
      | cons g gs => simp [joinFields, List.intercalate, List.intersperse]
    rw [hcons, splitByChar_field c f _ [] (hf f (List.mem_cons_self _ _)),
      ih (fun g hg => hf g (List.mem_cons_of_mem _ hg))]
    rfl

/-- With a delimiter of one character `split` undoes `join`: for fields that do
not contain the delimiter, the last of them non-empty, the joined text splits
into exactly the fields, empty ones included. -/
theorem split_join_char (c : Char) (fields : List Str) (last : Str)
    (hf : ∀ f ∈ fields, c ∉ f) (hl : c ∉ last) (hne : last ≠ []) :
    split (joinFields [c] (fields ++ [last])) [c] = fields ++ [last] := by
  rw [split_char, splitByChar_join c fields last hf hl hne]

/-! ## Paths and material files -/

/-- C18, the code at a failing input: for the path `obj`, shorter than four
characters and not ending in `.obj`, `LoadFile` does not return false: the
position `Path.size() - 4` of `substr` wraps around and `std::out_of_range` is
thrown, whatever the files are. A path of four characters or more that does
not end in `.obj` does give false. -/
theorem LoadFile_short_path_throws :
    LoadFile (exampleEnv []) Loader.new "obj".toList = .error Fault.outOfRange ∧
    LoadFile (exampleEnv []) Loader.new [] = .error Fault.outOfRange ∧
    LoadFile (exampleEnv []) Loader.new "mesh.txt".toList = .ok (false, Loader.new, []) :=
  ⟨by decide, by decide, by decide⟩

/-- A path shorter than four characters makes `LoadFile` throw. -/
theorem LoadFile_short_path {Flt : Type} (env : Env Flt) (self : Loader Flt) (Path : Str)
    (h : Path.length < 4) : LoadFile env self Path = .error Fault.outOfRange := by
  simp [LoadFile, lastFour, h, bind, Except.bind]

/-- A path of four characters or more that does not end in `.obj` makes
`LoadFile` return false and leave the loader as it was. -/
theorem LoadFile_other_extension {Flt : Type} (env : Env Flt) (self : Loader Flt) (Path : Str)
    (h4 : 4 ≤ Path.length) (hext : Path.drop (Path.length - 4) ≠ ".obj".toList) :
    LoadFile env self Path = .ok (false, self, []) := by
  have h : ¬ Path.length < 4 := by omega
  simp only [LoadFile, lastFour, h, bind, Except.bind, pure, Except.pure, if_false]
  rw [if_pos hext]

/-- C19, the code at a failing input: for the empty material file, and for a
file whose only line is `Ns 5`, `LoadMaterials` returns true and appends one
material, the unnamed one under construction: line 872 pushes `tempMaterial`
before line 876 tests whether the collection is empty. -/
theorem LoadMaterials_without_newmtl :
    LoadMaterials (mtlEnv []) Loader.new "lib.mtl".toList =
      .ok (true, { (Loader.new : Loader Int) with LoadedMaterials := [Material.new 0] }) ∧
    LoadMaterials (mtlEnv ["Ns 5".toList]) Loader.new "lib.mtl".toList =
      .ok (true, { (Loader.new : Loader Int) with
                   LoadedMaterials := [{ Material.new 0 with Ns := 5 }] }) :=
  ⟨by decide, by decide⟩

/-- On a material file that is read to its end `LoadMaterials` returns true and
the collection it leaves is not empty. -/
theorem LoadMaterials_never_false {Flt : Type} (env : Env Flt) (self : Loader Flt) (path : Str)
    (lines : List Str) (r : Bool) (l : Loader Flt)
    (hext : lastFour path = .ok ".mtl".toList) (hread : env.readLines path = some lines)
    (h : LoadMaterials env self path = .ok (r, l)) :
    r = true ∧ l.LoadedMaterials ≠ [] := by
  simp only [LoadMaterials, hext, bind, Except.bind, ne_eq, not_true_eq_false, if_false,
    hread] at h
  cases hfold : List.foldlM (mtlLine env) ⟨self.LoadedMaterials, Material.new env.zero, false⟩
      lines with
  | error e => rw [hfold] at h; simp at h
  | ok s =>
    rw [hfold] at h
    simp only [pure, Except.pure, Except.ok.injEq, Prod.mk.injEq] at h
    obtain ⟨h1, h2⟩ := h
    subst h2
    constructor
    · rw [← h1]; simp
    · simp

/-- C13, the code at a failing input: with the faces of one object under three
materials the two fragments the `usemtl` lines close are both named `N_2`; the
second one takes a name a sub-mesh already has, where `N_3` is the smallest
free one. -/
theorem split_name_collides :
    (LoadFile (exampleEnv ["v 0 0 0".toList, "o N".toList, "usemtl A".toList,
        "f 1 1 1".toList, "usemtl B".toList, "f 1 1 1".toList, "usemtl C".toList,
        "f 1 1 1".toList]) Loader.new "mesh.obj".toList).toOption.map
        (fun r => r.2.1.LoadedMeshes.map (fun m => m.MeshName)) =
      some ["N_2".toList, "N_2".toList, "N".toList] := by
  decide

/-! ## The closed form of the new vertex indices -/

theorem firstSeen_append_one (l : List Int) (t : Int) :
    firstSeen (l ++ [t]) = pushNew (firstSeen l) t := by
  unfold firstSeen pushNew
  rw [List.reverse_append, List.reverse_singleton, List.singleton_append]
  by_cases h : t ∈ l
  · have h' : t ∈ l.reverse := List.mem_reverse.2 h
    rw [List.dedup_cons_of_mem h', if_pos]
    simpa using h
  · have h' : t ∉ l.reverse := fun e => h (List.mem_reverse.1 e)
    rw [List.dedup_cons_of_not_mem h', if_neg, List.reverse_cons]
    simpa using h

theorem tcsOf_eq_firstSeen (cs : List (Int × Int)) (p : Int) :
    tcsOf cs p = firstSeen ((cs.filter (fun c => decide (c.1 = p))).map (fun c => c.2)) := by
  induction cs using List.reverseRecOn with
  | nil => rfl
  | append_singleton cs c ih =>
    rw [tcsOf_append_one, ih, List.filter_append, List.map_append]
    by_cases hc : c.1 = p
    · simp only [hc, if_true, List.filter_cons, List.filter_nil, decide_True, List.map_cons,
        List.map_nil]
      rw [firstSeen_append_one]
    · simp [hc]

theorem filter_below_flatUpTo (G : List (List Int)) (p : Int) (n : Nat) :
    (flatUpTo G n).filter (fun c => decide (c.1 < p)) = flatUpTo G (min n p.toNat) := by
  induction n with
  | zero => simp [flatUpTo]
  | succ k ih =>
    rw [flatUpTo, List.filter_append, ih, List.filter_map]
    by_cases hk : (k : Int) < p
    · have h1 : min k p.toNat = k := by omega
      have h2 : min (k + 1) p.toNat = k + 1 := by omega
      rw [h1, h2, flatUpTo]
      congr 1
      have : List.filter ((fun c : Int × Int => decide (c.1 < p)) ∘ fun t => ((k : Int), t))
          (G.getD k []) = G.getD k [] := by
        rw [List.filter_eq_self]
        intro a _
        simpa using hk
      rw [this]
    · have h1 : min k p.toNat = p.toNat := by omega
      have h2 : min (k + 1) p.toNat = p.toNat := by omega
      rw [h1, h2]
      have : List.filter ((fun c : Int × Int => decide (c.1 < p)) ∘ fun t => ((k : Int), t))
          (G.getD k []) = [] := by
        rw [List.filter_eq_nil_iff]
        intro a _
        simpa using hk
      rw [this, List.map_nil, List.append_nil]

/-- The pairs of the groups before `p` are as many as the distinct corner
pairs with a smaller position index. -/
theorem flatUpTo_length_pairsBelow {R : Type} (m : MatrixMesh R)
    (hrows : m.F.length = m.FTC.length)
    (hF : ∀ r ∈ m.F, rowInRange m.V.length r = true)
    (hFTC : ∀ r ∈ m.FTC, rowInRange m.TC.length r = true)
    (p : Int) (hp : p.toNat ≤ m.V.length) :
    (flatUpTo (groupsOf m) p.toNat).length = pairsBelow m p := by
  have hmin : min (groupsOf m).length p.toNat = p.toNat := by
    rw [groupsOf_length]; omega
  have hfl := filter_below_flatUpTo (groupsOf m) p (groupsOf m).length
  rw [hmin] at hfl
  rw [← hfl, pairsBelow]
  apply List.Perm.length_eq
  apply (List.perm_ext_iff_of_nodup ?_ ?_).2
  · rintro ⟨a, b⟩
    simp only [List.mem_filter, mem_flat_groupsOf m hrows hF hFTC, List.mem_dedup]
  · apply List.Nodup.filter
    apply flatUpTo_nodup
    intro row hrow
    simp only [groupsOf, List.mem_map] at hrow
    obtain ⟨q, _, rfl⟩ := hrow
    exact tcsOf_nodup _ _
  · exact List.Nodup.filter _ (List.nodup_dedup _)

/-- The new index of a corner pair in closed form: the distinct pairs with a
smaller position index, plus the rank of the texcoord index among those of the
position in first-seen order. -/
theorem newIndex_closed_form {R : Type} (m : MatrixMesh R)
    (hrows : m.F.length = m.FTC.length)
    (hF : ∀ r ∈ m.F, rowInRange m.V.length r = true)
    (hFTC : ∀ r ∈ m.FTC, rowInRange m.TC.length r = true)
    (p t : Int) (h0 : 0 ≤ p) (h1 : p < m.V.length) :
    newIndex (groupsOf m) p t =
      (pairsBelow m p : Int) + (List.indexOf t (firstSeen (pairedTcs m p)) : Int) := by
  have hp : p.toNat < m.V.length := by omega
  have hcast : ((p.toNat : Nat) : Int) = p := Int.toNat_of_nonneg h0
  rw [newIndex, flatUpTo_length_pairsBelow m hrows hF hFTC p (by omega), groupsOf_getD m _ hp,
    cornersUpTo_eq_cornerPairs m hrows hF hFTC, hcast, tcsOf_eq_firstSeen]
  rfl

/-- C20: on valid input the new index written at a face corner that holds the
pair (p, t) is the number of distinct corner pairs whose position index is
smaller than p, plus the rank of t among the distinct texcoord indices paired
with p, in order of first occurrence over the corners scanned face by face and
corner by corner; it lies in [0, N) for the N distinct pairs, and every number
of [0, N) is the new index of some corner. -/
theorem remapMesh_new_index_closed_form {R : Type}
    (pvn : List (Cell R) → List Vector3i → List (Cell R)) (m : MatrixMesh R)
    (h : ValidInput m) (i j : Nat) (hi : i < m.F.length) (hj : j < 3) :
    ∃ (m' : MatrixMesh R) (wrong : List (Nat × Nat)) (p t idx : Int),
      remapMesh pvn m = .ok (m', wrong) ∧
      coeff m.F i j = .ok p ∧ coeff m.FTC i j = .ok t ∧ coeff m'.F i j = .ok idx ∧
      idx = (pairsBelow m p : Int) + (List.indexOf t (firstSeen (pairedTcs m p)) : Int) ∧
      0 ≤ idx ∧ idx < ((cornerPairs m).dedup.length : Int) ∧
      ∀ q : Nat, q < (cornerPairs m).dedup.length →
        ∃ i' j', i' < m.F.length ∧ j' < 3 ∧ coeff m'.F i' j' = .ok (q : Int) := by
  obtain ⟨hrows, hF, hFTC, hcap⟩ := h
  have c := coeff_inRange m.F _ hF i j hi
  have hlt := newIndex_lt m hF i j hi hj
  rw [flat_groupsOf_length m hrows hF hFTC] at hlt
  refine ⟨outOf pvn m, [], idxAt m.F i j, idxAt m.FTC i j,
    newIndex (groupsOf m) (idxAt m.F i j) (idxAt m.FTC i j),
    remapMesh_spec pvn m ⟨hrows, hF, hFTC, hcap⟩, c.1,
    (coeff_inRange m.FTC _ hFTC i j (hrows ▸ hi)).1, coeff_newRow m (groupsOf m) i j hi hj,
    newIndex_closed_form m hrows hF hFTC _ _ c.2.1 c.2.2, hlt.1, hlt.2, ?_⟩
  intro q hq
  rw [← flat_groupsOf_length m hrows hF hFTC] at hq
  obtain ⟨i', j', hi', hj', hn⟩ := newIndex_surj m hrows hF hFTC q hq
  refine ⟨i', j', hi', hj', ?_⟩
  rw [← hn]
  exact coeff_newRow m (groupsOf m) i' j' hi' hj'

theorem remapMesh_new_index_closed_form_witness :
    ValidInput quadMesh ∧
    ∃ (m' : MatrixMesh Nat) (wrong : List (Nat × Nat)) (p t idx : Int),
      remapMesh noNormals quadMesh = .ok (m', wrong) ∧
      coeff quadMesh.F 1 0 = .ok p ∧ coeff quadMesh.FTC 1 0 = .ok t ∧
      coeff m'.F 1 0 = .ok idx ∧
      idx = (pairsBelow quadMesh p : Int) +
        (List.indexOf t (firstSeen (pairedTcs quadMesh p)) : Int) ∧
      0 ≤ idx ∧ idx < ((cornerPairs quadMesh).dedup.length : Int) ∧
      ∀ q : Nat, q < (cornerPairs quadMesh).dedup.length →
        ∃ i' j', i' < quadMesh.F.length ∧ j' < 3 ∧ coeff m'.F i' j' = .ok (q : Int) :=
  ⟨by decide, remapMesh_new_index_closed_form noNormals quadMesh (by decide) 1 0 (by decide)
    (by decide)⟩

/-! ## The first token and the tail of a line -/

/-- The first element `p` accepts splits the list: before it nothing is
accepted; with no such element nothing is accepted at all. -/
theorem findIdx?_cases {α : Type} (p : α → Bool) (l : List α) :
    (l.findIdx? p = none ∧ ∀ x ∈ l, p x = false) ∨
    ∃ pre y post, l = pre ++ y :: post ∧ l.findIdx? p = some pre.length ∧
      (∀ x ∈ pre, p x = false) ∧ p y = true := by
  induction l with
  | nil => left; simp
  | cons a l ih =>
    by_cases ha : p a = true
    · right
      exact ⟨[], a, l, rfl, by simp [List.findIdx?_cons, ha], by simp, ha⟩
    · have ha' : p a = false := by simpa using ha
      rcases ih with ⟨h1, h2⟩ | ⟨pre, y, post, h1, h2, h3, h4⟩
      · left
        refine ⟨?_, ?_⟩
        · rw [List.findIdx?_eq_none_iff]
          intro x hx
          rcases List.mem_cons.1 hx with rfl | hx
          · exact ha'
          · exact h2 x hx
        · intro x hx
          rcases List.mem_cons.1 hx with rfl | hx
          · exact ha'
          · exact h2 x hx
      · right
        refine ⟨a :: pre, y, post, by rw [h1]; rfl, ?_, ?_, h4⟩
        · rw [List.findIdx?_cons, ha']
          simp only [Bool.false_eq_true, if_false, Nat.zero_add]
          rw [show (1 : Nat) = 0 + 1 from rfl, List.findIdx?_start_succ, h2]
          rfl
        · intro x hx
          rcases List.mem_cons.1 hx with rfl | hx
          · exact ha'
          · exact h3 x hx

theorem not_contains_false (c : Char) : (!blanks.contains c) = false ↔ c ∈ blanks := by
  simp

theorem contains_false (c : Char) : blanks.contains c = false ↔ c ∉ blanks := by
  simp

theorem not_contains_true (c : Char) : (!blanks.contains c) = true ↔ c ∉ blanks := by
  simp

theorem contains_true (c : Char) : blanks.contains c = true ↔ c ∈ blanks := by
  simp

theorem find_first_of_none (s chars : Str) : find_first_of s chars none = none := rfl

theorem find_first_not_of_none (s chars : Str) : find_first_not_of s chars none = none := rfl

/-- A line of blanks only has no first token and no tail. -/
theorem blank_line (line : Str) (h : ∀ c ∈ line, c ∈ blanks) :
    firstToken line = [] ∧ tail line = [] := by
  have h0 : find_first_not_of line blanks (some 0) = none := by
    have : line.findIdx? (fun c => !blanks.contains c) = none := by
      rw [List.findIdx?_eq_none_iff]
      intro x hx
      exact (not_contains_false x).2 (h x hx)
    simp only [find_first_not_of, List.drop_zero, this]
  constructor
  · unfold firstToken
    split_ifs
    · simp only [h0]
    · rfl
  · unfold tail
    simp only [h0, find_first_of_none, find_first_not_of_none]

theorem findIdx?_shape {α : Type} (p : α → Bool) (pre : List α) (y : α) (post : List α)
    (hpre : ∀ x ∈ pre, p x = false) (hy : p y = true) :
    (pre ++ y :: post).findIdx? p = some pre.length := by
  induction pre with
  | nil => simp [List.findIdx?_cons, hy]
  | cons a pre ih =>
    have ha : p a = false := hpre a (List.mem_cons_self _ _)
    rw [List.cons_append, List.findIdx?_cons, ha]
    simp only [Bool.false_eq_true, if_false, Nat.zero_add]
    rw [show (1 : Nat) = 0 + 1 from rfl, List.findIdx?_start_succ,
      ih (fun x hx => hpre x (List.mem_cons_of_mem _ hx))]
    rfl

/-- Searching from the end of `A` for a character outside the blanks, in a text
that goes on with the blanks `w` and the other character `y`. -/
theorem find_first_not_of_shape (A w : Str) (y : Char) (post : Str)
    (hw : ∀ c ∈ w, c ∈ blanks) (hy : y ∉ blanks) :
    find_first_not_of (A ++ (w ++ y :: post)) blanks (some A.length) =
      some (A.length + w.length) := by
  have h := findIdx?_shape (fun c => !blanks.contains c) w y post
    (fun c hc => (not_contains_false c).2 (hw c hc)) ((not_contains_true y).2 hy)
  simp only [find_first_not_of, List.drop_left, h]

theorem find_first_not_of_end (A w : Str) (hw : ∀ c ∈ w, c ∈ blanks) :
    find_first_not_of (A ++ w) blanks (some A.length) = none := by
  have h : w.findIdx? (fun c => !blanks.contains c) = none := by
    rw [List.findIdx?_eq_none_iff]
    exact fun c hc => (not_contains_false c).2 (hw c hc)
  simp only [find_first_not_of, List.drop_left, h]

theorem find_first_of_shape (A tok : Str) (b : Char) (post : Str)
    (htok : ∀ c ∈ tok, c ∉ blanks) (hb : b ∈ blanks) :
    find_first_of (A ++ (tok ++ b :: post)) blanks (some A.length) =
      some (A.length + tok.length) := by
  have h := findIdx?_shape (fun c => blanks.contains c) tok b post
    (fun c hc => (contains_false c).2 (htok c hc)) ((contains_true b).2 hb)
  simp only [find_first_of, List.drop_left, h]

theorem find_first_of_end (A tok : Str) (htok : ∀ c ∈ tok, c ∉ blanks) :
    find_first_of (A ++ tok) blanks (some A.length) = none := by
  have h : tok.findIdx? (fun c => blanks.contains c) = none := by
    rw [List.findIdx?_eq_none_iff]
    exact fun c hc => (contains_false c).2 (htok c hc)
  simp only [find_first_of, List.drop_left, h]

theorem find_last_not_of_shape (pre : Str) (z : Char) (w : Str)
    (hz : z ∉ blanks) (hw : ∀ c ∈ w, c ∈ blanks) :
    find_last_not_of (pre ++ z :: w) blanks = some pre.length := by
  have hrev : (pre ++ z :: w).reverse = w.reverse ++ z :: pre.reverse := by simp
  have h := findIdx?_shape (fun c => !blanks.contains c) w.reverse z pre.reverse
    (fun c hc => (not_contains_false c).2 (hw c (List.mem_reverse.1 hc)))
    ((not_contains_true z).2 hz)
  simp only [find_last_not_of, hrev, h, List.length_append, List.length_cons,
    List.length_reverse]
  congr 1
  omega

/-- A line whose token runs to the end of the line: blanks, then characters
that are no blanks. -/
theorem token_only_line (w1 tok : Str) (x : Char) (tok' : Str) (htk : tok = x :: tok')
    (hw1 : ∀ c ∈ w1, c ∈ blanks) (htok : ∀ c ∈ tok, c ∉ blanks) :
    firstToken (w1 ++ tok) = tok ∧ tail (w1 ++ tok) = [] := by
  have hx : x ∉ blanks := htok x (by rw [htk]; exact List.mem_cons_self _ _)
  have h0 : find_first_not_of (w1 ++ tok) blanks (some 0) = some w1.length := by
    have := find_first_not_of_shape [] w1 x tok' hw1 hx
    simpa [htk] using this
  have h1 : find_first_of (w1 ++ tok) blanks (some w1.length) = none :=
    find_first_of_end w1 tok htok
  have hne : w1 ++ tok ≠ [] := by simp [htk]
  constructor
  · unfold firstToken
    rw [if_pos hne]
    simp only [h0, h1, List.drop_left]
  · unfold tail
    simp only [h0, h1, find_first_not_of_none]

/-- A line that ends in blanks after its token. -/
theorem token_blanks_line (w1 tok : Str) (x : Char) (tok' : Str) (htk : tok = x :: tok')
    (w2 : Str) (b : Char) (w2' : Str) (hw2e : w2 = b :: w2')
    (hw1 : ∀ c ∈ w1, c ∈ blanks) (htok : ∀ c ∈ tok, c ∉ blanks)
    (hw2 : ∀ c ∈ w2, c ∈ blanks) :
    firstToken (w1 ++ (tok ++ w2)) = tok ∧ tail (w1 ++ (tok ++ w2)) = [] := by
  have hx : x ∉ blanks := htok x (by rw [htk]; exact List.mem_cons_self _ _)
  have hb : b ∈ blanks := hw2 b (by rw [hw2e]; exact List.mem_cons_self _ _)
  have h0 : find_first_not_of (w1 ++ (tok ++ w2)) blanks (some 0) = some w1.length := by
    have := find_first_not_of_shape [] w1 x (tok' ++ w2) hw1 hx
    simpa [htk] using this
  have h1 : find_first_of (w1 ++ (tok ++ w2)) blanks (some w1.length) =
      some (w1.length + tok.length) := by
    have := find_first_of_shape w1 tok b w2' htok hb
    rwa [← hw2e] at this
  have h2 : find_first_not_of (w1 ++ (tok ++ w2)) blanks (some (w1.length + tok.length)) =
      none := by
    have := find_first_not_of_end (w1 ++ tok) w2 hw2
    simpa using this
  have hne : w1 ++ (tok ++ w2) ≠ [] := by simp [htk]
  constructor
  · unfold firstToken
    rw [if_pos hne]
    simp only [h0, h1, List.drop_left, Nat.add_sub_cancel_left, List.take_left]
  · unfold tail
    simp only [h0, h1, h2]

/-- A line with a token and a tail: blanks, the token, blanks, a text that
begins and ends with a character that is no blank, blanks. -/
theorem token_tail_line (w1 tok : Str) (x : Char) (tok' : Str) (htk : tok = x :: tok')
    (w2 : Str) (b : Char) (w2' : Str) (hw2e : w2 = b :: w2')
    (t : Str) (y : Char) (t' : Str) (hty : t = y :: t') (a' : Str) (z : Char)
    (htz : t = a' ++ [z]) (w3 : Str)
    (hw1 : ∀ c ∈ w1, c ∈ blanks) (htok : ∀ c ∈ tok, c ∉ blanks)
    (hw2 : ∀ c ∈ w2, c ∈ blanks) (hy : y ∉ blanks) (hz : z ∉ blanks)
    (hw3 : ∀ c ∈ w3, c ∈ blanks) :
    firstToken (w1 ++ (tok ++ (w2 ++ (t ++ w3)))) = tok ∧
      tail (w1 ++ (tok ++ (w2 ++ (t ++ w3)))) = t := by
  have hx : x ∉ blanks := htok x (by rw [htk]; exact List.mem_cons_self _ _)
  have hb : b ∈ blanks := hw2 b (by rw [hw2e]; exact List.mem_cons_self _ _)
  have h0 : find_first_not_of (w1 ++ (tok ++ (w2 ++ (t ++ w3)))) blanks (some 0) =
      some w1.length := by
    have := find_first_not_of_shape [] w1 x (tok' ++ (w2 ++ (t ++ w3))) hw1 hx
    simpa [htk] using this
  have h1 : find_first_of (w1 ++ (tok ++ (w2 ++ (t ++ w3)))) blanks (some w1.length) =
      some (w1.length + tok.length) := by
    have := find_first_of_shape w1 tok b (w2' ++ (t ++ w3)) htok hb
    rwa [← List.cons_append, ← hw2e] at this
  have h2 : find_first_not_of (w1 ++ (tok ++ (w2 ++ (t ++ w3)))) blanks
      (some (w1.length + tok.length)) = some (w1.length + tok.length + w2.length) := by
    have := find_first_not_of_shape (w1 ++ tok) w2 y (t' ++ w3) hw2 hy
    rw [← List.cons_append, ← hty, List.length_append, List.append_assoc] at this
    exact this
  have h3 : find_last_not_of (w1 ++ (tok ++ (w2 ++ (t ++ w3)))) blanks =
      some (w1.length + tok.length + w2.length + a'.length) := by
    have := find_last_not_of_shape (w1 ++ (tok ++ (w2 ++ a'))) z w3 hz hw3
    have e : w1 ++ (tok ++ (w2 ++ a')) ++ z :: w3 = w1 ++ (tok ++ (w2 ++ (t ++ w3))) := by
      rw [htz]; simp
    rw [e] at this
    rw [this]
    simp only [List.length_append]
    congr 1
    omega
  have hne : w1 ++ (tok ++ (w2 ++ (t ++ w3))) ≠ [] := by simp [htk]
  constructor
  · unfold firstToken
    rw [if_pos hne]
    simp only [h0, h1, List.drop_left, Nat.add_sub_cancel_left, List.take_left]
  · unfold tail
    simp only [h0, h1, h2]
    have hd : List.drop (w1.length + tok.length + w2.length)
        (w1 ++ (tok ++ (w2 ++ (t ++ w3)))) = t ++ w3 := by
      have e : w1 ++ (tok ++ (w2 ++ (t ++ w3))) = (w1 ++ (tok ++ w2)) ++ (t ++ w3) := by simp
      have l : w1.length + tok.length + w2.length = (w1 ++ (tok ++ w2)).length := by
        simp only [List.length_append]; omega
      rw [e, l, List.drop_left]
    have hl : w1.length + tok.length + w2.length + a'.length -
        (w1.length + tok.length + w2.length) + 1 = t.length := by
      rw [htz]; simp
    rw [h3]
    simp only [hd, hl, List.take_left]

/-- C17: every line is a run of blanks, its first token, a run of blanks, its
tail and a run of blanks, one after the other (a blank being a space or a
tab); the first token contains no blank and is empty exactly when the line is
empty or made of blanks only, the tail neither starts nor ends with a blank,
and the tail is empty whenever the run between the token and the tail is. -/
theorem firstToken_tail_decompose (line : Str) :
    ∃ w1 w2 w3 : Str, (∀ c ∈ w1, c ∈ blanks) ∧ (∀ c ∈ w2, c ∈ blanks) ∧
      (∀ c ∈ w3, c ∈ blanks) ∧
      line = w1 ++ firstToken line ++ w2 ++ tail line ++ w3 ∧
      (∀ c ∈ firstToken line, c ∉ blanks) ∧
      (firstToken line = [] ↔ ∀ c ∈ line, c ∈ blanks) ∧
      (∀ c, (tail line).head? = some c → c ∉ blanks) ∧
      (∀ c, (tail line).getLast? = some c → c ∉ blanks) ∧
      (w2 = [] → tail line = []) := by
  rcases findIdx?_cases (fun c => !blanks.contains c) line with
    ⟨_, hall⟩ | ⟨w1, x, r1, hline, _, hw1, hx⟩
  · have hall' : ∀ c ∈ line, c ∈ blanks := fun c hc => (not_contains_false c).1 (hall c hc)
    obtain ⟨hf, ht⟩ := blank_line line hall'
    refine ⟨line, [], [], hall', by simp, by simp, by simp [hf, ht], by simp [hf],
      ⟨fun _ => hall', fun _ => hf⟩, by simp [ht], by simp [ht], fun _ => ht⟩
  have hw1' : ∀ c ∈ w1, c ∈ blanks := fun c hc => (not_contains_false c).1 (hw1 c hc)
  have hx' : x ∉ blanks := (not_contains_true x).1 hx
  have hnotall : ¬ ∀ c ∈ line, c ∈ blanks := fun h => hx' (h x (by rw [hline]; simp))
  rcases findIdx?_cases (fun c => blanks.contains c) (x :: r1) with
    ⟨_, hall⟩ | ⟨tok, b, r2, htokeq, _, htok, hb⟩
  · have htok' : ∀ c ∈ x :: r1, c ∉ blanks := fun c hc => (contains_false c).1 (hall c hc)
    obtain ⟨hf, ht⟩ := token_only_line w1 (x :: r1) x r1 rfl hw1' htok'
    rw [← hline] at hf ht
    refine ⟨w1, [], [], hw1', by simp, by simp, by rw [hf, ht, hline]; simp, ?_, ?_,
      by simp [ht], by simp [ht], fun _ => ht⟩
    · rw [hf]; exact htok'
    · rw [hf]; simp [hnotall]
  have htok' : ∀ c ∈ tok, c ∉ blanks := fun c hc => (contains_false c).1 (htok c hc)
  have hb' : b ∈ blanks := (contains_true b).1 hb
  obtain ⟨tok', htk⟩ : ∃ tok', tok = x :: tok' := by
    cases tok with
    | nil =>
      simp only [List.nil_append, List.cons.injEq] at htokeq
      exact absurd (htokeq.1 ▸ hb') hx'
    | cons a tok' =>
      simp only [List.cons_append, List.cons.injEq] at htokeq
      exact ⟨tok', by rw [htokeq.1]⟩
  have hline2 : line = w1 ++ (tok ++ b :: r2) := by rw [hline, htokeq]
  rcases findIdx?_cases (fun c => !blanks.contains c) (b :: r2) with
    ⟨_, hall⟩ | ⟨w2, y, r3, hw2eq, _, hw2, hy⟩
  · have hw2' : ∀ c ∈ b :: r2, c ∈ blanks := fun c hc => (not_contains_false c).1 (hall c hc)
    obtain ⟨hf, ht⟩ := token_blanks_line w1 tok x tok' htk (b :: r2) b r2 rfl hw1' htok' hw2'
    rw [← hline2] at hf ht
    refine ⟨w1, b :: r2, [], hw1', hw2', by simp, by rw [hf, ht, hline2]; simp, ?_, ?_,
      by simp [ht], by simp [ht], fun _ => ht⟩
    · rw [hf]; exact htok'
    · rw [hf]; simp [hnotall, htk]
  have hw2' : ∀ c ∈ w2, c ∈ blanks := fun c hc => (not_contains_false c).1 (hw2 c hc)
  have hy' : y ∉ blanks := (not_contains_true y).1 hy
  obtain ⟨w2', hw2e⟩ : ∃ w2', w2 = b :: w2' := by
    cases w2 with
    | nil =>
      simp only [List.nil_append, List.cons.injEq] at hw2eq
      exact absurd hb' (hw2eq.1 ▸ hy')
    | cons a w2' =>
      simp only [List.cons_append, List.cons.injEq] at hw2eq
      exact ⟨w2', by rw [hw2eq.1]⟩
  have hline3 : line = w1 ++ (tok ++ (w2 ++ y :: r3)) := by rw [hline2, hw2eq]
  rcases findIdx?_cases (fun c => !blanks.contains c) (y :: r3).reverse with
    ⟨_, hall⟩ | ⟨w3r, z, prer, hrev, _, hw3r, hz⟩
  · exact absurd ((not_contains_false y).1 (hall y (by simp))) hy'
  have hz' : z ∉ blanks := (not_contains_true z).1 hz
  have hw3 : ∀ c ∈ w3r.reverse, c ∈ blanks :=
    fun c hc => (not_contains_false c).1 (hw3r c (List.mem_reverse.1 hc))
  have hyr : y :: r3 = (prer.reverse ++ [z]) ++ w3r.reverse := by
    have := congrArg List.reverse hrev
    simpa using this
  obtain ⟨t', hty⟩ : ∃ t', prer.reverse ++ [z] = y :: t' := by
    cases hp : prer.reverse with
    | nil =>
      rw [hp] at hyr
      simp only [List.nil_append, List.singleton_append, List.cons.injEq] at hyr
      exact ⟨[], by rw [hyr.1]; rfl⟩
    | cons a l =>
      rw [hp] at hyr
      simp only [List.cons_append, List.cons.injEq] at hyr
      exact ⟨l ++ [z], by rw [hyr.1]; rfl⟩
  have hline4 : line = w1 ++ (tok ++ (w2 ++ ((prer.reverse ++ [z]) ++ w3r.reverse))) := by
    rw [hline3, hyr]
  obtain ⟨hf, ht⟩ := token_tail_line w1 tok x tok' htk w2 b w2' hw2e (prer.reverse ++ [z]) y t'
    hty prer.reverse z rfl w3r.reverse hw1' htok' hw2' hy' hz' hw3
  rw [← hline4] at hf ht
  refine ⟨w1, w2, w3r.reverse, hw1', hw2', hw3, ?_, ?_, ?_, ?_, ?_, ?_⟩
  · rw [hf, ht]
    simp only [List.append_assoc]
    rw [hline4]
    simp
  · rw [hf]; exact htok'
  · rw [hf]; simp [hnotall, htk]
  · intro c hc
    rw [ht, hty] at hc
    simp only [List.head?_cons, Option.some.injEq] at hc
    rw [← hc]
    exact hy'
  · intro c hc
    rw [ht] at hc
    simp at hc
    rw [← hc]
    exact hz'
  · intro h
    rw [hw2e] at h
    exact absurd h (List.cons_ne_nil _ _)

/-! ## What every state of `LoadFile` satisfies -/

theorem bind_ok {α β : Type} {x : Except Fault α} {f : α → Except Fault β} {b : β}
    (h : (x >>= f) = .ok b) : ∃ a, x = .ok a ∧ f a = .ok b := by
  cases x with
  | error e => simp [bind, Except.bind] at h
  | ok a => exact ⟨a, rfl, h⟩

theorem pure_ok {α : Type} {a b : α} (h : (pure a : Except Fault α) = .ok b) : a = b := by
  simpa [pure, Except.pure] using h

theorem Keeps.refl {Flt : Type} (s : ObjState Flt) : Keeps s s :=
  ⟨rfl, ⟨[], by simp⟩, rfl, rfl, rfl, rfl⟩

theorem Keeps.inv {Flt : Type} (zero : Flt) (s s' : ObjState Flt) (hk : Keeps s s')
    (h : StateInv zero s) : StateInv zero s' := by
  obtain ⟨hm, ⟨extra, hp⟩, hP, hT, hN, _⟩ := hk
  obtain ⟨⟨h1, h2⟩, h3, h4⟩ := h
  refine ⟨⟨?_, ?_⟩, ?_, ?_⟩
  · rw [hm]; exact h1
  · rw [hm, hp]
    intro hne
    have := h2 hne
    simp [this]
  · rw [hT, hP]; exact h3
  · rw [hN, hP]; exact h4

theorem positionLine_keeps {Flt : Type} (env : Env Flt) (s s' : ObjState Flt) (curline : Str)
    (h : positionLine env s curline = .ok s') : Keeps s s' := by
  unfold positionLine at h
  split_ifs at h
  · dsimp only at h
    obtain ⟨_, -, h⟩ := bind_ok h
    obtain ⟨_, -, h⟩ := bind_ok h
    obtain ⟨_, -, h⟩ := bind_ok h
    obtain ⟨_, -, h⟩ := bind_ok h
    obtain ⟨_, -, h⟩ := bind_ok h
    obtain ⟨_, -, h⟩ := bind_ok h
    rw [← pure_ok h]
    exact ⟨rfl, ⟨_, rfl⟩, rfl, rfl, rfl, rfl⟩
  · rw [← pure_ok h]; exact Keeps.refl s

theorem texcoordLine_keeps {Flt : Type} (env : Env Flt) (s s' : ObjState Flt) (curline : Str)
    (h : texcoordLine env s curline = .ok s') : Keeps s s' := by
  unfold texcoordLine at h
  split_ifs at h
  · dsimp only at h
    obtain ⟨_, -, h⟩ := bind_ok h
    obtain ⟨_, -, h⟩ := bind_ok h
    obtain ⟨_, -, h⟩ := bind_ok h
    obtain ⟨_, -, h⟩ := bind_ok h
    rw [← pure_ok h]
    exact ⟨rfl, ⟨[], by simp⟩, rfl, rfl, rfl, rfl⟩
  · rw [← pure_ok h]; exact Keeps.refl s

theorem normalLine_keeps {Flt : Type} (env : Env Flt) (s s' : ObjState Flt) (curline : Str)
    (h : normalLine env s curline = .ok s') : Keeps s s' := by
  unfold normalLine at h
  split_ifs at h
  · dsimp only at h
    obtain ⟨_, -, h⟩ := bind_ok h
    obtain ⟨_, -, h⟩ := bind_ok h
    obtain ⟨_, -, h⟩ := bind_ok h
    obtain ⟨_, -, h⟩ := bind_ok h
    obtain ⟨_, -, h⟩ := bind_ok h
    obtain ⟨_, -, h⟩ := bind_ok h
    rw [← pure_ok h]
    exact ⟨rfl, ⟨[], by simp⟩, rfl, rfl, rfl, rfl⟩
  · rw [← pure_ok h]; exact Keeps.refl s

/-- What `LoadMaterials` leaves alone: all of the loader but the materials. -/
theorem LoadMaterials_keeps {Flt : Type} (env : Env Flt) (self : Loader Flt) (path : Str)
    (r : Bool) (l : Loader Flt) (h : LoadMaterials env self path = .ok (r, l)) :
    l.LoadedMeshes = self.LoadedMeshes ∧ l.LoadedPositions = self.LoadedPositions ∧
      l.LoadedTCoords = self.LoadedTCoords ∧ l.LoadedNormals = self.LoadedNormals := by
  unfold LoadMaterials at h
  obtain ⟨ext, -, h⟩ := bind_ok h
  split_ifs at h
  · have := pure_ok h
    simp only [Prod.mk.injEq] at this
    rw [← this.2]
    exact ⟨rfl, rfl, rfl, rfl⟩
  · split at h
    · have := pure_ok h
      simp only [Prod.mk.injEq] at this
      rw [← this.2]
      exact ⟨rfl, rfl, rfl, rfl⟩
    · obtain ⟨_, -, h⟩ := bind_ok h
      have := pure_ok h
      simp only [Prod.mk.injEq] at this
      rw [← this.2]
      exact ⟨rfl, rfl, rfl, rfl⟩

theorem mtllibLine_keeps {Flt : Type} (env : Env Flt) (Path : Str) (s s' : ObjState Flt)
    (curline : Str) (h : mtllibLine env Path s curline = .ok s') : Keeps s s' := by
  unfold mtllibLine at h
  split_ifs at h
  · dsimp only at h
    obtain ⟨⟨r, l⟩, hl, h⟩ := bind_ok h
    obtain ⟨h1, h2, _, _⟩ := LoadMaterials_keeps env _ _ r l hl
    rw [← pure_ok h]
    exact ⟨h1, ⟨[], by simp [h2]⟩, rfl, rfl, rfl, rfl⟩
  · rw [← pure_ok h]; exact Keeps.refl s

theorem clearIfNegative_cases (l l' : List Vector3i) (h : clearIfNegative l = .ok l') :
    (hasNegativeRow l = .ok true ∧ l' = []) ∨ (hasNegativeRow l = .ok false ∧ l' = l) := by
  unfold clearIfNegative at h
  obtain ⟨b, hb, h⟩ := bind_ok h
  cases b with
  | true => left; exact ⟨hb, (pure_ok h).symm⟩
  | false => right; exact ⟨hb, (pure_ok h).symm⟩

/-- What the constructor of `Mesh` builds when it returns. -/
theorem Mesh.new_cases {Flt : Type} (zero : Flt) (P T N : List Vector3i) (m : Mesh Flt)
    (h : Mesh.new zero P T N = .ok m) :
    m.MeshName = [] ∧ m.PositionIndices = P ∧ m.MeshMaterial = Material.new zero ∧
      ((hasNegativeRow T = .ok true ∧ m.TextureIndices = []) ∨
        (hasNegativeRow T = .ok false ∧ m.TextureIndices = T)) ∧
      ((hasNegativeRow N = .ok true ∧ m.NormalIndices = []) ∨
        (hasNegativeRow N = .ok false ∧ m.NormalIndices = N)) := by
  unfold Mesh.new at h
  obtain ⟨t, ht, h⟩ := bind_ok h
  obtain ⟨n, hn, h⟩ := bind_ok h
  rw [← pure_ok h]
  exact ⟨rfl, rfl, rfl, clearIfNegative_cases T t ht, clearIfNegative_cases N n hn⟩

/-- Pushing the mesh built from accumulators of one length, faces and positions
being there, keeps what holds of the loader. -/
theorem push_inv {Flt : Type} (zero : Flt) (l : Loader Flt) (P T N : List Vector3i)
    (m : Mesh Flt) (name : Str) (hl : LoaderInv zero l)
    (hm : Mesh.new zero P T N = .ok m) (hP : P ≠ []) (hpos : l.LoadedPositions ≠ [])
    (hT : T.length = P.length) (hN : N.length = P.length) :
    LoaderInv zero { l with LoadedMeshes := l.LoadedMeshes ++ [{ m with MeshName := name }] } := by
  obtain ⟨_, h2, h3, h4, h5⟩ := Mesh.new_cases zero P T N m hm
  refine ⟨?_, fun _ => hpos⟩
  intro x hx
  rcases List.mem_append.1 hx with hx | hx
  · exact hl.1 x hx
  · rw [List.mem_singleton.1 hx]
    refine ⟨⟨?_, ?_, ?_⟩, h3⟩
    · simp only [h2]; exact hP
    · rcases h4 with ⟨_, e⟩ | ⟨hn, e⟩
      · left; exact e
      · right; simp only [e, h2]; exact ⟨hT, hn⟩
    · rcases h5 with ⟨_, e⟩ | ⟨hn, e⟩
      · left; exact e
      · right; simp only [e, h2]; exact ⟨hN, hn⟩

theorem guard_iff {Flt : Type} (s : ObjState Flt) :
    (!s.PositionIndices.isEmpty && !s.loader.LoadedPositions.isEmpty) = true ↔
      s.PositionIndices ≠ [] ∧ s.loader.LoadedPositions ≠ [] := by
  simp [List.isEmpty_iff]

theorem faceLine_inv {Flt : Type} (zero : Flt) (s s' : ObjState Flt) (curline : Str)
    (h : faceLine s curline = .ok s') (hs : StateInv zero s) :
    StateInv zero s' ∧ s'.MeshMatNames = s.MeshMatNames ∧
      s'.loader = s.loader := by
  unfold faceLine at h
  split_ifs at h
  · obtain ⟨r, -, h⟩ := bind_ok h
    rw [← pure_ok h]
    obtain ⟨h1, h2, h3⟩ := hs
    exact ⟨⟨h1, by simp [h2], by simp [h3]⟩, rfl, rfl⟩
  · rw [← pure_ok h]; exact ⟨hs, rfl, rfl⟩

theorem objectLine_inv {Flt : Type} (env : Env Flt) (s s' : ObjState Flt) (curline : Str)
    (h : objectLine env s curline = .ok s') (hs : StateInv env.zero s) :
    StateInv env.zero s' ∧ s'.MeshMatNames = s.MeshMatNames := by
  unfold objectLine at h
  obtain ⟨h1, h2, h3⟩ := hs
  split_ifs at h
  all_goals first
    | (rw [← pure_ok h]; exact ⟨⟨h1, h2, h3⟩, rfl⟩)
    | (obtain ⟨m, hm, h⟩ := bind_ok h
       rw [← pure_ok h]
       obtain ⟨hP, hpos⟩ := (guard_iff s).1 (by assumption)
       exact ⟨⟨push_inv env.zero s.loader _ _ _ m s.meshname h1 hm hP hpos h2 h3, rfl, rfl⟩,
         rfl⟩)

theorem usemtlNames_single (l : Str) :
    usemtlNames [l] = if firstToken l = "usemtl".toList then [tail l] else [] := by
  unfold usemtlNames
  generalize "usemtl".toList = u
  by_cases h : firstToken l = u
  · simp [h]
  · simp [h]

theorem usemtlLine_inv {Flt : Type} (env : Env Flt) (s s' : ObjState Flt) (curline : Str)
    (h : usemtlLine env s curline = .ok s') (hs : StateInv env.zero s) :
    StateInv env.zero s' ∧ s'.MeshMatNames = s.MeshMatNames ++ usemtlNames [curline] := by
  unfold usemtlLine at h
  obtain ⟨h1, h2, h3⟩ := hs
  rw [usemtlNames_single]
  by_cases hd : firstToken curline = "usemtl".toList
  · rw [if_pos hd] at h
    rw [if_pos hd]
    dsimp only at h
    split_ifs at h with hg
    · obtain ⟨m, hm, h⟩ := bind_ok h
      rw [← pure_ok h]
      obtain ⟨hP, hpos⟩ := (guard_iff s).1 hg
      exact ⟨⟨push_inv env.zero s.loader _ _ _ m (splitName s.meshname) h1 hm hP hpos h2 h3,
        rfl, rfl⟩, rfl⟩
    · rw [← pure_ok h]
      exact ⟨⟨h1, h2, h3⟩, rfl⟩
  · rw [if_neg hd] at h
    rw [if_neg hd, ← pure_ok h]
    exact ⟨⟨h1, h2, h3⟩, by simp⟩

/-- One line of the file keeps what holds of the state, and records the name of
a `usemtl` line. -/
theorem objLine_inv {Flt : Type} (env : Env Flt) (Path : Str) (s s' : ObjState Flt)
    (curline : Str) (h : objLine env Path s curline = .ok s') (hs : StateInv env.zero s) :
    StateInv env.zero s' ∧ s'.MeshMatNames = s.MeshMatNames ++ usemtlNames [curline] := by
  unfold objLine at h
  obtain ⟨s1, e1, h⟩ := bind_ok h
  obtain ⟨s2, e2, h⟩ := bind_ok h
  obtain ⟨s3, e3, h⟩ := bind_ok h
  obtain ⟨s4, e4, h⟩ := bind_ok h
  obtain ⟨s5, e5, h⟩ := bind_ok h
  obtain ⟨s6, e6, h⟩ := bind_ok h
  obtain ⟨i1, n1⟩ := objectLine_inv env s s1 curline e1 hs
  have k2 := positionLine_keeps env s1 s2 curline e2
  have k3 := texcoordLine_keeps env s2 s3 curline e3
  have k4 := normalLine_keeps env s3 s4 curline e4
  have i4 := Keeps.inv env.zero s3 s4 k4 (Keeps.inv env.zero s2 s3 k3
    (Keeps.inv env.zero s1 s2 k2 i1))
  obtain ⟨i5, n5, _⟩ := faceLine_inv env.zero s4 s5 curline e5 i4
  obtain ⟨i6, n6⟩ := usemtlLine_inv env s5 s6 curline e6 i5
  have k7 := mtllibLine_keeps env Path s6 s' curline h
  refine ⟨Keeps.inv env.zero s6 s' k7 i6, ?_⟩
  rw [k7.2.2.2.2.2, n6, n5, k4.2.2.2.2.2, k3.2.2.2.2.2, k2.2.2.2.2.2, n1]

theorem usemtlNames_append (a b : List Str) :
    usemtlNames (a ++ b) = usemtlNames a ++ usemtlNames b := by
  simp [usemtlNames]

/-- The lines of the file keep what holds of the state, and record the names of
the `usemtl` lines in their order. -/
theorem foldl_objLine_inv {Flt : Type} (env : Env Flt) (Path : Str) (lines : List Str)
    (s s' : ObjState Flt) (h : lines.foldlM (objLine env Path) s = .ok s')
    (hs : StateInv env.zero s) :
    StateInv env.zero s' ∧ s'.MeshMatNames = s.MeshMatNames ++ usemtlNames lines := by
  induction lines generalizing s with
  | nil =>
    rw [List.foldlM_nil] at h
    rw [← pure_ok h]
    exact ⟨hs, by simp [usemtlNames]⟩
  | cons a rest ih =>
    rw [List.foldlM_cons] at h
    obtain ⟨s1, e1, h⟩ := bind_ok h
    obtain ⟨i1, n1⟩ := objLine_inv env Path s s1 a e1 hs
    obtain ⟨i2, n2⟩ := ih s1 h i1
    refine ⟨i2, ?_⟩
    rw [n2, n1, List.append_assoc, ← usemtlNames_append]
    rfl

theorem start_inv {Flt : Type} (zero : Flt) (self : Loader Flt) (Path : Str) :
    StateInv zero (ObjState.start self Path) :=
  ⟨⟨by simp [ObjState.start], by simp [ObjState.start]⟩, rfl, rfl⟩

theorem lastMesh_inv {Flt : Type} (env : Env Flt) (s : ObjState Flt) (l : Loader Flt)
    (h : lastMesh env s = .ok l) (hs : StateInv env.zero s) : LoaderInv env.zero l := by
  unfold lastMesh at h
  obtain ⟨h1, h2, h3⟩ := hs
  split_ifs at h with hg
  · obtain ⟨m, hm, h⟩ := bind_ok h
    rw [← pure_ok h]
    obtain ⟨hP, hpos⟩ := (guard_iff s).1 hg
    exact push_inv env.zero s.loader _ _ _ m s.meshname h1 hm hP hpos h2 h3
  · rw [← pure_ok h]; exact h1

/-! ## The materials of the sub-meshes -/

/-- Partial loop invariant rule: where the loop returns, an invariant that
every returning iteration re-establishes holds of what it returns. -/
theorem forRange_ok_inv {σ : Type} (n : Nat) (body : Nat → σ → Except Fault σ)
    (Inv : Nat → σ → Prop) (s0 s' : σ) (h : forRange n body s0 = .ok s') (h0 : Inv 0 s0)
    (hstep : ∀ i s t, i < n → Inv i s → body i s = .ok t → Inv (i + 1) t) : Inv n s' := by
  induction n generalizing s' with
  | zero =>
    rw [forRange_zero] at h
    rw [← pure_ok h]
    exact h0
  | succ k ih =>
    rw [forRange_succ] at h
    obtain ⟨s1, e1, h⟩ := bind_ok h
    exact hstep k s1 s' (Nat.lt_succ_self k)
      (ih s1 e1 (fun i s t hi => hstep i s t (Nat.lt_succ_of_lt hi))) h

theorem vecAt_ok {α : Type} (v : List α) (i : Nat) (a : α) (h : vecAt v i = .ok a) :
    v[i]? = some a := by
  unfold vecAt at h
  rw [List.get?_eq_getElem?] at h
  cases hv : v[i]? with
  | none => rw [hv] at h; simp at h
  | some b =>
    rw [hv] at h
    simp only [Except.ok.injEq] at h
    rw [h]

/-- What the loop over the recorded names leaves when it returns: the mesh at
place `i` has the material of the `i`-th name, and nothing else has changed. -/
theorem setMaterials_spec {Flt : Type} (names : List Str) (l l' : Loader Flt)
    (h : setMaterials names l = .ok l') :
    l'.LoadedMaterials = l.LoadedMaterials ∧ l'.LoadedPositions = l.LoadedPositions ∧
      l'.LoadedTCoords = l.LoadedTCoords ∧ l'.LoadedNormals = l.LoadedNormals ∧
      ∀ i, l'.LoadedMeshes[i]? =
        (l.LoadedMeshes[i]?).map (withRecorded l.LoadedMaterials names i) := by
  have key := forRange_ok_inv names.length _
    (fun k (t : Loader Flt) => t.LoadedMaterials = l.LoadedMaterials ∧
      t.LoadedPositions = l.LoadedPositions ∧ t.LoadedTCoords = l.LoadedTCoords ∧
      t.LoadedNormals = l.LoadedNormals ∧
      ∀ i, t.LoadedMeshes[i]? =
        (l.LoadedMeshes[i]?).map
          (fun m => if i < k then withRecorded l.LoadedMaterials names i m else m))
    l l' h ⟨rfl, rfl, rfl, rfl, fun i => by simp⟩ ?_
  · obtain ⟨k1, k2, k3, k4, k5⟩ := key
    refine ⟨k1, k2, k3, k4, fun i => ?_⟩
    rw [k5 i]
    by_cases hi : i < names.length
    · simp [hi]
    · have hn : names[i]? = none := List.getElem?_eq_none (by omega)
      cases l.LoadedMeshes[i]? with
      | none => rfl
      | some m => simp [hi, withRecorded, hn]
  · intro k s t hk ⟨i1, i2, i3, i4, i5⟩ hb
    obtain ⟨matname, hm, hb⟩ := bind_ok hb
    have hname := vecAt_ok _ _ _ hm
    rw [i1] at hb
    cases hf : findMaterial l.LoadedMaterials matname with
    | none =>
      rw [hf] at hb
      rw [← pure_ok hb]
      refine ⟨i1, i2, i3, i4, fun i => ?_⟩
      rw [i5 i]
      cases l.LoadedMeshes[i]? with
      | none => rfl
      | some m =>
        simp only [Option.map_some', Option.some.injEq]
        by_cases h1 : i < k
        · rw [if_pos h1, if_pos (by omega)]
        · rw [if_neg h1]
          by_cases h2 : i = k
          · rw [if_pos (by omega), h2]
            simp [withRecorded, hname, hf]
          · rw [if_neg (by omega)]
    | some mat =>
      rw [hf] at hb
      obtain ⟨mesh, hmesh, hb⟩ := bind_ok hb
      have hmesh' := vecAt_ok _ _ _ hmesh
      rw [← pure_ok hb]
      refine ⟨rfl, i2, i3, i4, fun i => ?_⟩
      by_cases h2 : i = k
      · subst h2
        have hlt : i < s.LoadedMeshes.length := by
          by_contra hc
          rw [List.getElem?_eq_none (by omega)] at hmesh'
          exact Option.noConfusion hmesh'
        have h5 := i5 i
        rw [hmesh'] at h5
        simp only [List.getElem?_set_self hlt]
        cases hl : l.LoadedMeshes[i]? with
        | none => rw [hl] at h5; simp at h5
        | some m =>
          rw [hl] at h5
          simp only [Option.map_some', Option.some.injEq, Nat.lt_irrefl, if_false] at h5
          simp only [Option.map_some', Option.some.injEq, Nat.lt_succ_self, if_true]
          rw [h5]
          simp [withRecorded, hname, hf]
      · have h2' : k ≠ i := fun e => h2 e.symm
        simp only [List.getElem?_set_ne h2']
        rw [i5 i]
        cases l.LoadedMeshes[i]? with
        | none => rfl
        | some m =>
          simp only [Option.map_some', Option.some.injEq]
          by_cases h1 : i < k
          · rw [if_pos h1, if_pos (by omega)]
          · rw [if_neg h1, if_neg (by omega)]

theorem setMaterials_length {Flt : Type} (names : List Str) (l l' : Loader Flt)
    (h : setMaterials names l = .ok l') : l'.LoadedMeshes.length = l.LoadedMeshes.length := by
  obtain ⟨_, _, _, _, h5⟩ := setMaterials_spec names l l' h
  by_contra hne
  rcases Nat.lt_or_gt_of_ne hne with hlt | hgt
  · have := h5 l'.LoadedMeshes.length
    rw [List.getElem?_eq_none (Nat.le_refl _), List.getElem?_eq_getElem hlt] at this
    simp at this
  · have := h5 l.LoadedMeshes.length
    rw [List.getElem?_eq_none (Nat.le_refl _), List.getElem?_eq_getElem hgt] at this
    simp at this

/-! ## The sub-meshes `LoadFile` leaves -/

theorem withRecorded_fields {Flt : Type} (materials : List (Material Flt)) (names : List Str)
    (i : Nat) (m : Mesh Flt) :
    (withRecorded materials names i m).MeshName = m.MeshName ∧
      (withRecorded materials names i m).PositionIndices = m.PositionIndices ∧
      (withRecorded materials names i m).TextureIndices = m.TextureIndices ∧
      (withRecorded materials names i m).NormalIndices = m.NormalIndices := by
  unfold withRecorded
  split
  · split <;> exact ⟨rfl, rfl, rfl, rfl⟩
  · exact ⟨rfl, rfl, rfl, rfl⟩

/-- The three stages of `LoadFile` on the lines of the opened file, with what
holds between them. -/
theorem loadLines_parts {Flt : Type} (env : Env Flt) (self : Loader Flt) (Path : Str)
    (lines : List Str) (r : Bool) (l : Loader Flt) (pr : List Str)
    (h : loadLines env self Path lines = .ok (r, l, pr)) :
    ∃ (s : ObjState Flt) (l0 : Loader Flt),
      lines.foldlM (objLine env Path) (ObjState.start self Path) = .ok s ∧
      lastMesh env s = .ok l0 ∧ setMaterials (usemtlNames lines) l0 = .ok l ∧
      StateInv env.zero s ∧ LoaderInv env.zero l0 := by
  unfold loadLines at h
  obtain ⟨s, e1, h⟩ := bind_ok h
  obtain ⟨l0, e2, h⟩ := bind_ok h
  obtain ⟨l1, e3, h⟩ := bind_ok h
  have h' := pure_ok h
  simp only [Prod.mk.injEq] at h'
  obtain ⟨i1, n1⟩ := foldl_objLine_inv env Path lines _ s e1 (start_inv env.zero self Path)
  have n1' : s.MeshMatNames = usemtlNames lines := by
    rw [n1]; simp [ObjState.start]
  rw [n1', h'.2.1] at e3
  exact ⟨s, l0, e1, e2, e3, i1, lastMesh_inv env s l0 e2 i1⟩

/-- Every sub-mesh `LoadFile` leaves is one of those pushed, with its material
set or not, and with a sub-mesh there is a position. -/
theorem loadLines_meshes {Flt : Type} (env : Env Flt) (self : Loader Flt) (Path : Str)
    (lines : List Str) (r : Bool) (l : Loader Flt) (pr : List Str)
    (h : loadLines env self Path lines = .ok (r, l, pr)) :
    (∀ m ∈ l.LoadedMeshes, FacesShape m) ∧ (l.LoadedMeshes ≠ [] → l.LoadedPositions ≠ []) := by
  obtain ⟨s, l0, _, _, e3, _, i0⟩ := loadLines_parts env self Path lines r l pr h
  obtain ⟨_, hpos, _, _, hm⟩ := setMaterials_spec _ l0 l e3
  have hlen := setMaterials_length _ l0 l e3
  constructor
  · intro m hmem
    obtain ⟨i, hi, hget⟩ := List.getElem_of_mem hmem
    have := hm i
    rw [List.getElem?_eq_getElem hi, hget] at this
    cases h0 : l0.LoadedMeshes[i]? with
    | none => rw [h0] at this; simp at this
    | some m0 =>
      rw [h0] at this
      simp only [Option.map_some', Option.some.injEq] at this
      have hmem0 : m0 ∈ l0.LoadedMeshes := (List.mem_iff_getElem?.2 ⟨i, h0⟩)
      obtain ⟨_, f2, f3, f4⟩ := withRecorded_fields l0.LoadedMaterials (usemtlNames lines) i m0
      obtain ⟨s1, s2, s3⟩ := (i0.1 m0 hmem0).1
      rw [this]
      unfold FacesShape
      rw [f2, f3, f4]
      exact ⟨s1, s2, s3⟩
  · intro hne
    rw [hpos]
    apply i0.2
    intro he
    rw [he] at hlen
    exact hne (List.length_eq_zero.1 hlen)

theorem positionLine_skip {Flt : Type} (env : Env Flt) (s : ObjState Flt) (l : Str)
    (h : firstToken l ≠ ['v']) : positionLine env s l = .ok s := by
  unfold positionLine; rw [if_neg h]; rfl

theorem texcoordLine_skip {Flt : Type} (env : Env Flt) (s : ObjState Flt) (l : Str)
    (h : firstToken l ≠ ['v', 't']) : texcoordLine env s l = .ok s := by
  unfold texcoordLine; rw [if_neg h]; rfl

theorem normalLine_skip {Flt : Type} (env : Env Flt) (s : ObjState Flt) (l : Str)
    (h : firstToken l ≠ ['v', 'n']) : normalLine env s l = .ok s := by
  unfold normalLine; rw [if_neg h]; rfl

theorem faceLine_skip {Flt : Type} (s : ObjState Flt) (l : Str)
    (h : firstToken l ≠ ['f']) : faceLine s l = .ok s := by
  unfold faceLine; rw [if_neg h]; rfl

theorem usemtlLine_skip {Flt : Type} (env : Env Flt) (s : ObjState Flt) (l : Str)
    (h : firstToken l ≠ "usemtl".toList) : usemtlLine env s l = .ok s := by
  unfold usemtlLine; rw [if_neg h]; rfl

theorem mtllibLine_skip {Flt : Type} (env : Env Flt) (Path : Str) (s : ObjState Flt) (l : Str)
    (h : firstToken l ≠ "mtllib".toList) : mtllibLine env Path s l = .ok s := by
  unfold mtllibLine; rw [if_neg h]; rfl

/-- A line whose first character is `g` has a first token that starts with
`g`. -/
theorem head_g_token (line : Str) (h : line.head? = some 'g') :
    ∃ tl, firstToken line = 'g' :: tl := by
  cases line with
  | nil => simp at h
  | cons x rest =>
    simp only [List.head?_cons, Option.some.injEq] at h
    subst h
    exact firstToken_head 'g' rest (by decide)

theorem objectLine_skip {Flt : Type} (env : Env Flt) (s : ObjState Flt) (l : Str) (tok : Str)
    (h : firstToken l = tok) (ho : tok ≠ ['o']) (hg : tok.head? ≠ some 'g') :
    objectLine env s l = .ok s := by
  have h1 : ¬ (isObjectOrGroup l = true ∨ l.head? = some 'g') := by
    rintro (h1 | h1)
    · simp only [isObjectOrGroup, Bool.or_eq_true, decide_eq_true_eq] at h1
      rcases h1 with h1 | h1
      · exact ho (h ▸ h1)
      · rw [h] at h1; rw [h1] at hg; simp at hg
    · obtain ⟨tl, htl⟩ := head_g_token l h1
      rw [h] at htl; rw [htl] at hg; simp at hg
  unfold objectLine; rw [if_neg h1]; rfl

/-- An `o` or `g` line is dealt with by the object branch alone. -/
theorem objLine_object {Flt : Type} (env : Env Flt) (Path : Str) (s : ObjState Flt) (d : Str)
    (hd : firstToken d = ['o'] ∨ firstToken d = ['g']) :
    objLine env Path s d = objectLine env s d := by
  have e2 : ∀ t, positionLine env t d = .ok t := fun t =>
    positionLine_skip env t d (by rcases hd with h | h <;> rw [h] <;> decide)
  have e3 : ∀ t, texcoordLine env t d = .ok t := fun t =>
    texcoordLine_skip env t d (by rcases hd with h | h <;> rw [h] <;> decide)
  have e4 : ∀ t, normalLine env t d = .ok t := fun t =>
    normalLine_skip env t d (by rcases hd with h | h <;> rw [h] <;> decide)
  have e5 : ∀ t : ObjState Flt, faceLine t d = .ok t := fun t =>
    faceLine_skip t d (by rcases hd with h | h <;> rw [h] <;> decide)
  have e6 : ∀ t, usemtlLine env t d = .ok t := fun t =>
    usemtlLine_skip env t d (by rcases hd with h | h <;> rw [h] <;> decide)
  have e7 : ∀ t, mtllibLine env Path t d = .ok t := fun t =>
    mtllibLine_skip env Path t d (by rcases hd with h | h <;> rw [h] <;> decide)
  unfold objLine
  cases objectLine env s d with
  | error e => rfl
  | ok s1 => simp only [bind, Except.bind, e2, e3, e4, e5, e6, e7]

/-- A `usemtl` line is dealt with by the material branch alone. -/
theorem objLine_usemtl {Flt : Type} (env : Env Flt) (Path : Str) (s : ObjState Flt) (d : Str)
    (hd : firstToken d = "usemtl".toList) :
    objLine env Path s d = usemtlLine env s d := by
  have e1 : objectLine env s d = .ok s :=
    objectLine_skip env s d _ hd (by decide) (by decide)
  have e2 : positionLine env s d = .ok s := positionLine_skip env s d (by rw [hd]; decide)
  have e3 : texcoordLine env s d = .ok s := texcoordLine_skip env s d (by rw [hd]; decide)
  have e4 : normalLine env s d = .ok s := normalLine_skip env s d (by rw [hd]; decide)
  have e5 : faceLine s d = .ok s := faceLine_skip s d (by rw [hd]; decide)
  have e7 : ∀ t, mtllibLine env Path t d = .ok t := fun t =>
    mtllibLine_skip env Path t d (by rw [hd]; decide)
  unfold objLine
  simp only [bind, Except.bind, e1, e2, e3, e4, e5]
  cases usemtlLine env s d with
  | error e => rfl
  | ok s1 => simp only [e7]

theorem objectLine_effect {Flt : Type} (env : Env Flt) (s s' : ObjState Flt) (d : Str)
    (h : objectLine env s d = .ok s') :
    (s'.loader = s.loader ∧ s'.PositionIndices = s.PositionIndices) ∨
    ((!s.PositionIndices.isEmpty && !s.loader.LoadedPositions.isEmpty) = true ∧
      s'.loader.LoadedMeshes.length = s.loader.LoadedMeshes.length + 1 ∧
      s'.PositionIndices = []) := by
  unfold objectLine at h
  split_ifs at h
  all_goals first
    | (rw [← pure_ok h]; exact Or.inl ⟨rfl, rfl⟩)
    | (obtain ⟨m, hm, h⟩ := bind_ok h
       rw [← pure_ok h]
       exact Or.inr ⟨by assumption, by simp, rfl⟩)

theorem usemtlLine_effect {Flt : Type} (env : Env Flt) (s s' : ObjState Flt) (d : Str)
    (h : usemtlLine env s d = .ok s') :
    (s'.loader = s.loader ∧ s'.PositionIndices = s.PositionIndices) ∨
    ((!s.PositionIndices.isEmpty && !s.loader.LoadedPositions.isEmpty) = true ∧
      s'.loader.LoadedMeshes.length = s.loader.LoadedMeshes.length + 1 ∧
      s'.PositionIndices = []) := by
  unfold usemtlLine at h
  by_cases hd : firstToken d = "usemtl".toList
  · rw [if_pos hd] at h
    dsimp only at h
    split_ifs at h with hg
    · obtain ⟨m, hm, h⟩ := bind_ok h
      rw [← pure_ok h]
      exact Or.inr ⟨hg, by simp, rfl⟩
    · rw [← pure_ok h]; exact Or.inl ⟨rfl, rfl⟩
  · rw [if_neg hd] at h
    rw [← pure_ok h]; exact Or.inl ⟨rfl, rfl⟩

theorem lastMesh_length {Flt : Type} (env : Env Flt) (s : ObjState Flt) (l : Loader Flt)
    (h : lastMesh env s = .ok l) :
    l.LoadedMeshes.length = s.loader.LoadedMeshes.length +
      (if (!s.PositionIndices.isEmpty && !s.loader.LoadedPositions.isEmpty) = true then 1
       else 0) := by
  unfold lastMesh at h
  split_ifs at h with hg
  · obtain ⟨m, hm, h⟩ := bind_ok h
    rw [← pure_ok h, if_pos hg]
    simp
  · rw [← pure_ok h, if_neg hg]
    rfl

/-- A directive at the end of the file leaves as many sub-meshes as there are
without it: either it pushes nothing and leaves the faces under way to the end
of the file, or it pushes them and the end of the file does not. -/
theorem directive_then_lastMesh {Flt : Type} (env : Env Flt) (Path : Str)
    (s s' : ObjState Flt) (d : Str) (l l' : Loader Flt)
    (hd : firstToken d = ['o'] ∨ firstToken d = ['g'] ∨ firstToken d = "usemtl".toList)
    (h1 : objLine env Path s d = .ok s') (h2 : lastMesh env s' = .ok l')
    (h3 : lastMesh env s = .ok l) : l'.LoadedMeshes.length = l.LoadedMeshes.length := by
  have heff : (s'.loader = s.loader ∧ s'.PositionIndices = s.PositionIndices) ∨
      ((!s.PositionIndices.isEmpty && !s.loader.LoadedPositions.isEmpty) = true ∧
        s'.loader.LoadedMeshes.length = s.loader.LoadedMeshes.length + 1 ∧
        s'.PositionIndices = []) := by
    rcases hd with hd | hd | hd
    · rw [objLine_object env Path s d (Or.inl hd)] at h1
      exact objectLine_effect env s s' d h1
    · rw [objLine_object env Path s d (Or.inr hd)] at h1
      exact objectLine_effect env s s' d h1
    · rw [objLine_usemtl env Path s d hd] at h1
      exact usemtlLine_effect env s s' d h1
  rw [lastMesh_length env s' l' h2, lastMesh_length env s l h3]
  rcases heff with ⟨e1, e2⟩ | ⟨e1, e3, e4⟩
  · rw [e1, e2]
  · rw [e3, e4, if_pos e1]
    simp

/-- C11: every sub-mesh `LoadFile` leaves on the lines of an opened file has at
least one face, and where it leaves a sub-mesh at least one position has been
loaded (positions are only appended, and the loader holds between any two
lines: so it was at every push); hence a final `o`, `g` or `usemtl` line, with
no face after it, adds no sub-mesh: the file with the line leaves as many
sub-meshes as the file without it. -/
theorem LoadFile_no_empty_submesh {Flt : Type} (env : Env Flt) (self : Loader Flt)
    (Path : Str) (lines : List Str) (r : Bool) (l : Loader Flt) (pr : List Str)
    (h : loadLines env self Path lines = .ok (r, l, pr)) :
    (∀ m ∈ l.LoadedMeshes, m.PositionIndices ≠ [] ∧ m.GetTriangleIndices.1 ≠ []) ∧
    (l.LoadedMeshes ≠ [] → l.LoadedPositions ≠ []) ∧
    ∀ (d : Str) (r' : Bool) (l' : Loader Flt) (pr' : List Str),
      firstToken d = ['o'] ∨ firstToken d = ['g'] ∨ firstToken d = "usemtl".toList →
      loadLines env self Path (lines ++ [d]) = .ok (r', l', pr') →
      l'.LoadedMeshes.length = l.LoadedMeshes.length := by
  obtain ⟨hshape, hpos⟩ := loadLines_meshes env self Path lines r l pr h
  refine ⟨fun m hm => ⟨(hshape m hm).1, (hshape m hm).1⟩, hpos, ?_⟩
  intro d r' l' pr' hd h'
  obtain ⟨s, l0, e1, e2, e3, _, _⟩ := loadLines_parts env self Path lines r l pr h
  obtain ⟨s', l0', e1', e2', e3', _, _⟩ :=
    loadLines_parts env self Path (lines ++ [d]) r' l' pr' h'
  rw [List.foldlM_append, e1] at e1'
  have estep : objLine env Path s d = .ok s' := by
    obtain ⟨t, ht, e⟩ := bind_ok e1'
    rw [← pure_ok ht] at e
    rw [List.foldlM_cons] at e
    obtain ⟨u, hu, e⟩ := bind_ok e
    rw [List.foldlM_nil] at e
    rw [← pure_ok e]
    exact hu
  rw [setMaterials_length _ l0' l' e3', setMaterials_length _ l0 l e3]
  exact directive_then_lastMesh env Path s s' d l0 l0' hd estep e2' e2

theorem LoadFile_no_empty_submesh_witness :
    loadLines (exampleEnv []) Loader.new "mesh.obj".toList
        ["v 0 0 0".toList, "o A".toList, "f 1 1 1".toList] =
      .ok (true, oneTriangleLoaded, []) ∧
    ((∀ m ∈ oneTriangleLoaded.LoadedMeshes,
        m.PositionIndices ≠ [] ∧ m.GetTriangleIndices.1 ≠ []) ∧
      (oneTriangleLoaded.LoadedMeshes ≠ [] → oneTriangleLoaded.LoadedPositions ≠ []) ∧
      ∀ (d : Str) (r' : Bool) (l' : Loader Int) (pr' : List Str),
        firstToken d = ['o'] ∨ firstToken d = ['g'] ∨ firstToken d = "usemtl".toList →
        loadLines (exampleEnv []) Loader.new "mesh.obj".toList
            (["v 0 0 0".toList, "o A".toList, "f 1 1 1".toList] ++ [d]) = .ok (r', l', pr') →
        l'.LoadedMeshes.length = oneTriangleLoaded.LoadedMeshes.length) :=
  ⟨by decide, LoadFile_no_empty_submesh (exampleEnv []) Loader.new "mesh.obj".toList
    ["v 0 0 0".toList, "o A".toList, "f 1 1 1".toList] true oneTriangleLoaded [] (by decide)⟩

/-- On a path that ends in `.obj` and opens, `LoadFile` is the parse of the
lines of the file. -/
theorem LoadFile_opened {Flt : Type} (env : Env Flt) (self : Loader Flt) (Path : Str)
    (lines : List Str) (hext : lastFour Path = .ok ".obj".toList)
    (hread : env.readLines Path = some lines) :
    LoadFile env self Path = loadLines env self Path lines := by
  simp only [LoadFile, hext, bind, Except.bind, ne_eq, not_true_eq_false, if_false, hread]

/-! ## The triangle-index view -/

theorem anyNegative_false (v : Vector3i) (h : anyNegative v = .ok false) :
    ∃ a b c : Int, v = ⟨some a, some b, some c⟩ ∧ 0 ≤ a ∧ 0 ≤ b ∧ 0 ≤ c := by
  obtain ⟨c0, c1, c2⟩ := v
  unfold anyNegative at h
  cases c0 with
  | none => simp at h
  | some a =>
    by_cases ha : a < 0
    · simp [ha] at h
    · cases c1 with
      | none => simp [ha] at h
      | some b =>
        by_cases hb : b < 0
        · simp [ha, hb] at h
        · cases c2 with
          | none => simp [ha, hb] at h
          | some c =>
            simp only [ha, hb, if_false, Except.ok.injEq, decide_eq_false_iff_not] at h
            exact ⟨a, b, c, rfl, by omega, by omega, by omega⟩

theorem hasNegativeRow_false (rows : List Vector3i) (h : hasNegativeRow rows = .ok false) :
    AllWrittenNonneg rows := by
  induction rows with
  | nil => intro row hrow; simp at hrow
  | cons v rest ih =>
    unfold hasNegativeRow at h
    obtain ⟨b, hb, h⟩ := bind_ok h
    cases b with
    | true => have := pure_ok h; simp at this
    | false =>
      simp only [Bool.false_eq_true, if_false] at h
      intro row hrow
      rcases List.mem_cons.1 hrow with rfl | hrow
      · exact anyNegative_false _ hb
      · exact ih h row hrow

/-- C15, the code at an input of the claim: a face written without texcoord
and normal indices gives a sub-mesh whose `F` has one row and whose `FTC` and
`FN` have none; with a second face that has a texcoord index, `F` has two rows
and `FTC` still none. -/
theorem triangle_index_view_rows_differ :
    (LoadFile (exampleEnv ["v 0 0 0".toList, "f 1 1 1".toList]) Loader.new
        "mesh.obj".toList).toOption.map
      (fun r => r.2.1.LoadedMeshes.map (fun m =>
        (m.GetTriangleIndices.1.length, m.GetTriangleIndices.2.1.length,
          m.GetTriangleIndices.2.2.length))) = some [(1, 0, 0)] ∧
    (LoadFile (exampleEnv ["v 0 0 0".toList, "vt 0 0".toList, "f 1/1 1/1 1/1".toList,
        "f 1 1 1".toList]) Loader.new "mesh.obj".toList).toOption.map
      (fun r => r.2.1.LoadedMeshes.map (fun m =>
        (m.GetTriangleIndices.1.length, m.GetTriangleIndices.2.1.length,
          m.GetTriangleIndices.2.2.length))) = some [(2, 0, 0)] :=
  ⟨by decide, by decide⟩

/-- C15, amended: for every sub-mesh `LoadFile` leaves, `GetTriangleIndices`
returns the three index lists of the sub-mesh as they are, row `i` of each
being entry `i` of the list; `F` has a row per face, at least one; `FTC` has
either no row at all (the constructor clears the texcoord indices of a sub-mesh
as soon as one of them is negative, which the index of a face written without
texcoord is) or a row per face with no negative entry; and so has `FN`. -/
theorem GetTriangleIndices_rows {Flt : Type} (env : Env Flt) (self : Loader Flt)
    (Path : Str) (lines : List Str) (r : Bool) (l : Loader Flt) (pr : List Str)
    (mesh : Mesh Flt) (h : loadLines env self Path lines = .ok (r, l, pr))
    (hm : mesh ∈ l.LoadedMeshes) :
    mesh.GetTriangleIndices =
      (mesh.PositionIndices, mesh.TextureIndices, mesh.NormalIndices) ∧
    mesh.GetTriangleIndices.1 ≠ [] ∧
    (mesh.GetTriangleIndices.2.1 = [] ∨
      (mesh.GetTriangleIndices.2.1.length = mesh.GetTriangleIndices.1.length ∧
        AllWrittenNonneg mesh.GetTriangleIndices.2.1)) ∧
    (mesh.GetTriangleIndices.2.2 = [] ∨
      (mesh.GetTriangleIndices.2.2.length = mesh.GetTriangleIndices.1.length ∧
        AllWrittenNonneg mesh.GetTriangleIndices.2.2)) := by
  obtain ⟨s1, s2, s3⟩ := (loadLines_meshes env self Path lines r l pr h).1 mesh hm
  refine ⟨rfl, s1, ?_, ?_⟩
  · rcases s2 with e | ⟨e1, e2⟩
    · exact Or.inl e
    · exact Or.inr ⟨e1, hasNegativeRow_false _ e2⟩
  · rcases s3 with e | ⟨e1, e2⟩
    · exact Or.inl e
    · exact Or.inr ⟨e1, hasNegativeRow_false _ e2⟩

theorem GetTriangleIndices_rows_witness :
    (loadLines (exampleEnv []) Loader.new "mesh.obj".toList
        ["v 0 0 0".toList, "vt 0 0".toList, "f 1/1 1/1 1/1".toList] =
      .ok (true, texturedLoaded, []) ∧ texturedMesh ∈ texturedLoaded.LoadedMeshes) ∧
    (texturedMesh.GetTriangleIndices =
        (texturedMesh.PositionIndices, texturedMesh.TextureIndices,
          texturedMesh.NormalIndices) ∧
      texturedMesh.GetTriangleIndices.1 ≠ [] ∧
      (texturedMesh.GetTriangleIndices.2.1 = [] ∨
        (texturedMesh.GetTriangleIndices.2.1.length = texturedMesh.GetTriangleIndices.1.length ∧
          AllWrittenNonneg texturedMesh.GetTriangleIndices.2.1)) ∧
      (texturedMesh.GetTriangleIndices.2.2 = [] ∨
        (texturedMesh.GetTriangleIndices.2.2.length = texturedMesh.GetTriangleIndices.1.length ∧
          AllWrittenNonneg texturedMesh.GetTriangleIndices.2.2))) :=
  ⟨⟨by decide, by decide⟩,
    GetTriangleIndices_rows (exampleEnv []) Loader.new "mesh.obj".toList
      ["v 0 0 0".toList, "vt 0 0".toList, "f 1/1 1/1 1/1".toList] true texturedLoaded []
      texturedMesh (by decide) (by decide)⟩

/-! ## Which sub-mesh gets which material -/

/-- C14, the code at a failing input: object `A` is read with no `usemtl` in
effect and object `B` under `usemtl M`, the material file defining `M`; the
sub-mesh `A` carries the material `M` and the sub-mesh `B` keeps the unset
material: the one recorded name is at place 0 of `MeshMatNames` and the
sub-mesh it was recorded for at place 1 of `LoadedMeshes`. -/
theorem material_goes_to_other_submesh :
    LoadFile (twoFileEnv twoObjectsLines ["newmtl M".toList, "Ns 5".toList]) Loader.new
        "mesh.obj".toList = .ok (true, twoObjectsLoaded, []) ∧
    twoObjectsLoaded.LoadedMeshes.map (fun m => (m.MeshName, m.MeshMaterial.name)) =
      [("A".toList, "M".toList), ("B".toList, [])] :=
  ⟨by decide, by decide⟩

/-- What the material pass of lines 576-590 leaves: the sub-mesh at place `i`
of `LoadedMeshes` has the first material of the collection with the name the
`i`-th `usemtl` line of the file gives, and the unset material when the file
has no `i`-th `usemtl` line or no material has that name. Names and sub-meshes
are paired by their places, which agree only when every sub-mesh has exactly
one `usemtl` line. -/
theorem material_follows_recorded_order {Flt : Type} (env : Env Flt) (self : Loader Flt)
    (Path : Str) (lines : List Str) (r : Bool) (l : Loader Flt) (pr : List Str)
    (i : Nat) (mesh : Mesh Flt) (h : loadLines env self Path lines = .ok (r, l, pr))
    (hm : l.LoadedMeshes[i]? = some mesh) :
    mesh.MeshMaterial =
      match (usemtlNames lines)[i]? with
      | some X => (findMaterial l.LoadedMaterials X).getD (Material.new env.zero)
      | none => Material.new env.zero := by
  obtain ⟨s, l0, _, _, e3, _, i0⟩ := loadLines_parts env self Path lines r l pr h
  obtain ⟨hmat, _, _, _, hmesh⟩ := setMaterials_spec _ l0 l e3
  have := hmesh i
  rw [hm] at this
  cases h0 : l0.LoadedMeshes[i]? with
  | none => rw [h0] at this; simp at this
  | some m0 =>
    rw [h0] at this
    simp only [Option.map_some', Option.some.injEq] at this
    have hd : m0.MeshMaterial = Material.new env.zero :=
      (i0.1 m0 (List.mem_iff_getElem?.2 ⟨i, h0⟩)).2
    rw [this, hmat]
    unfold withRecorded
    split
    · cases hf : findMaterial l0.LoadedMaterials _ with
      | some mat => rfl
      | none => exact hd
    · exact hd

theorem material_follows_recorded_order_witness :
    (loadLines (twoFileEnv twoObjectsLines ["newmtl M".toList, "Ns 5".toList]) Loader.new
        "mesh.obj".toList twoObjectsLines = .ok (true, twoObjectsLoaded, []) ∧
      twoObjectsLoaded.LoadedMeshes[0]? =
        some { MeshName := "A".toList, PositionIndices := [⟨some 0, some 0, some 0⟩],
               TextureIndices := [], NormalIndices := [], MeshMaterial := materialM }) ∧
    materialM =
      match (usemtlNames twoObjectsLines)[0]? with
      | some X => (findMaterial twoObjectsLoaded.LoadedMaterials X).getD (Material.new 0)
      | none => Material.new 0 :=
  ⟨⟨by decide, by decide⟩,
    material_follows_recorded_order
      (twoFileEnv twoObjectsLines ["newmtl M".toList, "Ns 5".toList]) Loader.new
      "mesh.obj".toList twoObjectsLines true twoObjectsLoaded [] 0
      { MeshName := "A".toList, PositionIndices := [⟨some 0, some 0, some 0⟩],
        TextureIndices := [], NormalIndices := [], MeshMaterial := materialM }
      (by decide) (by decide)⟩

/-! ## A material switch inside an object -/

theorem FaceLine.good_spec (f : FaceLine) (h : f.good = true) :
    f.a.wellFormed = true ∧ f.b.wellFormed = true ∧ f.c.wellFormed = true ∧
      firstToken f.line = ['f'] ∧ split (tail f.line) [' '] = [f.a.text, f.b.text, f.c.text] := by
  simp only [FaceLine.good, Bool.and_eq_true, decide_eq_true_eq] at h
  exact ⟨h.1.1.1.1, h.1.1.1.2, h.1.1.2, h.1.2, h.2⟩

/-- Face lines append their indices to the accumulators, one row each. -/
theorem faces_fold {Flt : Type} (env : Env Flt) (Path : Str) (faces : List FaceLine)
    (hg : ∀ f ∈ faces, f.good = true) (s : ObjState Flt) :
    (faces.map (fun f => f.line)).foldlM (objLine env Path) s =
      .ok { s with PositionIndices := s.PositionIndices ++ faces.map FaceLine.positions,
                   TextureIndices := s.TextureIndices ++ faces.map FaceLine.texcoords,
                   NormalIndices := s.NormalIndices ++ faces.map FaceLine.normals } := by
  induction faces generalizing s with
  | nil => simp [pure, Except.pure]
  | cons f rest ih =>
    obtain ⟨ha, hb, hc, hft, hsp⟩ := f.good_spec (hg f (List.mem_cons_self _ _))
    rw [List.map_cons, List.foldlM_cons, objLine_face env Path s f.line f.a f.b f.c ha hb hc
      hft hsp]
    simp only [bind, Except.bind]
    rw [ih (fun g hgm => hg g (List.mem_cons_of_mem _ hgm))]
    simp [FaceLine.positions, FaceLine.texcoords, FaceLine.normals]

theorem hasNegativeRow_written (rows : List Vector3i) (h : AllWritten rows) :
    ∃ b, hasNegativeRow rows = .ok b := by
  induction rows with
  | nil => exact ⟨false, rfl⟩
  | cons v rest ih =>
    obtain ⟨a, b, c, rfl⟩ := h v (List.mem_cons_self _ _)
    obtain ⟨r, hr⟩ := ih (fun row hrow => h row (List.mem_cons_of_mem _ hrow))
    unfold hasNegativeRow
    simp only [anyNegative, bind, Except.bind, pure, Except.pure]
    by_cases ha : a < 0
    · exact ⟨true, by simp [ha]⟩
    · by_cases hb : b < 0
      · exact ⟨true, by simp [ha, hb]⟩
      · by_cases hc : c < 0
        · exact ⟨true, by simp [ha, hb, hc]⟩
        · exact ⟨r, by simp [ha, hb, hc, hr]⟩

/-- On index lists that are written throughout the constructor of `Mesh`
returns, with the position indices as given. -/
theorem Mesh.new_written {Flt : Type} (zero : Flt) (P T N : List Vector3i)
    (hT : AllWritten T) (hN : AllWritten N) :
    ∃ m : Mesh Flt, Mesh.new zero P T N = .ok m ∧ m.MeshName = [] ∧ m.PositionIndices = P ∧
      m.MeshMaterial = Material.new zero := by
  obtain ⟨bt, ht⟩ := hasNegativeRow_written T hT
  obtain ⟨bn, hn⟩ := hasNegativeRow_written N hN
  refine ⟨{ MeshName := [], PositionIndices := P, TextureIndices := if bt then [] else T,
            NormalIndices := if bn then [] else N, MeshMaterial := Material.new zero },
    ?_, rfl, rfl, rfl⟩
  simp only [Mesh.new, clearIfNegative, ht, hn, bind, Except.bind, pure, Except.pure]
  cases bt <;> cases bn <;> rfl

theorem allWritten_texcoords (faces : List FaceLine) :
    AllWritten (faces.map FaceLine.texcoords) := by
  intro row hrow
  obtain ⟨f, _, rfl⟩ := List.mem_map.1 hrow
  exact ⟨_, _, _, rfl⟩

theorem allWritten_normals (faces : List FaceLine) :
    AllWritten (faces.map FaceLine.normals) := by
  intro row hrow
  obtain ⟨f, _, rfl⟩ := List.mem_map.1 hrow
  exact ⟨_, _, _, rfl⟩

/-- With no more names than sub-meshes the loop over the recorded names
returns. -/
theorem setMaterials_total {Flt : Type} (names : List Str) (l : Loader Flt)
    (h : names.length ≤ l.LoadedMeshes.length) : ∃ l', setMaterials names l = .ok l' := by
  have key := forRange_inv names.length
    (fun i (self : Loader Flt) => do
      let matname ← vecAt names i
      match findMaterial self.LoadedMaterials matname with
      | none => pure self
      | some mat =>
        let mesh ← vecAt self.LoadedMeshes i
        pure { self with
          LoadedMeshes := self.LoadedMeshes.set i { mesh with MeshMaterial := mat } })
    (fun _ (t : Loader Flt) => t.LoadedMeshes.length = l.LoadedMeshes.length) l rfl ?_
  · obtain ⟨l', h1, _⟩ := key
    exact ⟨l', h1⟩
  · intro i s hi hs
    have h1 : vecAt names i = .ok names[i] := by
      simp [vecAt, List.getElem?_eq_getElem hi]
    have h2 : i < s.LoadedMeshes.length := by omega
    have h3 : vecAt s.LoadedMeshes i = .ok s.LoadedMeshes[i] := by
      simp [vecAt, List.getElem?_eq_getElem h2]
    simp only [h1, bind, Except.bind]
    cases findMaterial s.LoadedMaterials names[i] with
    | none => exact ⟨s, rfl, hs⟩
    | some mat =>
      simp only [h3]
      exact ⟨_, rfl, by simp [hs]⟩

/-- A `v` line is dealt with by the position branch alone. -/
theorem objLine_position {Flt : Type} (env : Env Flt) (Path : Str) (s : ObjState Flt) (d : Str)
    (hd : firstToken d = ['v']) : objLine env Path s d = positionLine env s d := by
  have e1 : objectLine env s d = .ok s :=
    objectLine_skip env s d _ hd (by decide) (by decide)
  have e3 : ∀ t, texcoordLine env t d = .ok t := fun t =>
    texcoordLine_skip env t d (by rw [hd]; decide)
  have e4 : ∀ t, normalLine env t d = .ok t := fun t =>
    normalLine_skip env t d (by rw [hd]; decide)
  have e5 : ∀ t : ObjState Flt, faceLine t d = .ok t := fun t =>
    faceLine_skip t d (by rw [hd]; decide)
  have e6 : ∀ t, usemtlLine env t d = .ok t := fun t =>
    usemtlLine_skip env t d (by rw [hd]; decide)
  have e7 : ∀ t, mtllibLine env Path t d = .ok t := fun t =>
    mtllibLine_skip env Path t d (by rw [hd]; decide)
  unfold objLine
  simp only [bind, Except.bind, e1]
  cases positionLine env s d with
  | error e => rfl
  | ok s1 => simp only [e3, e4, e5, e6, e7]

/-- A `mtllib` line is dealt with by the library branch alone. -/
theorem objLine_mtllib {Flt : Type} (env : Env Flt) (Path : Str) (s : ObjState Flt) (d : Str)
    (hd : firstToken d = "mtllib".toList) : objLine env Path s d = mtllibLine env Path s d := by
  have e1 : objectLine env s d = .ok s :=
    objectLine_skip env s d _ hd (by decide) (by decide)
  have e2 : positionLine env s d = .ok s := positionLine_skip env s d (by rw [hd]; decide)
  have e3 : texcoordLine env s d = .ok s := texcoordLine_skip env s d (by rw [hd]; decide)
  have e4 : normalLine env s d = .ok s := normalLine_skip env s d (by rw [hd]; decide)
  have e5 : faceLine s d = .ok s := faceLine_skip s d (by rw [hd]; decide)
  have e6 : usemtlLine env s d = .ok s := usemtlLine_skip env s d (by rw [hd]; decide)
  unfold objLine
  simp only [bind, Except.bind, e1, e2, e3, e4, e5, e6]

theorem positionLine_fresh {Flt : Type} (env : Env Flt) (s s' : ObjState Flt) (d : Str)
    (h : positionLine env s d = .ok s') (hs : Fresh s) : Fresh s' := by
  unfold positionLine at h
  split_ifs at h
  · dsimp only at h
    obtain ⟨_, -, h⟩ := bind_ok h
    obtain ⟨_, -, h⟩ := bind_ok h
    obtain ⟨_, -, h⟩ := bind_ok h
    obtain ⟨_, -, h⟩ := bind_ok h
    obtain ⟨_, -, h⟩ := bind_ok h
    obtain ⟨_, -, h⟩ := bind_ok h
    rw [← pure_ok h]
    exact hs
  · rw [← pure_ok h]; exact hs

theorem mtllibLine_fresh {Flt : Type} (env : Env Flt) (Path : Str) (s s' : ObjState Flt)
    (d : Str) (h : mtllibLine env Path s d = .ok s') (hs : Fresh s) : Fresh s' := by
  unfold mtllibLine at h
  split_ifs at h
  · dsimp only at h
    obtain ⟨⟨r, l⟩, hl, h⟩ := bind_ok h
    obtain ⟨h1, _, _, _⟩ := LoadMaterials_keeps env _ _ r l hl
    rw [← pure_ok h]
    obtain ⟨a1, a2, a3, a4, a5, a6, a7⟩ := hs
    exact ⟨a1, a2, a3, a4, a5, a6, h1.trans a7⟩
  · rw [← pure_ok h]; exact hs

/-- Lines that load positions and material libraries leave the state before the
first object. -/
theorem preamble_fresh {Flt : Type} (env : Env Flt) (Path : Str) (pre : List Str)
    (hpre : ∀ d ∈ pre, firstToken d = ['v'] ∨ firstToken d = "mtllib".toList)
    (s s0 : ObjState Flt) (h : pre.foldlM (objLine env Path) s = .ok s0) (hs : Fresh s) :
    Fresh s0 := by
  induction pre generalizing s with
  | nil =>
    rw [List.foldlM_nil] at h
    rw [← pure_ok h]; exact hs
  | cons d rest ih =>
    rw [List.foldlM_cons] at h
    obtain ⟨s1, e1, h⟩ := bind_ok h
    refine ih (fun x hx => hpre x (List.mem_cons_of_mem _ hx)) s1 h ?_
    rcases hpre d (List.mem_cons_self _ _) with hd | hd
    · rw [objLine_position env Path s d hd] at e1
      exact positionLine_fresh env s s1 d e1 hs
    · rw [objLine_mtllib env Path s d hd] at e1
      exact mtllibLine_fresh env Path s s1 d e1 hs

theorem start_fresh {Flt : Type} (self : Loader Flt) (Path : Str) :
    Fresh (ObjState.start self Path) :=
  ⟨rfl, rfl, rfl, rfl, rfl, rfl, rfl⟩

/-- The first `o` line names the mesh. -/
theorem step_object {Flt : Type} (env : Env Flt) (Path : Str) (s : ObjState Flt) (d : Str)
    (hd : firstToken d = ['o']) (hl : s.listening = false) :
    objLine env Path s d = .ok { s with listening := true, meshname := tail d } := by
  rw [objLine_object env Path s d (Or.inl hd)]
  simp [objectLine, isObjectOrGroup, hd, hl, pure, Except.pure]

/-- A `usemtl` line with no face under way records its name. -/
theorem step_usemtl_first {Flt : Type} (env : Env Flt) (Path : Str) (s : ObjState Flt)
    (d : Str) (hd : firstToken d = "usemtl".toList) (hP : s.PositionIndices = []) :
    objLine env Path s d = .ok { s with MeshMatNames := s.MeshMatNames ++ [tail d] } := by
  rw [objLine_usemtl env Path s d hd]
  unfold usemtlLine
  rw [if_pos hd]
  simp [hP, pure, Except.pure]

/-- A `usemtl` line with faces under way records its name and closes them as a
sub-mesh named with the suffix `_2`. -/
theorem step_usemtl_push {Flt : Type} (env : Env Flt) (Path : Str) (s : ObjState Flt)
    (d : Str) (m : Mesh Flt) (hd : firstToken d = "usemtl".toList)
    (hP : s.PositionIndices.isEmpty = false) (hpos : s.loader.LoadedPositions.isEmpty = false)
    (hm : Mesh.new env.zero s.PositionIndices s.TextureIndices s.NormalIndices = .ok m) :
    objLine env Path s d =
      .ok { s with
        MeshMatNames := s.MeshMatNames ++ [tail d],
        loader := { s.loader with
          LoadedMeshes := s.loader.LoadedMeshes ++ [{ m with MeshName := splitName s.meshname }] },
        PositionIndices := [], TextureIndices := [], NormalIndices := [] } := by
  rw [objLine_usemtl env Path s d hd]
  unfold usemtlLine
  rw [if_pos hd]
  simp only [hP, hpos, Bool.not_false, Bool.and_self, if_true, hm, bind, Except.bind, pure,
    Except.pure]

/-- At the end of the file the faces under way are closed as a sub-mesh with
the name of the mesh. -/
theorem lastMesh_push {Flt : Type} (env : Env Flt) (s : ObjState Flt) (m : Mesh Flt)
    (hP : s.PositionIndices.isEmpty = false) (hpos : s.loader.LoadedPositions.isEmpty = false)
    (hm : Mesh.new env.zero s.PositionIndices s.TextureIndices s.NormalIndices = .ok m) :
    lastMesh env s =
      .ok { s.loader with
        LoadedMeshes := s.loader.LoadedMeshes ++ [{ m with MeshName := s.meshname }] } := by
  unfold lastMesh
  simp only [hP, hpos, Bool.not_false, Bool.and_self, if_true, hm, bind, Except.bind, pure,
    Except.pure]

theorem withRecorded_material {Flt : Type} (materials : List (Material Flt)) (names : List Str)
    (i : Nat) (m : Mesh Flt) (X : Str) (h : names[i]? = some X) :
    (withRecorded materials names i m).MeshMaterial =
      (findMaterial materials X).getD m.MeshMaterial := by
  unfold withRecorded
  rw [h]
  simp only
  cases findMaterial materials X with
  | none => rfl
  | some mat => rfl

/-- Two recorded names on two sub-meshes: each sub-mesh gets the material of
the name at its place. -/
theorem setMaterials_two {Flt : Type} (A B : Str) (l0 : Loader Flt) (m1 m2 : Mesh Flt)
    (h : l0.LoadedMeshes = [m1, m2]) :
    ∃ l, setMaterials [A, B] l0 = .ok l ∧
      l.LoadedMeshes = [withRecorded l0.LoadedMaterials [A, B] 0 m1,
        withRecorded l0.LoadedMaterials [A, B] 1 m2] := by
  obtain ⟨l, hl⟩ := setMaterials_total [A, B] l0 (by rw [h]; simp)
  refine ⟨l, hl, ?_⟩
  obtain ⟨_, _, _, _, hm⟩ := setMaterials_spec _ l0 l hl
  apply List.ext_getElem?
  intro i
  rw [hm i, h]
  match i with
  | 0 => rfl
  | 1 => rfl
  | k + 2 => rfl

theorem splitName_eq (name : Str) : splitName name = name ++ "_2".toList := by
  unfold splitName
  rw [List.append_assoc]
  congr 1

/-- C12, the code at an input of the claim: positions, the object line `o N`,
`usemtl A`, two faces, `usemtl B`, one face, the library defining `A` and `B`.
There are two sub-meshes in file order with the materials `A` and `B`, but the
first, with the two faces read under `A`, is the one named `N_2`, and the
second, with the face read under `B`, is named `N`. -/
theorem split_suffix_on_first_fragment :
    (LoadFile (twoFileEnv switchLines ["newmtl A".toList, "newmtl B".toList]) Loader.new
        "mesh.obj".toList).toOption.map
      (fun r => r.2.1.LoadedMeshes.map
        (fun m => (m.MeshName, m.PositionIndices.length, m.MeshMaterial.name))) =
      some [("N_2".toList, 2, "A".toList), ("N".toList, 1, "B".toList)] := by
  decide

/-- C12, amended: after lines that load positions and material libraries, one
`o` line naming `N`, a `usemtl` line naming `A`, one or more well-formed
triangle faces, a `usemtl` line naming `B` and one or more well-formed triangle
faces, `LoadFile` returns true with exactly two sub-meshes in file order: the
first holds the faces read under `A`, is named `N_2` and carries the first
loaded material named `A`; the second holds the faces read under `B`, is named
`N` and carries the first loaded material named `B` (a sub-mesh whose name
matches no loaded material keeps the unset material). -/
theorem usemtl_split_two_submeshes {Flt : Type} (env : Env Flt) (self : Loader Flt)
    (Path : Str) (pre : List Str) (oline uA uB : Str) (facesA facesB : List FaceLine)
    (s0 : ObjState Flt)
    (hpre : ∀ d ∈ pre, firstToken d = ['v'] ∨ firstToken d = "mtllib".toList)
    (hfold : pre.foldlM (objLine env Path) (ObjState.start self Path) = .ok s0)
    (hpos : s0.loader.LoadedPositions.isEmpty = false)
    (ho : firstToken oline = ['o'])
    (hA : firstToken uA = "usemtl".toList) (hB : firstToken uB = "usemtl".toList)
    (hgA : ∀ f ∈ facesA, f.good = true) (hgB : ∀ f ∈ facesB, f.good = true)
    (hneA : facesA ≠ []) (hneB : facesB ≠ []) :
    ∃ (l : Loader Flt) (m1 m2 : Mesh Flt),
      loadLines env self Path
          (pre ++ [oline, uA] ++ facesA.map (fun f => f.line) ++ [uB] ++
            facesB.map (fun f => f.line)) = .ok (true, l, []) ∧
      l.LoadedMeshes = [m1, m2] ∧
      m1.MeshName = tail oline ++ "_2".toList ∧
      m1.PositionIndices = facesA.map FaceLine.positions ∧
      m1.MeshMaterial =
        (findMaterial s0.loader.LoadedMaterials (tail uA)).getD (Material.new env.zero) ∧
      m2.MeshName = tail oline ∧
      m2.PositionIndices = facesB.map FaceLine.positions ∧
      m2.MeshMaterial =
        (findMaterial s0.loader.LoadedMaterials (tail uB)).getD (Material.new env.zero) := by
  have hfresh := preamble_fresh env Path pre hpre _ s0 hfold (start_fresh self Path)
  obtain ⟨loader, P, N, T, names, listening, meshname, printed⟩ := s0
  obtain ⟨rfl, rfl, rfl, rfl, rfl, rfl, hmeshes⟩ := hfresh
  simp only at hmeshes hpos
  obtain ⟨mA, hmA, nA, pA, matA⟩ := Mesh.new_written env.zero
    (facesA.map FaceLine.positions) (facesA.map FaceLine.texcoords)
    (facesA.map FaceLine.normals) (allWritten_texcoords facesA) (allWritten_normals facesA)
  obtain ⟨mB, hmB, nB, pB, matB⟩ := Mesh.new_written env.zero
    (facesB.map FaceLine.positions) (facesB.map FaceLine.texcoords)
    (facesB.map FaceLine.normals) (allWritten_texcoords facesB) (allWritten_normals facesB)
  have hPA : (facesA.map FaceLine.positions).isEmpty = false := by
    cases facesA with
    | nil => exact absurd rfl hneA
    | cons f rest => rfl
  have hPB : (facesB.map FaceLine.positions).isEmpty = false := by
    cases facesB with
    | nil => exact absurd rfl hneB
    | cons f rest => rfl
  have f1 : (pre ++ [oline, uA]).foldlM (objLine env Path) (ObjState.start self Path) =
      .ok ⟨loader, [], [], [], [tail uA], true, tail oline, []⟩ := by
    rw [List.foldlM_append, hfold]
    simp only [bind, Except.bind, List.foldlM_cons, List.foldlM_nil]
    rw [step_object env Path _ oline ho rfl]
    simp only
    rw [step_usemtl_first env Path _ uA hA rfl]
    rfl
  have f2 : (pre ++ [oline, uA] ++ facesA.map (fun f => f.line)).foldlM (objLine env Path)
      (ObjState.start self Path) =
      .ok ⟨loader, facesA.map FaceLine.positions, facesA.map FaceLine.normals,
        facesA.map FaceLine.texcoords, [tail uA], true, tail oline, []⟩ := by
    rw [List.foldlM_append, f1]
    simp only [bind, Except.bind]
    rw [faces_fold env Path facesA hgA]
    rfl
  have f3 : (pre ++ [oline, uA] ++ facesA.map (fun f => f.line) ++ [uB]).foldlM
      (objLine env Path) (ObjState.start self Path) =
      .ok ⟨{ loader with
             LoadedMeshes := loader.LoadedMeshes ++
               [{ mA with MeshName := splitName (tail oline) }] },
        [], [], [], [tail uA, tail uB], true, tail oline, []⟩ := by
    rw [List.foldlM_append, f2]
    simp only [bind, Except.bind, List.foldlM_cons, List.foldlM_nil]
    rw [step_usemtl_push env Path _ uB mA hB hPA hpos hmA]
    rfl
  have f4 : (pre ++ [oline, uA] ++ facesA.map (fun f => f.line) ++ [uB] ++
      facesB.map (fun f => f.line)).foldlM (objLine env Path) (ObjState.start self Path) =
      .ok ⟨{ loader with
             LoadedMeshes := loader.LoadedMeshes ++
               [{ mA with MeshName := splitName (tail oline) }] },
        facesB.map FaceLine.positions, facesB.map FaceLine.normals,
        facesB.map FaceLine.texcoords, [tail uA, tail uB], true, tail oline, []⟩ := by
    rw [List.foldlM_append, f3]
    simp only [bind, Except.bind]
    rw [faces_fold env Path facesB hgB]
    rfl
  have f5 := lastMesh_push env
    (⟨{ loader with
        LoadedMeshes := loader.LoadedMeshes ++
          [{ mA with MeshName := splitName (tail oline) }] },
      facesB.map FaceLine.positions, facesB.map FaceLine.normals,
      facesB.map FaceLine.texcoords, [tail uA, tail uB], true, tail oline, []⟩ : ObjState Flt)
    mB hPB hpos hmB
  obtain ⟨l, f6, hl⟩ := setMaterials_two (tail uA) (tail uB)
    { loader with
      LoadedMeshes := [{ mA with MeshName := splitName (tail oline) },
        { mB with MeshName := tail oline }] }
    { mA with MeshName := splitName (tail oline) } { mB with MeshName := tail oline } rfl
  refine ⟨l, _, _, ?_, hl, ?_, ?_, ?_, ?_, ?_, ?_⟩
  · unfold loadLines
    rw [f4]
    simp only [bind, Except.bind]
    rw [f5]
    simp only [hmeshes, List.nil_append, List.cons_append]
    rw [f6]
    simp only [pure, Except.pure, hl]
    rfl
  · rw [(withRecorded_fields _ _ _ _).1]
    exact splitName_eq (tail oline)
  · rw [(withRecorded_fields _ _ _ _).2.1]
    exact pA
  · rw [withRecorded_material _ _ 0 _ (tail uA) rfl]
    exact congrArg _ matA
  · rw [(withRecorded_fields _ _ _ _).1]
  · rw [(withRecorded_fields _ _ _ _).2.1]
    exact pB
  · rw [withRecorded_material _ _ 1 _ (tail uB) rfl]
    exact congrArg _ matB

theorem usemtl_split_two_submeshes_witness :
    ((∀ d ∈ ["mtllib lib.mtl".toList, "v 0 0 0".toList],
        firstToken d = ['v'] ∨ firstToken d = "mtllib".toList) ∧
      ["mtllib lib.mtl".toList, "v 0 0 0".toList].foldlM
          (objLine (twoFileEnv switchLines ["newmtl A".toList, "newmtl B".toList])
            "mesh.obj".toList) (ObjState.start Loader.new "mesh.obj".toList) =
        .ok switchPreState ∧
      switchPreState.loader.LoadedPositions.isEmpty = false ∧
      firstToken "o N".toList = ['o'] ∧
      firstToken "usemtl A".toList = "usemtl".toList ∧
      firstToken "usemtl B".toList = "usemtl".toList ∧
      (∀ f ∈ [faceOneOneOne, faceOneOneOne], f.good = true) ∧
      (∀ f ∈ [faceOneOneOne], f.good = true)) ∧
    ∃ (l : Loader Int) (m1 m2 : Mesh Int),
      loadLines (twoFileEnv switchLines ["newmtl A".toList, "newmtl B".toList]) Loader.new
          "mesh.obj".toList
          (["mtllib lib.mtl".toList, "v 0 0 0".toList] ++ ["o N".toList, "usemtl A".toList] ++
            [faceOneOneOne, faceOneOneOne].map (fun f => f.line) ++ ["usemtl B".toList] ++
            [faceOneOneOne].map (fun f => f.line)) = .ok (true, l, []) ∧
      l.LoadedMeshes = [m1, m2] ∧
      m1.MeshName = tail "o N".toList ++ "_2".toList ∧
      m1.PositionIndices = [faceOneOneOne, faceOneOneOne].map FaceLine.positions ∧
      m1.MeshMaterial =
        (findMaterial switchPreState.loader.LoadedMaterials (tail "usemtl A".toList)).getD
          (Material.new 0) ∧
      m2.MeshName = tail "o N".toList ∧
      m2.PositionIndices = [faceOneOneOne].map FaceLine.positions ∧
      m2.MeshMaterial =
        (findMaterial switchPreState.loader.LoadedMaterials (tail "usemtl B".toList)).getD
          (Material.new 0) :=
  ⟨⟨by decide, by decide, by decide, by decide, by decide, by decide, by decide, by decide⟩,
    usemtl_split_two_submeshes (twoFileEnv switchLines ["newmtl A".toList, "newmtl B".toList])
      Loader.new "mesh.obj".toList ["mtllib lib.mtl".toList, "v 0 0 0".toList]
      "o N".toList "usemtl A".toList "usemtl B".toList [faceOneOneOne, faceOneOneOne]
      [faceOneOneOne] switchPreState (by decide) (by decide) (by decide) (by decide) (by decide)
      (by decide) (by decide) (by decide) (List.cons_ne_nil _ _) (List.cons_ne_nil _ _)⟩

/-! ## The name an object or group line gives -/

/-- C21, the code at a failing input: the bare line `g`, read before any
object or group, leaves the empty name and not `unnamed`, and the sub-mesh of
the file `v 0 0 0`, `g`, `f 1 1 1` has the empty name; so has the bare line
`o`. The default `unnamed` of lines 398-401 is there, but the test in front of
it sends every line whose first token is `o` or `g` to the tail: it is reached
by a line such as `group`, or `g` with a carriage return left at its end, whose
first character is `g` and whose first token is neither `o` nor `g`. -/
theorem bare_group_line_gives_empty_name :
    meshnameAfter (exampleEnv []) ["g".toList] = some [] ∧
    meshnameAfter (exampleEnv []) ["o".toList] = some [] ∧
    meshnameAfter (exampleEnv []) ["g  ".toList] = some [] ∧
    (LoadFile (exampleEnv ["v 0 0 0".toList, "g".toList, "f 1 1 1".toList]) Loader.new
        "mesh.obj".toList).toOption.map
      (fun r => r.2.1.LoadedMeshes.map (fun m => m.MeshName)) = some [[]] ∧
    meshnameAfter (exampleEnv []) ["group".toList] = some "unnamed".toList ∧
    meshnameAfter (exampleEnv []) [['g', '\r']] = some "unnamed".toList :=
  ⟨by decide, by decide, by decide, by decide, by decide, by decide⟩

/-- A line made of blanks, a keyword of one character and blanks has no tail. -/
theorem keyword_alone_tail (d w1 w2 : Str) (k : Char) (hk : k ∉ blanks)
    (hw1 : ∀ c ∈ w1, c ∈ blanks) (hw2 : ∀ c ∈ w2, c ∈ blanks)
    (hd : d = w1 ++ [k] ++ w2) : tail d = [] := by
  have htok : ∀ c ∈ [k], c ∉ blanks := by
    intro c hc
    rw [List.mem_singleton.1 hc]
    exact hk
  cases w2 with
  | nil =>
    rw [hd, List.append_nil]
    exact (token_only_line w1 [k] k [] rfl hw1 htok).2
  | cons b w2' =>
    rw [hd, List.append_assoc]
    exact (token_blanks_line w1 [k] k [] rfl (b :: w2') b w2' rfl hw1 htok hw2).2

/-- What lines 388-401 do with a line whose first token is `o` or `g`, read
while not yet inside a sub-mesh: the sub-mesh is started and its name is the
tail of the line, whatever the tail is; when no name follows the keyword (the
line is blanks, the keyword and blanks) the name is the empty string. -/
theorem object_line_names_submesh {Flt : Type} (env : Env Flt) (Path : Str)
    (s : ObjState Flt) (d : Str) (hl : s.listening = false)
    (hd : firstToken d = ['o'] ∨ firstToken d = ['g']) :
    objLine env Path s d = .ok { s with listening := true, meshname := tail d } ∧
    ∀ w1 w2 : Str, (∀ c ∈ w1, c ∈ blanks) → (∀ c ∈ w2, c ∈ blanks) →
      d = w1 ++ firstToken d ++ w2 → tail d = [] := by
  constructor
  · rw [objLine_object env Path s d hd]
    rcases hd with hd | hd
    · simp [objectLine, isObjectOrGroup, hd, hl, pure, Except.pure]
    · simp [objectLine, isObjectOrGroup, hd, hl, pure, Except.pure]
  · intro w1 w2 hw1 hw2 hdec
    rcases hd with hd | hd
    · rw [hd] at hdec
      exact keyword_alone_tail d w1 w2 'o' (by decide) hw1 hw2 hdec
    · rw [hd] at hdec
      exact keyword_alone_tail d w1 w2 'g' (by decide) hw1 hw2 hdec

theorem object_line_names_submesh_witness :
    ((ObjState.start (Loader.new : Loader Int) "mesh.obj".toList).listening = false ∧
      (firstToken "g body".toList = ['o'] ∨ firstToken "g body".toList = ['g'])) ∧
    (objLine (exampleEnv []) "mesh.obj".toList
        (ObjState.start Loader.new "mesh.obj".toList) "g body".toList =
      .ok { ObjState.start (Loader.new : Loader Int) "mesh.obj".toList with
            listening := true, meshname := tail "g body".toList } ∧
      ∀ w1 w2 : Str, (∀ c ∈ w1, c ∈ blanks) → (∀ c ∈ w2, c ∈ blanks) →
        "g body".toList = w1 ++ firstToken "g body".toList ++ w2 →
        tail "g body".toList = []) :=
  ⟨⟨rfl, by decide⟩,
    object_line_names_submesh (exampleEnv []) "mesh.obj".toList
      (ObjState.start Loader.new "mesh.obj".toList) "g body".toList rfl (by decide)⟩

/-! ## Bounds of the buffers of `remapMesh` -/

/-- C22, the code at a failing input: `F` and `FTC` have two rows each, the
position indices lie in `[0, 4)` and the texcoord indices in `[0, 2)`. The
first two passes stay in bounds and count four new vertices; the buffers
`tc_new`, `vNew2vOld` and `vNew2TcOld` have `rows(TC) = 2` entries, the
emission of the first two groups fills them, and the write of the third new
vertex at index 2 (lines 55-58) is outside them. -/
theorem remapMesh_write_outside_buffers :
    fourPairsMesh.F.length = fourPairsMesh.FTC.length ∧
    (∀ r ∈ fourPairsMesh.F, rowInRange fourPairsMesh.V.length r = true) ∧
    (∀ r ∈ fourPairsMesh.FTC, rowInRange fourPairsMesh.TC.length r = true) ∧
    buildVtcIndex fourPairsMesh = .ok [[0], [1], [0], [1]] ∧
    (countStart fourPairsMesh.V.length [[0], [1], [0], [1]]).toOption.map
      (fun c => c.count) = some 4 ∧
    (emitTexcoords fourPairsMesh.TC [[0], [1]]).toOption.map
      (fun e => (e.tc_new.length, e.vNew2vOld.length, e.vNew2TcOld.length, e.count)) =
      some (2, 2, 2, 2) ∧
    emitTexcoords fourPairsMesh.TC [[0], [1], [0], [1]] = .error Fault.outOfBounds ∧
    remapMesh noNormals fourPairsMesh = .error Fault.outOfBounds := by
  decide

/-! ## The sub-meshes the material pass indexes -/

/-- C23, the code at a failing input: with two `usemtl M` lines before the only
face, `M` being defined by the library, two names are recorded and there is one
sub-mesh, and the material pass reads `LoadedMeshes[1]` outside the vector; with
`usemtl M` and no face at all one name is recorded, there is no sub-mesh, and
`LoadedMeshes[0]` is outside the vector. -/
theorem material_pass_outside_LoadedMeshes :
    parsedCounts (twoFileEnv twoNamesLines ["newmtl M".toList]) twoNamesLines = some (2, 1) ∧
    LoadFile (twoFileEnv twoNamesLines ["newmtl M".toList]) Loader.new "mesh.obj".toList =
      .error Fault.outOfBounds ∧
    parsedCounts (twoFileEnv ["mtllib lib.mtl".toList, "usemtl M".toList] ["newmtl M".toList])
      ["mtllib lib.mtl".toList, "usemtl M".toList] = some (1, 0) ∧
    LoadFile (twoFileEnv ["mtllib lib.mtl".toList, "usemtl M".toList] ["newmtl M".toList])
      Loader.new "mesh.obj".toList = .error Fault.outOfBounds :=
  ⟨by decide, by decide, by decide, by decide⟩

/-- A recorded name at a place where there is no sub-mesh, matching a loaded
material, makes the material pass read outside `LoadedMeshes`. -/
theorem setMaterials_outside {Flt : Type} (names : List Str) (l : Loader Flt) (i : Nat)
    (X : Str) (mat : Material Flt) (hi : names[i]? = some X)
    (hmat : findMaterial l.LoadedMaterials X = some mat) (hlen : l.LoadedMeshes.length ≤ i) :
    ∃ e, setMaterials names l = .error e := by
  cases h : setMaterials names l with
  | error e => exact ⟨e, rfl⟩
  | ok l' =>
    exfalso
    have hlen' := setMaterials_length names l l' h
    obtain ⟨hm, _, _, _, _⟩ := setMaterials_spec names l l' h
    have hi' : i < names.length := by
      by_contra hc
      rw [List.getElem?_eq_none (by omega)] at hi
      exact Option.noConfusion hi
    unfold setMaterials at h
    have key := forRange_ok_inv names.length _
      (fun k (t : Loader Flt) => k ≤ i ∧ t.LoadedMaterials = l.LoadedMaterials ∧
        t.LoadedMeshes.length = l.LoadedMeshes.length)
      l l' h ⟨Nat.zero_le _, rfl, rfl⟩ ?_
    · omega
    · intro k s t hk ⟨h1, h2, h3⟩ hb
      obtain ⟨matname, hn, hb⟩ := bind_ok hb
      have hname := vecAt_ok _ _ _ hn
      by_cases hki : k = i
      · exfalso
        subst hki
        rw [hi] at hname
        simp only [Option.some.injEq] at hname
        rw [h2, ← hname, hmat] at hb
        obtain ⟨mesh, hmesh, _⟩ := bind_ok hb
        have := vecAt_ok _ _ _ hmesh
        rw [List.getElem?_eq_none (by omega)] at this
        exact Option.noConfusion this
      · refine ⟨by omega, ?_, ?_⟩
        · cases hf : findMaterial s.LoadedMaterials matname with
          | none => rw [hf] at hb; rw [← pure_ok hb]; exact h2
          | some m =>
            rw [hf] at hb
            obtain ⟨mesh, _, hb⟩ := bind_ok hb
            rw [← pure_ok hb]; exact h2
        · cases hf : findMaterial s.LoadedMaterials matname with
          | none => rw [hf] at hb; rw [← pure_ok hb]; exact h3
          | some m =>
            rw [hf] at hb
            obtain ⟨mesh, _, hb⟩ := bind_ok hb
            rw [← pure_ok hb]
            simp [h3]

/-! ## The faces of the sub-meshes -/

theorem facePositions_append (a b : List Str) :
    facePositions (a ++ b) = facePositions a ++ facePositions b := by
  simp [facePositions]

theorem Keeps.allFaces {Flt : Type} (s s' : ObjState Flt) (hk : Keeps s s') :
    allFaces s' = allFaces s := by
  obtain ⟨hm, _, hP, _⟩ := hk
  unfold MeshRemap.allFaces
  rw [hm, hP]

theorem meshFaces_push {Flt : Type} (zero : Flt) (meshes : List (Mesh Flt))
    (P T N : List Vector3i) (m : Mesh Flt) (name : Str)
    (hm : Mesh.new zero P T N = .ok m) :
    meshFaces (meshes ++ [{ m with MeshName := name }]) = meshFaces meshes ++ P := by
  obtain ⟨_, h2, _⟩ := Mesh.new_cases zero P T N m hm
  simp [meshFaces, h2]

theorem objectLine_allFaces {Flt : Type} (env : Env Flt) (s s' : ObjState Flt) (d : Str)
    (h : objectLine env s d = .ok s') : allFaces s' = allFaces s := by
  unfold objectLine at h
  split_ifs at h
  all_goals first
    | (have e := pure_ok h
       subst e
       rfl)
    | (obtain ⟨m, hm, h⟩ := bind_ok h
       rw [← pure_ok h]
       unfold allFaces
       simp only [List.append_nil]
       exact meshFaces_push env.zero _ _ _ _ m _ hm)

theorem usemtlLine_allFaces {Flt : Type} (env : Env Flt) (s s' : ObjState Flt) (d : Str)
    (h : usemtlLine env s d = .ok s') : allFaces s' = allFaces s := by
  unfold usemtlLine at h
  by_cases hd : firstToken d = "usemtl".toList
  · rw [if_pos hd] at h
    dsimp only at h
    split_ifs at h with hg
    · obtain ⟨m, hm, h⟩ := bind_ok h
      rw [← pure_ok h]
      unfold allFaces
      simp only [List.append_nil]
      exact meshFaces_push env.zero _ _ _ _ m _ hm
    · rw [← pure_ok h]; rfl
  · rw [if_neg hd] at h
    rw [← pure_ok h]

theorem faceLine_allFaces {Flt : Type} (s s' : ObjState Flt) (d : Str)
    (h : faceLine s d = .ok s') : allFaces s' = allFaces s ++ facePositions [d] := by
  unfold faceLine at h
  by_cases hd : firstToken d = ['f']
  · rw [if_pos hd] at h
    obtain ⟨r, hr, h⟩ := bind_ok h
    rw [← pure_ok h]
    simp [allFaces, facePositions, facePositionOf, hd, hr]
  · rw [if_neg hd] at h
    rw [← pure_ok h]
    simp [facePositions, facePositionOf, hd]

/-- One line of the file adds its face, if it is an `f` line, after the faces
read so far, and changes nothing else of them. -/
theorem objLine_allFaces {Flt : Type} (env : Env Flt) (Path : Str) (s s' : ObjState Flt)
    (d : Str) (h : objLine env Path s d = .ok s') :
    allFaces s' = allFaces s ++ facePositions [d] := by
  unfold objLine at h
  obtain ⟨s1, e1, h⟩ := bind_ok h
  obtain ⟨s2, e2, h⟩ := bind_ok h
  obtain ⟨s3, e3, h⟩ := bind_ok h
  obtain ⟨s4, e4, h⟩ := bind_ok h
  obtain ⟨s5, e5, h⟩ := bind_ok h
  obtain ⟨s6, e6, h⟩ := bind_ok h
  rw [(mtllibLine_keeps env Path s6 s' d h).allFaces, usemtlLine_allFaces env s5 s6 d e6,
    faceLine_allFaces s4 s5 d e5, (normalLine_keeps env s3 s4 d e4).allFaces,
    (texcoordLine_keeps env s2 s3 d e3).allFaces, (positionLine_keeps env s1 s2 d e2).allFaces,
    objectLine_allFaces env s s1 d e1]

theorem foldl_objLine_allFaces {Flt : Type} (env : Env Flt) (Path : Str) (lines : List Str)
    (s s' : ObjState Flt) (h : lines.foldlM (objLine env Path) s = .ok s') :
    allFaces s' = allFaces s ++ facePositions lines := by
  induction lines generalizing s with
  | nil =>
    rw [List.foldlM_nil] at h
    rw [← pure_ok h]
    simp [facePositions]
  | cons a rest ih =>
    rw [List.foldlM_cons] at h
    obtain ⟨s1, e1, h⟩ := bind_ok h
    rw [ih s1 h, objLine_allFaces env Path s s1 a e1, List.append_assoc,
      ← facePositions_append]
    rfl

/-- The material pass leaves the faces of the sub-meshes as they are. -/
theorem setMaterials_meshFaces {Flt : Type} (names : List Str) (l l' : Loader Flt)
    (h : setMaterials names l = .ok l') : meshFaces l'.LoadedMeshes = meshFaces l.LoadedMeshes := by
  obtain ⟨_, _, _, _, hm⟩ := setMaterials_spec names l l' h
  unfold meshFaces
  congr 1
  apply List.ext_getElem?
  intro i
  rw [List.getElem?_map, List.getElem?_map, hm i]
  cases l.LoadedMeshes[i]? with
  | none => rfl
  | some m =>
    simp only [Option.map_some', Option.some.injEq]
    exact (withRecorded_fields _ _ _ _).2.1

/-- Well-formed face lines of three records contribute the indices written,
less one. -/
theorem facePositions_good (faces : List FaceLine) (hg : ∀ f ∈ faces, f.good = true) :
    facePositions (faces.map (fun f => f.line)) = faces.map FaceLine.positions := by
  induction faces with
  | nil => rfl
  | cons f rest ih =>
    obtain ⟨ha, hb, hc, hft, hsp⟩ := f.good_spec (hg f (List.mem_cons_self _ _))
    have hr := readTriangle_three_records Vector3i.fresh Vector3i.fresh Vector3i.fresh f.line
      f.a f.b f.c ha hb hc hsp
    have h1 : facePositionOf f.line = some f.positions := by
      simp only [facePositionOf, hft, if_true, hr]
      rfl
    have ih' := ih (fun g hgm => hg g (List.mem_cons_of_mem _ hgm))
    unfold facePositions at ih' ⊢
    rw [List.map_cons, List.filterMap_cons, h1, ih', List.map_cons]

/-- When the parse of the lines returns true, the faces of the sub-meshes, in
the order of the sub-meshes, are the faces of the `f` lines in file order. -/
theorem loadLines_faces {Flt : Type} (env : Env Flt) (self : Loader Flt)
    (Path : Str) (lines : List Str) (l : Loader Flt) (pr : List Str)
    (h : loadLines env self Path lines = .ok (true, l, pr)) :
    meshFaces l.LoadedMeshes = facePositions lines := by
  obtain ⟨s, l0, e1, e2, e3, i1, _⟩ := loadLines_parts env self Path lines true l pr h
  have hall := foldl_objLine_allFaces env Path lines _ s e1
  have hstart : allFaces (ObjState.start self Path) = [] := rfl
  rw [hstart, List.nil_append] at hall
  have hset := setMaterials_meshFaces _ l0 l e3
  have hlen := setMaterials_length _ l0 l e3
  obtain ⟨_, hpos, _, _, _⟩ := setMaterials_spec _ l0 l e3
  have hr : (l.LoadedMeshes.isEmpty && l.LoadedPositions.isEmpty) = false := by
    unfold loadLines at h
    obtain ⟨s', _, h⟩ := bind_ok h
    obtain ⟨l0', _, h⟩ := bind_ok h
    obtain ⟨l1, _, h⟩ := bind_ok h
    have h' := pure_ok h
    simp only [Prod.mk.injEq] at h'
    rw [← h'.2.1]
    have h1 := h'.1
    cases hb : (l1.LoadedMeshes.isEmpty && l1.LoadedPositions.isEmpty) with
    | false => rfl
    | true =>
      rw [hb] at h1
      exact absurd h1 (by decide)
  rw [hset, ← hall]
  unfold lastMesh at e2
  split_ifs at e2 with hg
  · obtain ⟨m, hm, e2⟩ := bind_ok e2
    rw [← pure_ok e2]
    exact meshFaces_push env.zero _ _ _ _ m _ hm
  · rw [← pure_ok e2]
    rw [← pure_ok e2] at hlen hpos
    unfold allFaces
    by_cases hP : s.PositionIndices = []
    · rw [hP, List.append_nil]
    · exfalso
      have hpe : s.loader.LoadedPositions = [] := by
        by_contra hc
        exact hg ((guard_iff s).2 ⟨hP, hc⟩)
      have hme : s.loader.LoadedMeshes = [] := by
        by_contra hc
        exact i1.1.2 hc hpe
      rw [hme] at hlen
      rw [List.length_eq_zero.1 hlen, hpos, hpe] at hr
      simp at hr

/-- C24: when `LoadFile` succeeds on the lines of an opened file, the
`PositionIndices` lists of the sub-meshes, concatenated in the order of
`LoadedMeshes`, are exactly the position-index triples of the `f` lines in file
order: the splits at `o`, `g` and `usemtl` lines and at the end of the file
lose, repeat or reorder no face. -/
theorem LoadFile_loses_no_face {Flt : Type} (env : Env Flt) (self : Loader Flt)
    (Path : Str) (lines : List Str) (l : Loader Flt) (pr : List Str)
    (h : loadLines env self Path lines = .ok (true, l, pr)) :
    (l.LoadedMeshes.map (fun m => m.PositionIndices)).flatten = facePositions lines :=
  loadLines_faces env self Path lines l pr h

theorem LoadFile_loses_no_face_witness :
    loadLines (twoFileEnv twoObjectsLines ["newmtl M".toList, "Ns 5".toList]) Loader.new
        "mesh.obj".toList twoObjectsLines = .ok (true, twoObjectsLoaded, []) ∧
    (twoObjectsLoaded.LoadedMeshes.map (fun m => m.PositionIndices)).flatten =
      facePositions twoObjectsLines :=
  ⟨by decide, LoadFile_loses_no_face
    (twoFileEnv twoObjectsLines ["newmtl M".toList, "Ns 5".toList]) Loader.new
    "mesh.obj".toList twoObjectsLines twoObjectsLoaded [] (by decide)⟩

/-! ## What `LoadFile` does not look at: the position indices -/

theorem map_bind_congr {α β γ : Type} (x : Except Fault α) (f g : α → Except Fault β)
    (k : β → γ) (H : ∀ a, Except.map k (f a) = Except.map k (g a)) :
    Except.map k (x >>= f) = Except.map k (x >>= g) := by
  cases x with
  | error e => rfl
  | ok a => exact H a

theorem bind_respects {α β γ δ : Type} (x y : Except Fault α) (h : α → γ)
    (f g : α → Except Fault β) (k : β → δ)
    (hxy : Except.map h x = Except.map h y)
    (H : ∀ a b, h a = h b → Except.map k (f a) = Except.map k (g b)) :
    Except.map k (x >>= f) = Except.map k (y >>= g) := by
  cases x with
  | error e =>
    cases y with
    | error e' =>
      simp only [Except.map, Except.error.injEq] at hxy
      rw [hxy]; rfl
    | ok b => simp [Except.map] at hxy
  | ok a =>
    cases y with
    | error e' => simp [Except.map] at hxy
    | ok b =>
      simp only [Except.map, Except.ok.injEq] at hxy
      exact H a b hxy

theorem blankRows_isEmpty (P : List Vector3i) : (blankRows P).isEmpty = P.isEmpty := by
  cases P <;> rfl

theorem blankRows_blankRows (P : List Vector3i) : blankRows (blankRows P) = blankRows P := by
  simp [blankRows]

theorem blankRows_append (P Q : List Vector3i) :
    blankRows (P ++ Q) = blankRows P ++ blankRows Q := by
  simp [blankRows]

theorem forget_mesh_twice {Flt : Type} (m : Mesh Flt) : m.forget.forget = m.forget := by
  simp [Mesh.forget, blankRows_blankRows]

theorem Mesh.forget_comp {Flt : Type} :
    (Mesh.forget ∘ Mesh.forget : Mesh Flt → Mesh Flt) = Mesh.forget :=
  funext forget_mesh_twice

theorem Mesh.forget_rename {Flt : Type} (m m' : Mesh Flt) (name : Str)
    (h : m.forget = m'.forget) :
    ({ m with MeshName := name } : Mesh Flt).forget = ({ m' with MeshName := name } : Mesh Flt).forget := by
  simp only [Mesh.forget, Mesh.mk.injEq] at h ⊢
  exact ⟨trivial, h.2.1, h.2.2.1, h.2.2.2.1, h.2.2.2.2⟩

theorem forget_loader_twice {Flt : Type} (l : Loader Flt) : l.forget.forget = l.forget := by
  simp [Loader.forget, forget_mesh_twice]

theorem forget_state_twice {Flt : Type} (s : ObjState Flt) : s.forget.forget = s.forget := by
  simp [ObjState.forget, forget_loader_twice, blankRows_blankRows]

theorem Mesh.new_forget {Flt σ γ : Type} (zero : Flt) (P T N : List Vector3i) (k : σ → γ)
    (K : Mesh Flt → σ) (K' : Mesh Flt → σ)
    (H : ∀ m m' : Mesh Flt, m.forget = m'.forget → k (K m) = k (K' m')) :
    Except.map k (Mesh.new zero P T N >>= fun m => pure (K m)) =
      Except.map k (Mesh.new zero (blankRows P) T N >>= fun m => pure (K' m)) := by
  unfold Mesh.new
  cases clearIfNegative T with
  | error e => rfl
  | ok t =>
    cases clearIfNegative N with
    | error e => rfl
    | ok n =>
      simp only [bind, Except.bind, pure, Except.pure, Except.map]
      congr 1
      apply H
      simp [Mesh.forget, blankRows_blankRows]

theorem objectLine_forget {Flt : Type} (env : Env Flt) (s : ObjState Flt) (d : Str) :
    Except.map ObjState.forget (objectLine env s d) =
      Except.map ObjState.forget (objectLine env s.forget d) := by
  unfold objectLine
  have hl : s.forget.listening = s.listening := rfl
  have hP : (!s.forget.PositionIndices.isEmpty && !s.forget.loader.LoadedPositions.isEmpty) =
      (!s.PositionIndices.isEmpty && !s.loader.LoadedPositions.isEmpty) := by
    show (!(blankRows s.PositionIndices).isEmpty && _) = _
    rw [blankRows_isEmpty]
    rfl
  rw [hl, hP]
  split_ifs
  all_goals first
    | rfl
    | (simp only [pure, Except.pure, Except.map, ObjState.forget, Loader.forget,
         blankRows_blankRows, forget_mesh_twice, List.map_map]
       done)
    | (simp [pure, Except.pure, Except.map, ObjState.forget, Loader.forget, blankRows_blankRows,
         forget_mesh_twice]
       done)
    | (apply Mesh.new_forget
       intro m m' hm
       have hr := Mesh.forget_rename m m' s.meshname hm
       simp only [ObjState.forget, Loader.forget, List.map_append, List.map_map,
         Mesh.forget_comp, List.map_cons, List.map_nil, hr])

theorem positionLine_forget {Flt : Type} (env : Env Flt) (s : ObjState Flt) (d : Str) :
    Except.map ObjState.forget (positionLine env s d) =
      Except.map ObjState.forget (positionLine env s.forget d) := by
  unfold positionLine
  split_ifs
  · dsimp only
    refine map_bind_congr _ _ _ _ (fun _ => ?_)
    refine map_bind_congr _ _ _ _ (fun _ => ?_)
    refine map_bind_congr _ _ _ _ (fun _ => ?_)
    refine map_bind_congr _ _ _ _ (fun _ => ?_)
    refine map_bind_congr _ _ _ _ (fun _ => ?_)
    refine map_bind_congr _ _ _ _ (fun _ => ?_)
    simp [pure, Except.pure, Except.map, ObjState.forget, Loader.forget, blankRows_blankRows,
      Mesh.forget_comp]
  · simp [pure, Except.pure, Except.map, forget_state_twice]

theorem texcoordLine_forget {Flt : Type} (env : Env Flt) (s : ObjState Flt) (d : Str) :
    Except.map ObjState.forget (texcoordLine env s d) =
      Except.map ObjState.forget (texcoordLine env s.forget d) := by
  unfold texcoordLine
  split_ifs
  · dsimp only
    refine map_bind_congr _ _ _ _ (fun _ => ?_)
    refine map_bind_congr _ _ _ _ (fun _ => ?_)
    refine map_bind_congr _ _ _ _ (fun _ => ?_)
    refine map_bind_congr _ _ _ _ (fun _ => ?_)
    simp [pure, Except.pure, Except.map, ObjState.forget, Loader.forget, blankRows_blankRows,
      Mesh.forget_comp]
  · simp [pure, Except.pure, Except.map, forget_state_twice]

theorem normalLine_forget {Flt : Type} (env : Env Flt) (s : ObjState Flt) (d : Str) :
    Except.map ObjState.forget (normalLine env s d) =
      Except.map ObjState.forget (normalLine env s.forget d) := by
  unfold normalLine
  split_ifs
  · dsimp only
    refine map_bind_congr _ _ _ _ (fun _ => ?_)
    refine map_bind_congr _ _ _ _ (fun _ => ?_)
    refine map_bind_congr _ _ _ _ (fun _ => ?_)
    refine map_bind_congr _ _ _ _ (fun _ => ?_)
    refine map_bind_congr _ _ _ _ (fun _ => ?_)
    refine map_bind_congr _ _ _ _ (fun _ => ?_)
    simp [pure, Except.pure, Except.map, ObjState.forget, Loader.forget, blankRows_blankRows,
      Mesh.forget_comp]
  · simp [pure, Except.pure, Except.map, forget_state_twice]

theorem faceLine_forget {Flt : Type} (s : ObjState Flt) (d : Str) :
    Except.map ObjState.forget (faceLine s d) =
      Except.map ObjState.forget (faceLine s.forget d) := by
  unfold faceLine
  split_ifs
  · refine map_bind_congr _ _ _ _ (fun _ => ?_)
    simp [pure, Except.pure, Except.map, ObjState.forget, Loader.forget, blankRows_blankRows,
      Mesh.forget_comp, blankRows_append]
  · simp [pure, Except.pure, Except.map, forget_state_twice]

theorem usemtlLine_forget {Flt : Type} (env : Env Flt) (s : ObjState Flt) (d : Str) :
    Except.map ObjState.forget (usemtlLine env s d) =
      Except.map ObjState.forget (usemtlLine env s.forget d) := by
  unfold usemtlLine
  by_cases hd : firstToken d = "usemtl".toList
  · rw [if_pos hd, if_pos hd]
    dsimp only
    have hP : (!s.forget.PositionIndices.isEmpty && !s.forget.loader.LoadedPositions.isEmpty) =
        (!s.PositionIndices.isEmpty && !s.loader.LoadedPositions.isEmpty) := by
      show (!(blankRows s.PositionIndices).isEmpty && _) = _
      rw [blankRows_isEmpty]
      rfl
    rw [hP]
    split_ifs
    · apply Mesh.new_forget
      intro m m' hm
      have hr := Mesh.forget_rename m m' (splitName s.meshname) hm
      simp only [ObjState.forget, Loader.forget, List.map_append, List.map_map,
        Mesh.forget_comp, List.map_cons, List.map_nil, hr]
    · simp [pure, Except.pure, Except.map, ObjState.forget, Loader.forget, blankRows_blankRows,
        Mesh.forget_comp]
  · rw [if_neg hd, if_neg hd]
    simp [pure, Except.pure, Except.map, forget_state_twice]

theorem LoadMaterials_forget {Flt : Type} (env : Env Flt) (l : Loader Flt) (path : Str) :
    Except.map (fun r : Bool × Loader Flt => r.2.forget) (LoadMaterials env l path) =
      Except.map (fun r : Bool × Loader Flt => r.2.forget)
        (LoadMaterials env l.forget path) := by
  unfold LoadMaterials
  refine map_bind_congr _ _ _ _ (fun ext => ?_)
  split_ifs
  · simp [pure, Except.pure, Except.map, forget_loader_twice]
  · cases env.readLines path with
    | none => simp [pure, Except.pure, Except.map, forget_loader_twice]
    | some lines =>
      have hm : l.forget.LoadedMaterials = l.LoadedMaterials := rfl
      simp only [hm]
      refine map_bind_congr _ _ _ _ (fun st => ?_)
      simp [pure, Except.pure, Except.map, Loader.forget, Mesh.forget_comp]

theorem mtllibLine_forget {Flt : Type} (env : Env Flt) (Path : Str) (s : ObjState Flt)
    (d : Str) :
    Except.map ObjState.forget (mtllibLine env Path s d) =
      Except.map ObjState.forget (mtllibLine env Path s.forget d) := by
  unfold mtllibLine
  split_ifs
  · dsimp only
    have hl : s.forget.loader = s.loader.forget := rfl
    rw [hl]
    refine bind_respects _ _ (fun r : Bool × Loader Flt => r.2.forget) _ _ _
      (LoadMaterials_forget env s.loader _) ?_
    intro a b hab
    simp only [pure, Except.pure, Except.map, ObjState.forget, blankRows_blankRows]
    simp only at hab
    rw [hab]
  · simp [pure, Except.pure, Except.map, forget_state_twice]

/-- A step that does not look at the position indices treats two states alike
that differ in position indices only. -/
theorem step_congr {σ : Type} (h : σ → σ) (step : σ → Except Fault σ)
    (H : ∀ s, Except.map h (step s) = Except.map h (step (h s))) (a b : σ) (hab : h a = h b) :
    Except.map h (step a) = Except.map h (step b) := by
  rw [H a, H b, hab]

/-- One line of the file does not look at the position indices read so far. -/
theorem objLine_congr {Flt : Type} (env : Env Flt) (Path : Str) (a b : ObjState Flt) (d : Str)
    (hab : a.forget = b.forget) :
    Except.map ObjState.forget (objLine env Path a d) =
      Except.map ObjState.forget (objLine env Path b d) := by
  unfold objLine
  refine bind_respects _ _ ObjState.forget _ _ _
    (step_congr _ _ (fun s => objectLine_forget env s d) a b hab) (fun a b hab => ?_)
  refine bind_respects _ _ ObjState.forget _ _ _
    (step_congr _ _ (fun s => positionLine_forget env s d) a b hab) (fun a b hab => ?_)
  refine bind_respects _ _ ObjState.forget _ _ _
    (step_congr _ _ (fun s => texcoordLine_forget env s d) a b hab) (fun a b hab => ?_)
  refine bind_respects _ _ ObjState.forget _ _ _
    (step_congr _ _ (fun s => normalLine_forget env s d) a b hab) (fun a b hab => ?_)
  refine bind_respects _ _ ObjState.forget _ _ _
    (step_congr _ _ (fun s => faceLine_forget s d) a b hab) (fun a b hab => ?_)
  refine bind_respects _ _ ObjState.forget _ _ _
    (step_congr _ _ (fun s => usemtlLine_forget env s d) a b hab) (fun a b hab => ?_)
  exact step_congr _ _ (fun s => mtllibLine_forget env Path s d) a b hab

/-- Two well-formed face lines with the same texcoord and normal indices are
treated alike, whatever position indices they give. -/
theorem objLine_faces_congr {Flt : Type} (env : Env Flt) (Path : Str) (a b : ObjState Flt)
    (f g : FaceLine) (hf : f.good = true) (hg : g.good = true)
    (ht : f.texcoords = g.texcoords) (hn : f.normals = g.normals)
    (hab : a.forget = b.forget) :
    Except.map ObjState.forget (objLine env Path a f.line) =
      Except.map ObjState.forget (objLine env Path b g.line) := by
  obtain ⟨fa, fb, fc, fft, fsp⟩ := f.good_spec hf
  obtain ⟨ga, gb, gc, gft, gsp⟩ := g.good_spec hg
  rw [objLine_face env Path a f.line f.a f.b f.c fa fb fc fft fsp,
    objLine_face env Path b g.line g.a g.b g.c ga gb gc gft gsp]
  simp only [FaceLine.texcoords, FaceLine.normals] at ht hn
  simp only [ObjState.forget, ObjState.mk.injEq] at hab
  obtain ⟨h1, h2, h3, h4, h5, h6, h7, h8⟩ := hab
  simp only [Except.map, ObjState.forget, blankRows_append, Except.ok.injEq, ObjState.mk.injEq]
  exact ⟨h1, by rw [h2]; rfl, by rw [h3, hn], by rw [h4, ht], h5, h6, h7, h8⟩

/-- Files that differ at most in the position indices of their well-formed face
lines leave states that differ at most in the position indices stored. -/
theorem foldl_objLine_congr {Flt : Type} (env : Env Flt) (Path : Str) (lines lines' : List Str)
    (hsame : List.Forall₂ SameButPositions lines lines') (a b : ObjState Flt)
    (hab : a.forget = b.forget) :
    Except.map ObjState.forget (lines.foldlM (objLine env Path) a) =
      Except.map ObjState.forget (lines'.foldlM (objLine env Path) b) := by
  induction hsame generalizing a b with
  | nil =>
    simp only [List.foldlM_nil, pure, Except.pure, Except.map]
    rw [hab]
  | cons hd _ ih =>
    rw [List.foldlM_cons, List.foldlM_cons]
    refine bind_respects _ _ ObjState.forget _ _ _ ?_ (fun a b hab => ih a b hab)
    rcases hd with rfl | ⟨f, g, hf, hg, rfl, rfl, ht, hn⟩
    · exact objLine_congr env Path a b _ hab
    · exact objLine_faces_congr env Path a b f g hf hg ht hn hab

theorem lastMesh_forget {Flt : Type} (env : Env Flt) (s : ObjState Flt) :
    Except.map Loader.forget (lastMesh env s) =
      Except.map Loader.forget (lastMesh env s.forget) := by
  unfold lastMesh
  have hP : (!s.forget.PositionIndices.isEmpty && !s.forget.loader.LoadedPositions.isEmpty) =
      (!s.PositionIndices.isEmpty && !s.loader.LoadedPositions.isEmpty) := by
    show (!(blankRows s.PositionIndices).isEmpty && _) = _
    rw [blankRows_isEmpty]
    rfl
  rw [hP]
  split_ifs
  · apply Mesh.new_forget
    intro m m' hm
    have hr := Mesh.forget_rename m m' s.meshname hm
    simp only [ObjState.forget, Loader.forget, List.map_append, List.map_map,
      Mesh.forget_comp, List.map_cons, List.map_nil, hr]
  · simp [pure, Except.pure, Except.map, ObjState.forget, forget_loader_twice]

theorem lastMesh_congr {Flt : Type} (env : Env Flt) (a b : ObjState Flt)
    (hab : a.forget = b.forget) :
    Except.map Loader.forget (lastMesh env a) = Except.map Loader.forget (lastMesh env b) := by
  rw [lastMesh_forget env a, lastMesh_forget env b, hab]

theorem forRange_respects {σ γ : Type} (h : σ → γ) (n : Nat)
    (body : Nat → σ → Except Fault σ)
    (H : ∀ i a b, h a = h b → Except.map h (body i a) = Except.map h (body i b))
    (a b : σ) (hab : h a = h b) :
    Except.map h (forRange n body a) = Except.map h (forRange n body b) := by
  induction n with
  | zero =>
    rw [forRange_zero, forRange_zero]
    simp only [Except.map, hab]
  | succ k ih =>
    rw [forRange_succ, forRange_succ]
    exact bind_respects _ _ h _ _ _ ih (fun a b hab => H k a b hab)

/-- The material pass does not look at the position indices of the
sub-meshes. -/
theorem setMaterials_congr {Flt : Type} (names : List Str) (a b : Loader Flt)
    (hab : a.forget = b.forget) :
    Except.map Loader.forget (setMaterials names a) =
      Except.map Loader.forget (setMaterials names b) := by
  unfold setMaterials
  refine forRange_respects Loader.forget _ _ ?_ a b hab
  intro i a b hab
  refine map_bind_congr _ _ _ _ (fun matname => ?_)
  have hab' := hab
  simp only [Loader.forget, Loader.mk.injEq] at hab'
  obtain ⟨h1, h2, h3, h4, h5, h6⟩ := hab'
  rw [h6]
  cases findMaterial b.LoadedMaterials matname with
  | none =>
    simp only [pure, Except.pure, Except.map]
    rw [hab]
  | some mat =>
    simp only
    have hi : (a.LoadedMeshes[i]?).map Mesh.forget = (b.LoadedMeshes[i]?).map Mesh.forget := by
      rw [← List.getElem?_map, ← List.getElem?_map, h2]
    unfold vecAt
    rw [List.get?_eq_getElem?, List.get?_eq_getElem?]
    cases ha : a.LoadedMeshes[i]? with
    | none =>
      rw [ha] at hi
      cases hb : b.LoadedMeshes[i]? with
      | none => rfl
      | some mb => rw [hb] at hi; simp at hi
    | some ma =>
      rw [ha] at hi
      cases hb : b.LoadedMeshes[i]? with
      | none => rw [hb] at hi; simp at hi
      | some mb =>
        rw [hb] at hi
        simp only [Option.map_some', Option.some.injEq] at hi
        simp only [bind, Except.bind, pure, Except.pure, Except.map, Loader.forget,
          Except.ok.injEq, Loader.mk.injEq, List.map_set]
        refine ⟨h1, ?_, h3, h4, h5, trivial⟩
        rw [h2]
        congr 1
        simp only [Mesh.forget, Mesh.mk.injEq] at hi ⊢
        exact ⟨hi.1, hi.2.1, hi.2.2.1, hi.2.2.2.1, trivial⟩

/-- Files that differ at most in the position indices of their well-formed face
lines are parsed alike: the same fault, or the same value returned, the same
text printed and loaders that differ at most in the position indices of the
sub-meshes. -/
theorem loadLines_congr {Flt : Type} (env : Env Flt) (self : Loader Flt) (Path : Str)
    (lines lines' : List Str) (hsame : List.Forall₂ SameButPositions lines lines') :
    Except.map forgetResult (loadLines env self Path lines) =
      Except.map forgetResult (loadLines env self Path lines') := by
  unfold loadLines
  refine bind_respects _ _ ObjState.forget _ _ _
    (foldl_objLine_congr env Path lines lines' hsame _ _ rfl) (fun a b hab => ?_)
  have hab' := hab
  simp only [ObjState.forget, ObjState.mk.injEq] at hab'
  obtain ⟨-, -, -, -, hnames, -, -, hprinted⟩ := hab'
  refine bind_respects _ _ Loader.forget _ _ _ (lastMesh_congr env a b hab) (fun l l' hl => ?_)
  rw [hnames]
  refine bind_respects _ _ Loader.forget _ _ _ (setMaterials_congr _ l l' hl) (fun l l' hl => ?_)
  have hl' := hl
  simp only [Loader.forget, Loader.mk.injEq] at hl'
  obtain ⟨-, hm, hp, -, -, -⟩ := hl'
  have hme : l.LoadedMeshes.isEmpty = l'.LoadedMeshes.isEmpty := by
    have e : ∀ L : List (Mesh Flt), (L.map Mesh.forget).isEmpty = L.isEmpty :=
      fun L => by cases L <;> rfl
    have := congrArg List.isEmpty hm
    rwa [e, e] at this
  simp only [pure, Except.pure, Except.map, forgetResult, hl, hme, hp, hprinted]

/-- Well-formed face lines of three records contribute the indices written,
less one, whatever they are. -/
theorem facePositionOf_good (g : FaceLine) (hg : g.good = true) :
    facePositionOf g.line = some g.positions := by
  obtain ⟨ha, hb, hc, hft, hsp⟩ := g.good_spec hg
  have hr := readTriangle_three_records Vector3i.fresh Vector3i.fresh Vector3i.fresh g.line
    g.a g.b g.c ha hb hc hsp
  simp only [facePositionOf, hft, if_true, hr]
  rfl

/-- C10, amended: `LoadFile` never compares a position index with the number of
loaded positions. Take any file on which the parse returns, and write any other
well-formed (positive decimal) position indices in its well-formed `f` lines,
in range or not, leaving the texcoord and normal indices: the parse returns
again, with the same value and the same text printed, the same positions
loaded and a loader that differs at most in the position indices stored; when
the value is true the position indices of the sub-meshes are those of the `f`
lines in file order, which for a well-formed `f` line are the indices written
less one. -/
theorem LoadFile_ignores_position_indices {Flt : Type} (env : Env Flt) (self : Loader Flt)
    (Path : Str) (lines lines' : List Str) (r : Bool) (l : Loader Flt) (pr : List Str)
    (hsame : List.Forall₂ SameButPositions lines lines')
    (h : loadLines env self Path lines = .ok (r, l, pr)) :
    ∃ l' : Loader Flt, loadLines env self Path lines' = .ok (r, l', pr) ∧
      l'.forget = l.forget ∧ l'.LoadedPositions = l.LoadedPositions ∧
      l'.LoadedMeshes.length = l.LoadedMeshes.length ∧
      (r = true → meshFaces l'.LoadedMeshes = facePositions lines') ∧
      ∀ g : FaceLine, g.good = true → facePositionOf g.line = some g.positions := by
  have hc := loadLines_congr env self Path lines lines' hsame
  rw [h] at hc
  cases h' : loadLines env self Path lines' with
  | error e =>
    rw [h'] at hc
    simp [Except.map] at hc
  | ok res =>
    obtain ⟨r', l', pr'⟩ := res
    rw [h'] at hc
    simp only [Except.map, forgetResult, Except.ok.injEq, Prod.mk.injEq] at hc
    obtain ⟨hr, hl, hp⟩ := hc
    subst hr
    subst hp
    have hl' := hl
    simp only [Loader.forget, Loader.mk.injEq] at hl'
    obtain ⟨-, hm, hpos, -, -, -⟩ := hl'
    refine ⟨l', rfl, hl.symm, hpos.symm, ?_, ?_, facePositionOf_good⟩
    · have := congrArg List.length hm
      simpa using this.symm
    · intro hr
      subst hr
      exact loadLines_faces env self Path lines' l' pr h'

theorem LoadFile_ignores_position_indices_witness :
    (List.Forall₂ SameButPositions inRangeLines outOfRangeLines ∧
      loadLines (exampleEnv []) Loader.new "mesh.obj".toList inRangeLines =
        .ok (true, inRangeLoaded, [])) ∧
    ∃ l' : Loader Int,
      loadLines (exampleEnv []) Loader.new "mesh.obj".toList outOfRangeLines =
        .ok (true, l', []) ∧
      l'.forget = inRangeLoaded.forget ∧ l'.LoadedPositions = inRangeLoaded.LoadedPositions ∧
      l'.LoadedMeshes.length = inRangeLoaded.LoadedMeshes.length ∧
      (true = true → meshFaces l'.LoadedMeshes = facePositions outOfRangeLines) ∧
      ∀ g : FaceLine, g.good = true → facePositionOf g.line = some g.positions :=
  ⟨⟨.cons (Or.inl rfl) (.cons (Or.inl rfl)
      (.cons (Or.inr ⟨faceOneOneOne, faceFiveSixSeven, by decide, by decide, rfl, rfl,
        by decide, by decide⟩)
      (.cons (Or.inl rfl) (.cons (Or.inl rfl) .nil)))), by decide⟩,
    LoadFile_ignores_position_indices (exampleEnv []) Loader.new "mesh.obj".toList
      inRangeLines outOfRangeLines true inRangeLoaded []
      (.cons (Or.inl rfl) (.cons (Or.inl rfl)
        (.cons (Or.inr ⟨faceOneOneOne, faceFiveSixSeven, by decide, by decide, rfl, rfl,
          by decide, by decide⟩)
        (.cons (Or.inl rfl) (.cons (Or.inl rfl) .nil)))))
      (by decide)⟩

end MeshRemap
